import Mathlib

/-!
# kiteq file store: the sharded in-memory index and its oplog

A shallow embedding of `store/file/kite_file_store.go` (the `KiteFileStore`
index) and of `store/file/kite_message_store.go` (the `MessageStore`), in two layers.

* The index layer, at the top of the namespace `KiteQ`: the shard maps and lists, with
  the message store reduced to what the index observes of it (a counter, a flag, a queue,
  one log).  It gives the data effect of a call on the index on the path where the calls
  into the message store return; the locks and the lookup of the owning segment are not in
  it.  `PageQueryEntity`, `replay`, `hash` and `Monitor`, which do not call into the message
  store, are embedded in full here.
* The segmented layer, in the namespace `Segmented`: the message store with its segments
  (`indexSegment`, `remove`, `recoverSnapshot`, `checkRoll`, `Append`, `sync`), the lock
  calls of `Append` and `checkRoll` (`AppendLocked`, `checkRollLocked`), and the file store
  over it (`Segmented.KiteFileStore`): `Save` through `Append` with its locks, `Commit`,
  `UpdateEntity`, `Delete`, `Expired` through `indexSegment`, `Start` through `load`.
  On a running store a call of `Append`, and with it `Save`, never returns; for a chunk id
  that no segment covers, `indexSegment` panics.

Conventions of the embedding

* Go `int`, `int32`, `int64` values that are only copied and compared are `Int`;
  the sums the source computes on them (`atomic.AddInt64(&chunkId, 1)`, the `id + 1` of
  `checkRoll`, the `limit+1` of `PageQueryEntity`) wrap at 64 bits.
* A call that panics in Go (index out of range, slicing with a negative bound, `make`
  with a capacity out of range) returns `none`, or the outcome `panicked` where the
  outcome of a call is explicit.
* `container/list` is a Go list of elements with pointer identity.  An element is
  a pair of its address `ptr` and its `Value`; a list is the sequence of its
  elements, front first.  The shard map stores element addresses.
* `json.Marshal` followed by `json.Unmarshal` on an `opBody` is the identity; the
  serialised form is `some ob`, and `none` is a nil or empty byte string, which
  `json.Unmarshal` rejects.
* Every operation is embedded as one uninterrupted call.  Locks (`sync.RWMutex`) are
  explicit where a call requests a mutex that it may hold itself (`AppendLocked`,
  `checkRollLocked`, `Segmented.KiteFileStore.Save`), with the outcome of a call being that
  it returns, is stuck, or panics.
* Integers of type `int` are 64 bits wide.  The one allocation with a computed capacity,
  `make([]*MessageEntity, 0, limit+1)` in `PageQueryEntity`, panics when the capacity is
  out of range; an allocation that passes the range check succeeds.
* File-system outcomes are inputs: the result of the oplog write inside
  `MessageStore.Append`, on which the source branches, is the parameter `slogOk`.
-/

namespace KiteQ

/-! ## Data model -/

/-- The mutable projection of a live message (`type opBody struct`). -/
structure opBody where
  Id : Int
  MessageId : String
  Commit : Bool
  FailGroups : List String
  SuccGroups : List String
  NextDeliverTime : Int
  DeliverCount : Int
deriving DecidableEq, Repr

/-- Modelled from the spec: the `MessageEntity` record of package `kiteq/store`, whose
declaration is not part of the store/file sources.  The fields are those the file store
reads or writes; `Body` is the opaque payload (`none` is a nil body). -/
structure MessageEntity where
  MessageId : String
  Body : Option String
  Commit : Bool
  FailGroups : List String
  SuccGroups : List String
  NextDeliverTime : Int
  DeliverCount : Int
deriving DecidableEq, Repr

/-- The shard count (`const CONCURRENT_LEVEL = 16`). -/
abbrev CONCURRENT_LEVEL : Nat := 16

/-- A `*list.Element` of `container/list`: its address and its `Value`. -/
structure Element where
  ptr : Nat
  Value : opBody
deriving DecidableEq, Repr

/-- A `*list.List`, front element first. -/
abbrev LinkList := List Element

/-- A shard map `map[string]*list.Element`, as an association list from message id to
element address. -/
abbrev OplogMap := List (String × Nat)

/-! ## container/list and map primitives -/

/-- The call `l.PushFront(v)`, the new element being allocated at address `p`. -/
def PushFront (l : LinkList) (p : Nat) (v : opBody) : LinkList :=
  { ptr := p, Value := v } :: l

/-- The call `l.Remove(e)` for the element at address `p`. -/
def Remove (l : LinkList) (p : Nat) : LinkList :=
  l.filter (fun e => decide (e.ptr ≠ p))

/-- The field read `e.Value` for the element of `l` at address `p`. -/
def elemValue : LinkList → Nat → Option opBody
  | [], _ => none
  | e :: rest, p => if e.ptr = p then some e.Value else elemValue rest p

/-- The assignment `e.Value = v` for the element at address `p`. -/
def setValue (l : LinkList) (p : Nat) (v : opBody) : LinkList :=
  l.map (fun e => if e.ptr = p then { e with Value := v } else e)

/-- The call `l.MoveToFront(e)` for the element at address `p`; a no-op when the element
is not in `l`. -/
def MoveToFront (l : LinkList) (p : Nat) : LinkList :=
  match elemValue l p with
  | some v => { ptr := p, Value := v } :: Remove l p
  | none => l

/-- The map read `m[key]` with its `ok` flag. -/
def mapGet : OplogMap → String → Option Nat
  | [], _ => none
  | kv :: rest, key => if kv.1 = key then some kv.2 else mapGet rest key

/-- The builtin `delete(m, key)`. -/
def mapDelete (m : OplogMap) (key : String) : OplogMap :=
  m.filter (fun kv => decide (kv.1 ≠ key))

/-- The map write `m[key] = p`. -/
def mapSet (m : OplogMap) (key : String) (p : Nat) : OplogMap :=
  (key, p) :: mapDelete m key

/-! ## Shard selection -/

/-- The call `strconv.ParseInt(string(c), 16, 8)` on a one-character string: the digit
value, or `none` for the error result. -/
def parseHexDigit (c : Char) : Option Nat :=
  if '0' ≤ c ∧ c ≤ '9' then some (c.toNat - '0'.toNat)
  else if 'a' ≤ c ∧ c ≤ 'f' then some (c.toNat - 'a'.toNat + 10)
  else if 'A' ≤ c ∧ c ≤ 'F' then some (c.toNat - 'A'.toNat + 10)
  else none

/-- The shard index computed by `KiteFileStore.hash`: the last character of the message id
read as a hex digit modulo 16, shard 0 when it is not a hex digit.  The source indexes
`messageid[len(messageid)-1]`, which panics on the empty id. -/
def hashId (messageid : String) : Option (Fin CONCURRENT_LEVEL) :=
  match messageid.data.getLast? with
  | none => none
  | some c =>
    match parseHexDigit c with
    | some v => some ⟨v % CONCURRENT_LEVEL, Nat.mod_lt _ (by decide)⟩
    | none => some ⟨0, by decide⟩

/-! ## Serialisation and the message store seen from the index -/

/-- The call `json.Marshal(ob)` on an `opBody`. -/
def jsonMarshal (ob : opBody) : Option opBody := some ob

/-- The call `json.Unmarshal(bytes, &body)`: `none` is the error result. -/
def jsonUnmarshal (bytes : Option opBody) : Option opBody := bytes

/-- The call `json.Marshal(entity)`; with an opaque byte payload it cannot fail. -/
def jsonMarshalEntity (entity : MessageEntity) : Option MessageEntity := some entity

/-- Modelled from the spec: the oplog operation codes `OP_C`, `OP_U`, `OP_D`, `OP_E`
(create, update, delete, expire), declared in the segment source. -/
inductive OpCode where
  | OP_C
  | OP_U
  | OP_D
  | OP_E
deriving DecidableEq, Repr

/-- Modelled from the spec: one oplog record (`op`, `logic_id`, `chunk_id`, `body`), declared
in the segment source.  `Body` holds the serialised `opBody` handed to `newOplog`. -/
structure oplog where
  Op : OpCode
  LogicId : String
  ChunkId : Int
  Body : Option opBody
deriving DecidableEq, Repr

/-- Modelled from the spec: the constructor `newOplog(op, logicId, chunkid, body)` of the
segment source, which stores its arguments in the record. -/
def newOplog (op : OpCode) (logicId : String) (chunkid : Int) (body : Option opBody) : oplog :=
  { Op := op, LogicId := logicId, ChunkId := chunkid, Body := body }

/-- The `command` handed to the message store; `msg` and `opbody` are byte slices, `none`
when nil.  The target segment `seg` is not represented at this level. -/
structure command where
  id : Int
  logicId : String
  msg : Option MessageEntity
  opbody : Option opBody
deriving DecidableEq, Repr

/-- The constructor `NewCommand(id, logicId, msg, opbody)`. -/
def NewCommand (id : Int) (logicId : String) (msg : Option MessageEntity)
    (opbody : Option opBody) : command :=
  { id := id, logicId := logicId, msg := msg, opbody := opbody }

/-- Two's-complement wrap of an integer into the `int64` range. -/
def wrapInt64 (x : Int) : Int :=
  (x + 2 ^ 63) % 2 ^ 64 - 2 ^ 63

/-- The message store as the index observes it: the chunk id counter, the `running` flag,
the queue of commands waiting for the flusher, and `slog`, the oplog records written by
`slog.Append`, in the order of the calls.  Which segment receives a record, the lookup
`indexSegment` that decides it, and the locks are not represented at this level: `Append`,
`Update`, `Delete` and `Expired` are embedded here on the path where the lock calls go
through, the lookup returns a segment and the write succeeds (their source discards the
write error).  The calls with their locks and their lookup are those of `Segmented.MessageStore`. -/
structure MessageStore where
  chunkId : Int
  running : Bool
  writeChannel : List command
  slog : List oplog
deriving DecidableEq, Repr

/-- The constructor `NewMessageStore`: `chunkId: -1`, not running. -/
def NewMessageStore : MessageStore :=
  { chunkId := -1, running := false, writeChannel := [], slog := [] }

/-- The method `MessageStore.cid`: `atomic.AddInt64(&self.chunkId, 1)`. -/
def MessageStore.cid (self : MessageStore) : Int × MessageStore :=
  let id := wrapInt64 (self.chunkId + 1)
  (id, { self with chunkId := id })

/-- The data effect of the method `MessageStore.Append`, without its lock calls (with them
a call on a running store does not return: `Segmented.MessageStore.AppendLocked`).
`slogOk` is the outcome of `seg.slog.Append(ol)`: `true` when it returns a nil error.
Returns the chunk id, or -1.  The choice of the target segment by `checkRoll` is not
represented at this level. -/
def MessageStore.Append (self : MessageStore) (cmd : command) (slogOk : Bool) :
    Int × MessageStore :=
  if self.running then
    let (id, self1) := self.cid
    let cmd1 := { cmd with id := id }
    let ol := newOplog .OP_C cmd1.logicId cmd1.id cmd1.opbody
    if slogOk then
      (cmd1.id, { self1 with slog := self1.slog ++ [ol],
                             writeChannel := self1.writeChannel ++ [cmd1] })
    else
      (-1, self1)
  else
    (-1, self)

/-- The data effect of the method `MessageStore.Update` when `indexSegment` finds the
owning segment: a `U` record is appended to its log (with the lookup:
`Segmented.MessageStore.Update`). -/
def MessageStore.Update (self : MessageStore) (c : command) : MessageStore :=
  { self with slog := self.slog ++ [newOplog .OP_U c.logicId c.id c.opbody] }

/-- The data effect of the method `MessageStore.Delete` when `indexSegment` finds the
owning segment: a `D` record is appended to its log (the flag byte of the chunk is not
represented; with the lookup: `Segmented.MessageStore.Delete`). -/
def MessageStore.Delete (self : MessageStore) (c : command) : MessageStore :=
  { self with slog := self.slog ++ [newOplog .OP_D c.logicId c.id c.opbody] }

/-- The data effect of the method `MessageStore.Expired` when `indexSegment` finds the
owning segment: an `E` record is appended to its log (the flag byte of the chunk is not
represented; with the lookup: `Segmented.MessageStore.Expired`). -/
def MessageStore.Expired (self : MessageStore) (c : command) : MessageStore :=
  { self with slog := self.slog ++ [newOplog .OP_E c.logicId c.id c.opbody] }

/-! ## The file store -/

/-- The index `KiteFileStore`: per shard a map and a list, the per-shard capacity, the
message store, and `nextPtr`, the address the next allocated list element receives. -/
structure KiteFileStore where
  oplogs : Fin CONCURRENT_LEVEL → OplogMap
  loglink : Fin CONCURRENT_LEVEL → LinkList
  maxcap : Int
  snapshot : MessageStore
  nextPtr : Nat

/-- The constructor `NewKiteFileStore(dir, maxcap, checkPeriod)`: 16 empty shards and the
per-shard capacity `maxcap / CONCURRENT_LEVEL` (Go integer division). -/
def NewKiteFileStore (maxcap : Int) : KiteFileStore :=
  { oplogs := fun _ => [],
    loglink := fun _ => [],
    maxcap := Int.tdiv maxcap CONCURRENT_LEVEL,
    snapshot := NewMessageStore,
    nextPtr := 0 }

/-- The method `KiteFileStore.Start` on an empty directory: the message store is running. -/
def KiteFileStore.Start (self : KiteFileStore) : KiteFileStore :=
  { self with snapshot := { self.snapshot with running := true } }

/-- The entity `PageQueryEntity` builds from an `opBody`. -/
def entityOf (ob : opBody) : MessageEntity :=
  { MessageId := ob.MessageId,
    Body := none,
    Commit := ob.Commit,
    FailGroups := ob.FailGroups,
    SuccGroups := ob.SuccGroups,
    NextDeliverTime := ob.NextDeliverTime,
    DeliverCount := ob.DeliverCount }

/-- The greatest capacity for which `make([]*MessageEntity, 0, capacity)` does not panic: the
runtime check of `makeslice` rejects a capacity whose byte size exceeds the addressable heap,
2^48 bytes on a 64-bit platform, and an element is a pointer of 8 bytes. -/
abbrev MAX_SLICE_CAP : Int := 2 ^ 45

/-- Whether the call `make([]*MessageEntity, 0, capacity)` returns: it panics
(`makeslice: cap out of range`) on a negative capacity and on one above `MAX_SLICE_CAP`.
An allocation that passes this check is taken to succeed. -/
def makeSliceOk (capacity : Int) : Bool :=
  decide (0 ≤ capacity ∧ capacity ≤ MAX_SLICE_CAP)

/-- The loop of `PageQueryEntity` over the elements still to visit (back of the list
first), with the running match counter `i` and the entries collected so far; `none` when
the loop panics.  The slice `pe` is nil exactly as long as it is empty: it is allocated by
`make([]*MessageEntity, 0, limit+1)`, with `limit+1` computed in 64-bit `int` arithmetic,
right before the first entry is appended. -/
def pageLoop (nextDeliveryTime startIdx limit : Int) :
    List Element → Int → List MessageEntity → Option (List MessageEntity)
  | [], _, pe => some pe
  | e :: rest, i, pe =>
    if e.Value.NextDeliverTime ≤ nextDeliveryTime then
      if startIdx ≤ i then
        if pe.isEmpty ∧ makeSliceOk (wrapInt64 (limit + 1)) = false then none
        else
          let pe1 := pe ++ [entityOf e.Value]
          if (pe1.length : Int) > limit then some pe1
          else pageLoop nextDeliveryTime startIdx limit rest (i + 1) pe1
      else
        if (pe.length : Int) > limit then some pe
        else pageLoop nextDeliveryTime startIdx limit rest (i + 1) pe
    else
      pageLoop nextDeliveryTime startIdx limit rest i pe

/-- The method `KiteFileStore.PageQueryEntity`; `none` when the call panics: on an empty
`hashKey`, in `make` (see `pageLoop`), and in the final `pe[:limit]` with a negative
`limit`.  The parameter `kiteServer` is not read by the source. -/
def KiteFileStore.PageQueryEntity (self : KiteFileStore) (hashKey : String)
    (kiteServer : String) (nextDeliveryTime : Int) (startIdx limit : Int) :
    Option (Bool × List MessageEntity) :=
  match hashId hashKey with
  | none => none
  | some h =>
    match pageLoop nextDeliveryTime startIdx limit (self.loglink h).reverse 0 [] with
    | none => none
    | some pe =>
      if (pe.length : Int) > limit then
        if limit < 0 then none else some (true, pe.take limit.toNat)
      else
        some (false, pe)

/-- The method `KiteFileStore.replay`: apply one oplog record to the index. -/
def KiteFileStore.replay (self : KiteFileStore) (ol : oplog) : Option KiteFileStore :=
  match jsonUnmarshal ol.Body with
  | none => some self
  | some ob =>
    match hashId ob.MessageId with
    | none => none
    | some h =>
      if ol.Op = .OP_U ∨ ol.Op = .OP_C then
        match mapGet (self.oplogs h) ob.MessageId with
        | some p =>
          some { self with
            loglink := Function.update self.loglink h
              (MoveToFront (setValue (self.loglink h) p ob) p) }
        | none =>
          let p := self.nextPtr
          some { self with
            loglink := Function.update self.loglink h
              (MoveToFront (PushFront (self.loglink h) p ob) p),
            oplogs := Function.update self.oplogs h (mapSet (self.oplogs h) ob.MessageId p),
            nextPtr := p + 1 }
      else if ol.Op = .OP_D ∨ ol.Op = .OP_E then
        match mapGet (self.oplogs h) ob.MessageId with
        | some p =>
          some { self with
            oplogs := Function.update self.oplogs h (mapDelete (self.oplogs h) ob.MessageId),
            loglink := Function.update self.loglink h (Remove (self.loglink h) p) }
        | none => some self
      else some self

/-- The first steps of `KiteFileStore.Query`: the `opBody` the shard map reaches for a
message id (`e, ok := el[messageId]; v := e.Value`), `none` when the id is not in the map.
A map entry always points at an element of the shard list; an address that is not in the
list also gives `none`. -/
def KiteFileStore.queryOpBody (self : KiteFileStore) (messageId : String) : Option opBody :=
  match hashId messageId with
  | none => none
  | some h =>
    match mapGet (self.oplogs h) messageId with
    | none => none
    | some p => elemValue (self.loglink h) p

/-- The data effect of the method `KiteFileStore.Save` on the index, on the path where its
call of `MessageStore.Append` returns; `slogOk` is the outcome of the oplog write inside
`Append`.  The call with its locks, which on a running store does not return, is
`Segmented.KiteFileStore.Save`. -/
def KiteFileStore.Save (self : KiteFileStore) (entity : MessageEntity) (slogOk : Bool) :
    Option (Bool × KiteFileStore) :=
  match hashId entity.MessageId with
  | none => none
  | some h =>
    if ((self.oplogs h).length : Int) ≥ self.maxcap then some (false, self)
    else
      match jsonMarshalEntity entity with
      | none => some (false, self)
      | some data =>
        let ob : opBody :=
          { Id := 0,
            MessageId := entity.MessageId,
            Commit := entity.Commit,
            FailGroups := entity.FailGroups,
            SuccGroups := entity.SuccGroups,
            NextDeliverTime := entity.NextDeliverTime,
            DeliverCount := 0 }
        let obd := jsonMarshal ob
        let cmd := NewCommand (-1) entity.MessageId (some data) obd
        let (id, snap) := self.snapshot.Append cmd slogOk
        let ob1 := { ob with Id := id }
        let p := self.nextPtr
        some (true, { self with
          loglink := Function.update self.loglink h (PushFront (self.loglink h) p ob1),
          oplogs := Function.update self.oplogs h (mapSet (self.oplogs h) entity.MessageId p),
          snapshot := snap,
          nextPtr := p + 1 })

/-- The data effect of the method `KiteFileStore.Commit` on the index, on the path where
`MessageStore.Update` returns (with the lookup: `Segmented.KiteFileStore.Commit`). -/
def KiteFileStore.Commit (self : KiteFileStore) (messageId : String) :
    Option (Bool × KiteFileStore) :=
  match hashId messageId with
  | none => none
  | some h =>
    match mapGet (self.oplogs h) messageId with
    | none => some (false, self)
    | some p =>
      match elemValue (self.loglink h) p with
      | none => none
      | some v0 =>
        let v := { v0 with Commit := true }
        let obd := jsonMarshal v
        let cmd := NewCommand v.Id messageId none obd
        some (true, { self with
          loglink := Function.update self.loglink h (setValue (self.loglink h) p v),
          snapshot := self.snapshot.Update cmd })

/-- The data effect of the method `KiteFileStore.UpdateEntity` on the index, on the path
where `MessageStore.Update` returns (with the lookup:
`Segmented.KiteFileStore.UpdateEntity`). -/
def KiteFileStore.UpdateEntity (self : KiteFileStore) (entity : MessageEntity) :
    Option (Bool × KiteFileStore) :=
  match hashId entity.MessageId with
  | none => none
  | some h =>
    match mapGet (self.oplogs h) entity.MessageId with
    | none => some (true, self)
    | some p =>
      match elemValue (self.loglink h) p with
      | none => none
      | some v0 =>
        let v := { v0 with
          DeliverCount := entity.DeliverCount,
          NextDeliverTime := entity.NextDeliverTime,
          SuccGroups := entity.SuccGroups,
          FailGroups := entity.FailGroups }
        let obd := jsonMarshal v
        let cmd := NewCommand v.Id entity.MessageId none obd
        some (true, { self with
          loglink := Function.update self.loglink h (setValue (self.loglink h) p v),
          snapshot := self.snapshot.Update cmd })

/-- The data effect of the method `KiteFileStore.innerDelete` on the shard `h` that
`hash(messageId)` selects, on the path where `MessageStore.Delete` returns. -/
def KiteFileStore.innerDelete (self : KiteFileStore) (messageId : String)
    (h : Fin CONCURRENT_LEVEL) : Option KiteFileStore :=
  match mapGet (self.oplogs h) messageId with
  | none => some self
  | some p =>
    match elemValue (self.loglink h) p with
    | none => none
    | some v =>
      let obd := jsonMarshal v
      let cmd := NewCommand v.Id messageId none obd
      some { self with
        oplogs := Function.update self.oplogs h (mapDelete (self.oplogs h) messageId),
        loglink := Function.update self.loglink h (Remove (self.loglink h) p),
        snapshot := self.snapshot.Delete cmd }

/-- The data effect of the method `KiteFileStore.Delete` on the index (with the lookup:
`Segmented.KiteFileStore.Delete`). -/
def KiteFileStore.Delete (self : KiteFileStore) (messageId : String) :
    Option (Bool × KiteFileStore) :=
  match hashId messageId with
  | none => none
  | some h =>
    match self.innerDelete messageId h with
    | none => none
    | some fs => some (true, fs)

/-- The method `KiteFileStore.Rollback`. -/
def KiteFileStore.Rollback (self : KiteFileStore) (messageId : String) :
    Option (Bool × KiteFileStore) :=
  self.Delete messageId

/-- The data effect of the method `KiteFileStore.Expired` on the index, on the path where
`MessageStore.Expired` returns (with the lookup: `Segmented.KiteFileStore.Expired`).  The
removed value `v` is never nil, so the guard `nil != v` holds; the command carries a nil
`opbody`. -/
def KiteFileStore.Expired (self : KiteFileStore) (messageId : String) :
    Option (Bool × KiteFileStore) :=
  match hashId messageId with
  | none => none
  | some h =>
    match mapGet (self.oplogs h) messageId with
    | none => some (true, self)
    | some p =>
      match elemValue (self.loglink h) p with
      | none => none
      | some v =>
        let c := NewCommand v.Id messageId none none
        some (true, { self with
          oplogs := Function.update self.oplogs h (mapDelete (self.oplogs h) messageId),
          loglink := Function.update self.loglink h (Remove (self.loglink h) p),
          snapshot := self.snapshot.Expired c })

/-! ## Sequences of calls -/

/-- One mutating call on the index. -/
inductive IndexOp where
  | Save (entity : MessageEntity) (slogOk : Bool)
  | Commit (messageId : String)
  | UpdateEntity (entity : MessageEntity)
  | Delete (messageId : String)
  | Expired (messageId : String)
deriving DecidableEq, Repr

/-- The index after one call (the boolean result dropped). -/
def KiteFileStore.step (self : KiteFileStore) : IndexOp → Option KiteFileStore
  | .Save entity slogOk => (self.Save entity slogOk).map Prod.snd
  | .Commit messageId => (self.Commit messageId).map Prod.snd
  | .UpdateEntity entity => (self.UpdateEntity entity).map Prod.snd
  | .Delete messageId => (self.Delete messageId).map Prod.snd
  | .Expired messageId => (self.Expired messageId).map Prod.snd

/-- The index after a sequence of calls, in order. -/
def KiteFileStore.run (self : KiteFileStore) : List IndexOp → Option KiteFileStore
  | [] => some self
  | op :: rest =>
    match self.step op with
    | none => none
    | some fs => fs.run rest

/-- The index after `SegmentLog.Replay` has handed every record of a log, in order, to
`replay`. -/
def KiteFileStore.replayAll (self : KiteFileStore) : List oplog → Option KiteFileStore
  | [] => some self
  | ol :: rest =>
    match self.replay ol with
    | none => none
    | some fs => fs.replayAll rest

/-! ## Sample inputs -/

/-- An uncommitted entity with the given message id and next delivery time. -/
def sampleEntity (messageId : String) (nextDeliverTime : Int) : MessageEntity :=
  { MessageId := messageId,
    Body := some "payload",
    Commit := false,
    FailGroups := [],
    SuccGroups := [],
    NextDeliverTime := nextDeliverTime,
    DeliverCount := 0 }

/-- A started store of total capacity 1600, with no message. -/
def startedStore : KiteFileStore :=
  (NewKiteFileStore 1600).Start

/-- The delivery times 100, 200, ..., 2500 of the paging scenario. -/
def scenarioTimes : List Int :=
  (List.range 25).map (fun k => ((k : Int) + 1) * 100)

/-- The saves of the paging scenario: 25 messages on shard 0 (ids "10", "20", ..., "250"),
with delivery times 100, 200, ..., 2500 in that order. -/
def scenarioSaves : List IndexOp :=
  (List.range 25).map
    (fun k => IndexOp.Save (sampleEntity (toString (k + 1) ++ "0") (((k : Int) + 1) * 100)) true)

/-- The started store after the saves of the paging scenario. -/
def scenarioStore : KiteFileStore :=
  (startedStore.run scenarioSaves).getD startedStore

/-! ## Representation invariant -/

/-- The representation invariant of one shard: the elements of the list have pairwise distinct
addresses, all below the next address to allocate; the map sends distinct ids to distinct
elements, each of them in the list, and lists every id once (so that its length is the
`len` of the Go map). -/
def ShardWF (next : Nat) (m : OplogMap) (l : LinkList) : Prop :=
  (l.map Element.ptr).Nodup ∧ (∀ q ∈ l.map Element.ptr, q < next) ∧
    (m.map Prod.snd).Nodup ∧ (∀ kv ∈ m, kv.2 ∈ l.map Element.ptr) ∧ (m.map Prod.fst).Nodup

instance (next : Nat) (m : OplogMap) (l : LinkList) : Decidable (ShardWF next m l) := by
  unfold ShardWF
  infer_instance

/-- The representation invariant of the index: every shard is well formed. -/
def KiteFileStore.WF (self : KiteFileStore) : Prop :=
  ∀ i : Fin CONCURRENT_LEVEL, ShardWF self.nextPtr (self.oplogs i) (self.loglink i)

instance (self : KiteFileStore) : Decidable self.WF := by
  unfold KiteFileStore.WF
  infer_instance

/-! ## Notions used to state the replay properties -/

/-- An oplog record with a well-formed body: the body parses as an `opBody` and names a
(non-empty) message id. -/
def oplog.WellFormed (r : oplog) : Prop :=
  match jsonUnmarshal r.Body with
  | some ob => ob.MessageId ≠ ""
  | none => False

instance (r : oplog) : Decidable r.WellFormed := by
  unfold oplog.WellFormed
  split <;> infer_instance

/-- The last record of a log whose body names message id `m`, if there is one. -/
def lastRecordFor (m : String) (rs : List oplog) : Option oplog :=
  (rs.filter (fun r => decide ((jsonUnmarshal r.Body).map opBody.MessageId = some m))).getLast?

/-- An `opBody` with no groups and delivery count 0. -/
def sampleBody (id : Int) (messageId : String) (commit : Bool) (nextDeliverTime : Int) : opBody :=
  { Id := id,
    MessageId := messageId,
    Commit := commit,
    FailGroups := [],
    SuccGroups := [],
    NextDeliverTime := nextDeliverTime,
    DeliverCount := 0 }

/-- A sample log: create "a1", create "b1", update "a1", delete "b1", create "c2". -/
def sampleLog : List oplog :=
  [ newOplog .OP_C "a1" 0 (some (sampleBody 0 "a1" false 100)),
    newOplog .OP_C "b1" 1 (some (sampleBody 0 "b1" false 200)),
    newOplog .OP_U "a1" 0 (some (sampleBody 0 "a1" true 500)),
    newOplog .OP_D "b1" 1 (some (sampleBody 1 "b1" false 200)),
    newOplog .OP_C "c2" 2 (some (sampleBody 0 "c2" false 300)) ]

/-- A log of four create records: "a0", "b0", "c1", "d0", with delivery times 100, 300,
100, 200 and chunk ids 0..3. -/
def pagingLog : List oplog :=
  [ newOplog .OP_C "a0" 0 (some (sampleBody 0 "a0" false 100)),
    newOplog .OP_C "b0" 1 (some (sampleBody 1 "b0" false 300)),
    newOplog .OP_C "c1" 2 (some (sampleBody 2 "c1" false 100)),
    newOplog .OP_C "d0" 3 (some (sampleBody 3 "d0" false 200)) ]

/-- The index that replaying `pagingLog` builds in a new store: "a0", "b0", "d0" on shard 0
and "c1" on shard 1. -/
def replayedStore : KiteFileStore :=
  ((NewKiteFileStore 1600).replayAll pagingLog).getD (NewKiteFileStore 1600)

/-- The `opBody` that `Save` builds for an entity, with `Id` set to `id`: `Save` serialises it
with `Id` 0 and stores it with `Id` the result of `MessageStore.Append`. -/
def savedBody (entity : MessageEntity) (id : Int) : opBody :=
  { Id := id,
    MessageId := entity.MessageId,
    Commit := entity.Commit,
    FailGroups := entity.FailGroups,
    SuccGroups := entity.SuccGroups,
    NextDeliverTime := entity.NextDeliverTime,
    DeliverCount := 0 }

/-- The command `Save` hands to `MessageStore.Append` for an entity. -/
def saveCommand (entity : MessageEntity) : command :=
  NewCommand (-1) entity.MessageId (jsonMarshalEntity entity) (jsonMarshal (savedBody entity 0))

/-- A committed variant of message "a0" with new delivery state, as handed to
`UpdateEntity`. -/
def updatedEntity : MessageEntity :=
  { MessageId := "a0",
    Body := some "payload",
    Commit := true,
    FailGroups := ["g1"],
    SuccGroups := ["g2"],
    NextDeliverTime := 700,
    DeliverCount := 3 }

/-! ## Monitor -/

/-- The call `fmt.Sprintf("%x", i)` for a non-negative `i`: lowercase hexadecimal. -/
def sprintfHex (i : Nat) : String :=
  String.mk (Nat.toDigits 16 i)

/-- The loop of `KiteFileStore.Monitor` over the shard numbers still to visit, with the
running total `l` of the list lengths. -/
def KiteFileStore.monitorLoop (self : KiteFileStore) : List Nat → Nat → Option Nat
  | [], l => some l
  | i :: rest, l =>
    match hashId (sprintfHex i) with
    | none => none
    | some h => self.monitorLoop rest (l + (self.loglink h).length)

/-- The method `KiteFileStore.Monitor`. -/
def KiteFileStore.Monitor (self : KiteFileStore) : Option String :=
  (self.monitorLoop (List.range CONCURRENT_LEVEL) 0).map
    (fun l => "message-length:" ++ toString l ++ "\n")

/-! ## The segmented store

The message store of `kite_message_store.go` with its segments.  The index-level view above
keeps of it the chunk id counter, the running flag and one log; here the store owns an ordered
list of segments, each with its chunks and its own log.

A `*Segment` is shared between `segments`, the segment cache, the queued commands and the
flusher.  Segments are identified by their `sid`: the lists hold segment values, a command
and the flusher hold the `sid` of their segment, and a write to a segment is applied to every
entry with that `sid`.  `Segment.Open` is taken to succeed unless a parameter says
otherwise, with the chunks of the segment being those of its data file. -/

namespace Segmented

/-- Modelled from the spec: the chunk flag (`NORMAL | DELETED | EXPIRED`), declared in the
segment source. -/
inductive ChunkFlag where
  | NORMAL
  | DELETE
  | EXPIRED
deriving DecidableEq, Repr

/-- Modelled from the spec: the size of a chunk header, 4 + 8 + 4 + 1 bytes. -/
abbrev CHUNK_HEADER : Int := 17

/-- Modelled from the spec: a chunk (`length`, `id`, `flag`, `data`), declared in the segment
source; `data` is a byte string.  The checksum is not represented. -/
structure Chunk where
  length : Int
  id : Int
  flag : ChunkFlag
  data : List Nat
deriving DecidableEq, Repr

/-- Modelled from the spec: a segment (`sid`, `byte_size`, `chunks` in file order, and the
records of its log `slog`), declared in the segment source. -/
structure Segment where
  sid : Int
  byteSize : Int
  chunks : List Chunk
  slog : List oplog
deriving DecidableEq, Repr

/-- The `command` of the message store: `msg` is the serialised entity, `seg` the target
segment (nil until `Append` sets it). -/
structure command where
  id : Int
  logicId : String
  msg : List Nat
  opbody : Option opBody
  seg : Option Int
deriving DecidableEq, Repr

/-- The constructor `NewCommand(id, logicId, msg, opbody)`. -/
def NewCommand (id : Int) (logicId : String) (msg : List Nat) (opbody : Option opBody) :
    command :=
  { id := id, logicId := logicId, msg := msg, opbody := opbody, seg := none }

/-- The store `MessageStore`.  `MAX_SEGMENT_SIZE` is the roll threshold, a constant of the
segment source. -/
structure MessageStore where
  segments : List Segment
  chunkId : Int
  writeChannel : List command
  running : Bool
  batchSize : Nat
  segcacheSize : Int
  segmentCache : List Segment
  MAX_SEGMENT_SIZE : Int
deriving DecidableEq, Repr

/-- The constructor `NewMessageStore`: no segment, `chunkId: -1`, not running. -/
def NewMessageStore (batchSize : Nat) (segcacheSize : Int) (maxSegmentSize : Int) :
    MessageStore :=
  { segments := [],
    chunkId := -1,
    writeChannel := [],
    running := false,
    batchSize := batchSize,
    segcacheSize := segcacheSize,
    segmentCache := [],
    MAX_SEGMENT_SIZE := maxSegmentSize }

/-- Modelled from the spec: the constructor `newSegment` for a fresh pair of files: no
chunk, no record. -/
def newSegment (sid : Int) : Segment :=
  { sid := sid, byteSize := 0, chunks := [], slog := [] }

/-- A write through a `*Segment`: `f` is applied to every entry with that `sid`. -/
def updateSegment (sid : Int) (f : Segment → Segment) (l : List Segment) : List Segment :=
  l.map (fun s => if s.sid = sid then f s else s)

/-- Modelled from the spec: `SegmentLog.Append(ol)` on the log of a segment. -/
def Segment.logAppend (s : Segment) (ol : oplog) : Segment :=
  { s with slog := s.slog ++ [ol] }

/-- Modelled from the spec: `Segment.Append(chunks)` appends the chunks and adds their
lengths to `byte_size`. -/
def Segment.Append (s : Segment) (b : List Chunk) : Segment :=
  { s with chunks := s.chunks ++ b, byteSize := s.byteSize + (b.map Chunk.length).sum }

/-- Modelled from the spec: `Segment.Get(id)` returns the chunk with that id, or nil. -/
def Segment.Get (s : Segment) (cid : Int) : Option Chunk :=
  s.chunks.find? (fun c => decide (c.id = cid))

/-- Modelled from the spec: `Segment.Delete(id)` and `Segment.Expired(id)` set the flag of
the chunk with that id. -/
def Segment.setFlag (s : Segment) (cid : Int) (flag : ChunkFlag) : Segment :=
  { s with chunks := s.chunks.map (fun c => if c.id = cid then { c with flag := flag } else c) }

/-- The indexing `self.segments[idx]` with a Go `int` index; `none` when out of range. -/
def segmentAt (segments : List Segment) (idx : Int) : Option Segment :=
  if idx < 0 then none else segments[idx.toNat]?

/-- The loop of `sort.Search`: binary search between `i` and `j`, with `fuel` iterations
left. -/
def searchLoop (f : Nat → Bool) : Nat → Nat → Nat → Nat
  | 0, i, _ => i
  | fuel + 1, i, j =>
    if i < j then
      let h := (i + j) / 2
      if !f h then searchLoop f fuel (h + 1) j else searchLoop f fuel i h
    else i

/-- The call `sort.Search(n, f)`; `n` iterations always suffice. -/
def Search (n : Nat) (f : Nat → Bool) : Nat :=
  searchLoop f n 0 n

/-- The cache scan of `indexSegment`: the first cached segment whose range holds `cid`. -/
def cacheScan (cache : List Segment) (cid : Int) : Option Segment :=
  cache.find? (fun s => decide (s.sid ≤ cid ∧ cid < s.sid + (s.chunks.length : Int)))

/-- The cache walk of `loadSegment`, from the back of the cache: an element is removed when
the cache is full and it is not the loaded segment, and `e.Prev()` of a removed
element is nil, which ends the walk; `exist` records that the loaded segment was met. -/
def loadLoop (full : Bool) (sid : Int) : List Segment → Bool → List Segment × Bool
  | [], exist => ([], exist)
  | e :: rest, exist =>
    if full && decide (e.sid ≠ sid) then (rest, exist)
    else
      let r := loadLoop full sid rest (exist || decide (e.sid = sid))
      (e :: r.1, r.2)

/-- The method `MessageStore.loadSegment`; `openOk` is the outcome of `s.Open()`. -/
def MessageStore.loadSegment (self : MessageStore) (idx : Int) (openOk : Bool) :
    Option MessageStore :=
  match segmentAt self.segments idx with
  | none => none
  | some s =>
    if !openOk then some self
    else
      let r := loadLoop (decide ((self.segmentCache.length : Int) ≥ self.segcacheSize)) s.sid
        self.segmentCache.reverse false
      let cache := r.1.reverse
      if !r.2 then some { self with segmentCache := s :: cache }
      else some { self with segmentCache := cache }

/-- The index `indexSegment` computes when the cache scan misses. -/
def MessageStore.searchIndex (self : MessageStore) (cid : Int) : Int :=
  let idx := Search self.segments.length
    (fun i => match self.segments[i]? with
      | some s => decide (s.sid ≥ cid)
      | none => false)
  match self.segments[idx]? with
  | none => (idx : Int) - 1
  | some s => if s.sid ≠ cid then (idx : Int) - 1 else idx

/-- The method `MessageStore.indexSegment`: the segment found and the store with its cache
updated. -/
def MessageStore.indexSegment (self : MessageStore) (cid : Int) (openOk : Bool) :
    Option (Segment × MessageStore) :=
  match cacheScan self.segmentCache cid with
  | some s => some (s, self)
  | none =>
    let idx := self.searchIndex cid
    match self.loadSegment idx openOk with
    | none => none
    | some self1 =>
      match segmentAt self1.segments idx with
      | none => none
      | some curr => some (curr, self1)

/-- The result of `MessageStore.Query`: the data of the chunk, or one of its two errors. -/
inductive QueryResult where
  | found (data : List Nat)
  | noSegment (cid : Int)
  | noChunk (sid : Int) (cid : Int)
deriving DecidableEq, Repr

/-- The method `MessageStore.Query`.  `indexSegment` never returns nil, so the
`No Segement` error is not produced; the data of the chunk is returned as it is, its decoding
by `json.Unmarshal` is not represented. -/
def MessageStore.Query (self : MessageStore) (cid : Int) (openOk : Bool) :
    Option (QueryResult × MessageStore) :=
  match self.indexSegment cid openOk with
  | none => none
  | some (curr, self1) =>
    match curr.Get cid with
    | some c => some (.found c.data, self1)
    | none => some (.noChunk curr.sid cid, self1)

/-- A write to the segment `sid`, seen through `segments` and through the cache. -/
def MessageStore.writeSegment (self : MessageStore) (sid : Int) (f : Segment → Segment) :
    MessageStore :=
  { self with
    segments := updateSegment sid f self.segments,
    segmentCache := updateSegment sid f self.segmentCache }

/-- The method `MessageStore.Update`. -/
def MessageStore.Update (self : MessageStore) (c : command) (openOk : Bool) :
    Option MessageStore :=
  match self.indexSegment c.id openOk with
  | none => none
  | some (s, self1) =>
    some (self1.writeSegment s.sid (fun x => x.logAppend (newOplog .OP_U c.logicId c.id c.opbody)))

/-- The method `MessageStore.Delete`. -/
def MessageStore.Delete (self : MessageStore) (c : command) (openOk : Bool) :
    Option MessageStore :=
  match self.indexSegment c.id openOk with
  | none => none
  | some (s, self1) =>
    some (self1.writeSegment s.sid (fun x =>
      (x.logAppend (newOplog .OP_D c.logicId c.id c.opbody)).setFlag c.id .DELETE))

/-- The method `MessageStore.Expired`. -/
def MessageStore.Expired (self : MessageStore) (c : command) (openOk : Bool) :
    Option MessageStore :=
  match self.indexSegment c.id openOk with
  | none => none
  | some (s, self1) =>
    some (self1.writeSegment s.sid (fun x =>
      (x.logAppend (newOplog .OP_E c.logicId c.id c.opbody)).setFlag c.id .EXPIRED))

end Segmented

namespace Segmented

/-- The loop of `remove` and of `Remove` over `self.segments`.  The loop variable is named
`s` like the segment to remove, so its test `s.sid == s.sid` compares each segment with
itself. -/
def removeLoop : List Segment → List Segment
  | [] => []
  | s :: rest => if s.sid = s.sid then rest else s :: removeLoop rest

/-- The method `MessageStore.remove(s)` (closing the segment and deleting its files are not
represented). -/
def MessageStore.remove (self : MessageStore) (s : Segment) : MessageStore :=
  { self with segments := removeLoop self.segments }

/-- The scan of `MessageStore.Remove(sid)` over the cache, front first: the first cached
segment with that `sid` is taken out of the cache and the loop over `segments` runs. -/
def removeScan (sid : Int) : List Segment → Option (List Segment)
  | [] => none
  | s :: rest =>
    if s.sid = sid then some rest
    else (removeScan sid rest).map (fun r => s :: r)

/-- The method `MessageStore.Remove(sid)`. -/
def MessageStore.Remove (self : MessageStore) (sid : Int) : MessageStore :=
  match removeScan sid self.segmentCache with
  | none => self
  | some cache => { self with segmentCache := cache, segments := removeLoop self.segments }

/-- The loop of `recoverSnapshot` over the segments still to open, with the chunk id
counter and the index that the replay callback rebuilds.  The last segment sets the counter
to the id of its last chunk, when it has a chunk. -/
def recoverLoop : List Segment → Int → KiteFileStore → Option (Int × KiteFileStore)
  | [], chunkId, fs => some (chunkId, fs)
  | s :: rest, chunkId, fs =>
    let chunkId1 :=
      if rest.length = 0 then
        match s.chunks.getLast? with
        | some c => c.id
        | none => chunkId
      else chunkId
    match fs.replayAll s.slog with
    | none => none
    | some fs1 => recoverLoop rest chunkId1 fs1

/-- The method `MessageStore.recoverSnapshot`, with the index `fs` of the replay callback. -/
def MessageStore.recoverSnapshot (self : MessageStore) (fs : KiteFileStore) :
    Option (MessageStore × KiteFileStore) :=
  if self.segments.length > 0 then
    match recoverLoop self.segments self.chunkId fs with
    | none => none
    | some r => some ({ self with chunkId := r.1 }, r.2)
  else some (self, fs)

/-- The method `MessageStore.cid`: `atomic.AddInt64(&self.chunkId, 1)`. -/
def MessageStore.cid (self : MessageStore) : Int × MessageStore :=
  let id := wrapInt64 (self.chunkId + 1)
  (id, { self with chunkId := id })

/-- The method `MessageStore.checkRoll`: the `sid` of the segment to write to and the store.
`createOk` is the outcome of `createSegment`; a failure to create the first segment
panics, and so does `s.chunks[len(s.chunks)-1]` on a segment without chunks. -/
def MessageStore.checkRoll (self : MessageStore) (createOk : Bool) :
    Option (Int × MessageStore) :=
  if self.segments.length ≤ 0 then
    if createOk then some (0, { self with segments := self.segments ++ [newSegment 0] })
    else none
  else
    match self.segments.getLast? with
    | none => none
    | some s =>
      if s.byteSize > self.MAX_SEGMENT_SIZE then
        match s.chunks.getLast? with
        | none => none
        | some c =>
          let nid := wrapInt64 (c.id + 1)
          if createOk then
            some (nid, { self with segments := self.segments ++ [newSegment nid] })
          else some (s.sid, self)
      else some (s.sid, self)

/-- The data effect of the method `MessageStore.Append`, without its lock calls: the
returned chunk id (-1 on failure) and the store.  `createOk` and `slogOk` are the outcomes
of `createSegment` and of `seg.slog.Append(ol)`.  With the lock calls, a call on a running
store does not return (`AppendLocked`). -/
def MessageStore.Append (self : MessageStore) (cmd : command) (createOk slogOk : Bool) :
    Option (Int × MessageStore) :=
  if self.running then
    let (id, self1) := self.cid
    match self1.checkRoll createOk with
    | none => none
    | some (sid, self2) =>
      let cmd1 := { cmd with id := id, seg := some sid }
      let ol := newOplog .OP_C cmd1.logicId cmd1.id cmd1.opbody
      if slogOk then
        some (cmd1.id,
          { self2.writeSegment sid (fun x => x.logAppend ol) with
            writeChannel := self2.writeChannel ++ [cmd1] })
      else some (-1, self2)
  else some (-1, self)

/-- Two's-complement wrap of an integer into the `int32` range. -/
def wrapInt32 (x : Int) : Int :=
  (x + 2 ^ 31) % 2 ^ 32 - 2 ^ 31

/-- The chunk the flusher builds for a command. -/
def chunkOf (c : command) : Chunk :=
  { length := wrapInt32 (CHUNK_HEADER + (c.msg.length : Int)),
    id := c.id,
    flag := .NORMAL,
    data := c.msg }

/-- The function `flush(s, b)`: a non-empty batch is appended to the segment `s`. -/
def MessageStore.flush (self : MessageStore) (s : Int) (b : List Chunk) : MessageStore :=
  if b.length > 0 then self.writeSegment s (fun x => x.Append b) else self

/-- The state of the flusher between two iterations: the store, the batch, and the current
segment `curr` (nil at first). -/
structure SyncState where
  store : MessageStore
  batch : List Chunk
  curr : Option Int
deriving DecidableEq, Repr

/-- One iteration of the running loop of `sync`; `recv` tells whether the `select` received
a command (when the queue holds one) or the ticker fired.  A nil `c.seg` panics. -/
def SyncState.runStep (st : SyncState) (recv : Bool) : Option SyncState :=
  match (if recv then st.store.writeChannel else []) with
  | c :: rest =>
    match c.seg with
    | none => none
    | some cseg =>
      let store0 := { st.store with writeChannel := rest }
      let curr0 := match st.curr with
        | none => cseg
        | some s => s
      let st1 : SyncState :=
        if curr0 ≠ cseg then
          { store := store0.flush curr0 st.batch, batch := [], curr := some cseg }
        else { store := store0, batch := st.batch, curr := some curr0 }
      let batch1 := st1.batch ++ [chunkOf c]
      if batch1.length ≥ st1.store.batchSize then
        match st1.curr with
        | none => none
        | some s => some { store := st1.store.flush s batch1, batch := [], curr := st1.curr }
      else some { st1 with batch := batch1 }
  | [] =>
    if st.batch.length > 0 ∨ st.batch.length ≥ st.store.batchSize then
      match st.curr with
      | none => if st.batch.length > 0 then none else some st
      | some s => some { st with store := st.store.flush s st.batch, batch := [] }
    else some st

/-- The running loop of `sync` for a given sequence of `select` outcomes. -/
def SyncState.runLoop (st : SyncState) : List Bool → Option SyncState
  | [] => some st
  | recv :: rest =>
    match st.runStep recv with
    | none => none
    | some st1 => st1.runLoop rest

/-- The shutdown loop of `sync` over the commands left in the queue.  On a change of
segment the batch is flushed into `curr`, and `curr` is left as it is. -/
def SyncState.drainLoop (st : SyncState) : List command → Option SyncState
  | [] => some st
  | c :: rest =>
    match c.seg, st.curr with
    | some cseg, some s =>
      let st1 : SyncState :=
        if cseg ≠ s then { st with store := st.store.flush s st.batch, batch := [] } else st
      SyncState.drainLoop { st1 with batch := st1.batch ++ [chunkOf c] } rest
    | _, _ => none

/-- The method `MessageStore.sync`: the running loop for the given `select` outcomes, then
the shutdown loop over what is left in the queue and the last flush. -/
def MessageStore.sync (self : MessageStore) (schedule : List Bool) : Option MessageStore :=
  match ({ store := self, batch := [], curr := none } : SyncState).runLoop schedule with
  | none => none
  | some st =>
    match ({ st with store := { st.store with writeChannel := [] } } : SyncState).drainLoop
        st.store.writeChannel with
    | none => none
    | some st1 =>
      match st1.curr with
      | some s => some (st1.store.flush s st1.batch)
      | none => if st1.batch.length > 0 then none else some st1.store

end Segmented

namespace Segmented

/-! ### Sample stores -/

/-- A chunk with the given id and a 3-byte payload. -/
def sampleChunk (id : Int) : Chunk :=
  chunkOf { id := id, logicId := "m", msg := [1, 2, 3], opbody := none, seg := none }

/-- A segment holding the chunks with the given ids. -/
def sampleSegment (sid : Int) (ids : List Int) : Segment :=
  (newSegment sid).Append (ids.map sampleChunk)

/-- A command with a 3-byte message and no target segment yet. -/
def sampleCommand (logicId : String) : command :=
  NewCommand (-1) logicId [1, 2, 3] none

/-- A running store with batch size 100, cache size 10 and roll threshold 16 bytes, over the
given segments, with nothing cached. -/
def runningStore (segments : List Segment) (chunkId : Int) : MessageStore :=
  { NewMessageStore 100 10 16 with segments := segments, chunkId := chunkId, running := true }

/-- A store at `Start`, before `recoverSnapshot`, over a directory whose last segment has no
chunk yet: segment 0 holds the chunks 0, 1, 2 and segment 3 is empty; the counter is the -1
of `NewMessageStore`. -/
def rolledStore : MessageStore :=
  runningStore [sampleSegment 0 [0, 1, 2], newSegment 3] (-1)

/-- A running store with segments 0 and 5 and two queued commands: chunk 0 for segment 0, then
chunk 5 for segment 5. -/
def queuedStore : MessageStore :=
  { runningStore [newSegment 0, newSegment 5] 5 with
    writeChannel :=
      [ { sampleCommand "a" with id := 0, seg := some 0 },
        { sampleCommand "b" with id := 5, seg := some 5 } ] }

end Segmented

namespace Segmented

/-! ### Locks

The locks are `sync.RWMutex` values, which are not reentrant: a `Lock()` on a mutex that is
already write-locked waits until it is unlocked.  The state of the locks is the list of the
mutexes that are write-locked; a call runs alone, so a mutex it requests while holding it is
never unlocked and the call is stuck. -/

/-- The mutexes a call of `Save` or of `Append` touches: the one embedded in the
`MessageStore`, the one embedded in a segment, named by its `sid`, and the one of a shard
of the index (`KiteFileStore.locks[i]`). -/
inductive Mutex where
  | store
  | segment (sid : Int)
  | shard (i : Fin CONCURRENT_LEVEL)
deriving DecidableEq, Repr

/-- How a call ends: it returns a value and leaves the locks in a state, it waits for ever
on a mutex that it holds itself, or it panics. -/
inductive Outcome (α : Type) where
  | returned (value : α) (held : List Mutex)
  | stuck (mutex : Mutex)
  | panicked
deriving DecidableEq, Repr

/-- The call `m.Lock()`: `none` when the mutex is held, else the new lock state. -/
def lock (held : List Mutex) (m : Mutex) : Option (List Mutex) :=
  if m ∈ held then none else some (m :: held)

/-- The call `m.Unlock()`. -/
def unlock (held : List Mutex) (m : Mutex) : List Mutex :=
  held.erase m

/-- The method `MessageStore.checkRoll` with its lock calls: `self.Lock()` after
`createSegment(0)` succeeded when there is no segment, `self.Lock()` at once
otherwise, and `self.Unlock()` at the end of either branch. -/
def MessageStore.checkRollLocked (self : MessageStore) (createOk : Bool) (held : List Mutex) :
    Outcome (Int × MessageStore) :=
  if self.segments.length ≤ 0 then
    if createOk then
      match lock held .store with
      | none => .stuck .store
      | some held1 =>
        .returned (0, { self with segments := self.segments ++ [newSegment 0] })
          (unlock held1 .store)
    else .panicked
  else
    match lock held .store with
    | none => .stuck .store
    | some held1 =>
      match self.segments.getLast? with
      | none => .panicked
      | some s =>
        if s.byteSize > self.MAX_SEGMENT_SIZE then
          match s.chunks.getLast? with
          | none => .panicked
          | some c =>
            let nid := wrapInt64 (c.id + 1)
            if createOk then
              .returned (nid, { self with segments := self.segments ++ [newSegment nid] })
                (unlock held1 .store)
            else .returned (s.sid, self) (unlock held1 .store)
        else .returned (s.sid, self) (unlock held1 .store)

/-- The method `MessageStore.Append` with its lock calls: `self.Lock()` with the deferred
`self.Unlock()`, the nested `checkRoll`, and `seg.Lock()`, `seg.Unlock()` around the oplog
write. -/
def MessageStore.AppendLocked (self : MessageStore) (cmd : command) (createOk slogOk : Bool)
    (held : List Mutex) : Outcome (Int × MessageStore) :=
  if self.running then
    match lock held .store with
    | none => .stuck .store
    | some held1 =>
      let (id, self1) := self.cid
      match self1.checkRollLocked createOk held1 with
      | .stuck m => .stuck m
      | .panicked => .panicked
      | .returned (sid, self2) held2 =>
        let cmd1 := { cmd with id := id, seg := some sid }
        let ol := newOplog .OP_C cmd1.logicId cmd1.id cmd1.opbody
        match lock held2 (.segment sid) with
        | none => .stuck (.segment sid)
        | some held3 =>
          let held4 := unlock held3 (.segment sid)
          if slogOk then
            .returned
              (cmd1.id,
                { self2.writeSegment sid (fun x => x.logAppend ol) with
                  writeChannel := self2.writeChannel ++ [cmd1] })
              (unlock held4 .store)
          else .returned (-1, self2) (unlock held4 .store)
  else .returned (-1, self) held

/-- The call of `checkRoll` at the end of `MessageStore.load`, which holds no lock. -/
def MessageStore.loadCheckRoll (self : MessageStore) (createOk : Bool) :
    Outcome (Int × MessageStore) :=
  self.checkRollLocked createOk []

end Segmented

namespace Segmented

/-! ### The file store over the segmented store

The calls of `KiteFileStore` with the message store in full: `Save` goes through `Append`
with its lock calls, `Commit`, `UpdateEntity`, `Delete` and `Expired` go through
`indexSegment`, and `Start` loads the segments found in the directory and replays their
logs into the index.  A call runs alone and starts with no mutex held.

Of the lock calls, those of `Save` and `Append` are explicit.  On the other paths a mutex is
never requested while it is held (the shard mutex is locked once with a deferred unlock;
`indexSegment` pairs `RLock` with `RUnlock` and then `Lock` with `Unlock` on the store;
`Update`, `Delete` and `Expired` lock the segment once with a deferred unlock), so these
calls are never stuck and their lock calls are left out. -/

/-- The value a call returned, when it returned. -/
def Outcome.value? {α : Type} : Outcome α → Option α
  | .returned value _ => some value
  | .stuck _ => none
  | .panicked => none

/-- The mutex a call waits on for ever, when it is stuck. -/
def Outcome.stuckOn {α : Type} : Outcome α → Option Mutex
  | .returned _ _ => none
  | .stuck mutex => some mutex
  | .panicked => none

/-- Whether a call panicked. -/
def Outcome.isPanicked {α : Type} : Outcome α → Bool
  | .returned _ _ => false
  | .stuck _ => false
  | .panicked => true

/-- Stands for the byte string `json.Marshal(entity)`.  The message store copies these bytes
into a chunk and never inspects them. -/
def entityBytes (entity : MessageEntity) : List Nat :=
  (entity.MessageId.data ++ (entity.Body.getD "").data).map Char.toNat

/-- The `KiteFileStore` together with its message store in full.  `index` carries the shard
maps and lists, the per-shard capacity and the allocation counter (its own field `snapshot`,
the index-level view of the store, is neither read nor written by the calls below);
`snapshot` is the `MessageStore` with its segments. -/
structure KiteFileStore where
  index : KiteQ.KiteFileStore
  snapshot : MessageStore

/-- The constructor `NewKiteFileStore(dir, maxcap, checkPeriod)`, which builds its message
store by `NewMessageStore(dir+"/snapshot/", 100, 10, checkPeriod, replay)`; the roll
threshold of the store is the constant `MAX_SEGMENT_SIZE` of the segment source. -/
def NewKiteFileStore (maxcap : Int) (maxSegmentSize : Int) : KiteFileStore :=
  { index := KiteQ.NewKiteFileStore maxcap,
    snapshot := NewMessageStore 100 10 maxSegmentSize }

/-- Modelled from the spec: `sort.Sort(self.segments)` orders the segments by `sid` (the
`Less` of `Segments` is declared in the segment source). -/
def sortSegments (l : List Segment) : List Segment :=
  l.insertionSort (fun a b => a.sid ≤ b.sid)

/-- The method `MessageStore.load`: `disk` lists the segments that the walk of the directory
finds, with the chunks and the log records of their files, and `fs` is the index that the
replay callback rebuilds.  The directory is taken to exist or to be created. -/
def MessageStore.load (self : MessageStore) (disk : List Segment) (fs : KiteQ.KiteFileStore)
    (createOk : Bool) : Outcome (MessageStore × KiteQ.KiteFileStore) :=
  let self1 := { self with segments := sortSegments (self.segments ++ disk) }
  match self1.recoverSnapshot fs with
  | none => .panicked
  | some (self2, fs1) =>
    match self2.loadCheckRoll createOk with
    | .stuck m => .stuck m
    | .panicked => .panicked
    | .returned r held => .returned (r.2, fs1) held

/-- The method `KiteFileStore.Start`, that is `MessageStore.Start`: the store is running and
`load` has run.  The goroutines it starts, `sync` and `evict`, are not part of the call. -/
def KiteFileStore.Start (self : KiteFileStore) (disk : List Segment) (createOk : Bool) :
    Outcome KiteFileStore :=
  match ({ self.snapshot with running := true } : MessageStore).load disk self.index
      createOk with
  | .stuck m => .stuck m
  | .panicked => .panicked
  | .returned r held => .returned { index := r.2, snapshot := r.1 } held

/-- The method `KiteFileStore.Save`: the capacity check and `json.Marshal` come first, then
`lock.Lock()`, `self.snapshot.Append(cmd)`, the insertion into the shard and
`lock.Unlock()`. -/
def KiteFileStore.Save (self : KiteFileStore) (entity : MessageEntity)
    (createOk slogOk : Bool) : Outcome (Bool × KiteFileStore) :=
  match hashId entity.MessageId with
  | none => .panicked
  | some h =>
    if ((self.index.oplogs h).length : Int) ≥ self.index.maxcap then
      .returned (false, self) []
    else
      match jsonMarshalEntity entity with
      | none => .returned (false, self) []
      | some _ =>
        let ob := savedBody entity 0
        let cmd := NewCommand (-1) entity.MessageId (entityBytes entity) (jsonMarshal ob)
        match lock [] (.shard h) with
        | none => .stuck (.shard h)
        | some held1 =>
          match self.snapshot.AppendLocked cmd createOk slogOk held1 with
          | .stuck m => .stuck m
          | .panicked => .panicked
          | .returned (id, snap) held2 =>
            let ob1 := { ob with Id := id }
            let p := self.index.nextPtr
            .returned
              (true,
                { index :=
                    { self.index with
                      loglink := Function.update self.index.loglink h
                        (PushFront (self.index.loglink h) p ob1),
                      oplogs := Function.update self.index.oplogs h
                        (mapSet (self.index.oplogs h) entity.MessageId p),
                      nextPtr := p + 1 },
                  snapshot := snap })
              (unlock held2 (.shard h))

/-- The method `KiteFileStore.Commit`; `openOk` is the outcome of `s.Open()` in
`loadSegment`.  The call panics when `indexSegment` does. -/
def KiteFileStore.Commit (self : KiteFileStore) (messageId : String) (openOk : Bool) :
    Outcome (Bool × KiteFileStore) :=
  match hashId messageId with
  | none => .panicked
  | some h =>
    match mapGet (self.index.oplogs h) messageId with
    | none => .returned (false, self) []
    | some p =>
      match elemValue (self.index.loglink h) p with
      | none => .panicked
      | some v0 =>
        let v := { v0 with Commit := true }
        let cmd := NewCommand v.Id messageId [] (jsonMarshal v)
        match self.snapshot.Update cmd openOk with
        | none => .panicked
        | some snap =>
          .returned
            (true,
              { index :=
                  { self.index with
                    loglink := Function.update self.index.loglink h
                      (setValue (self.index.loglink h) p v) },
                snapshot := snap })
            []

/-- The method `KiteFileStore.UpdateEntity`. -/
def KiteFileStore.UpdateEntity (self : KiteFileStore) (entity : MessageEntity)
    (openOk : Bool) : Outcome (Bool × KiteFileStore) :=
  match hashId entity.MessageId with
  | none => .panicked
  | some h =>
    match mapGet (self.index.oplogs h) entity.MessageId with
    | none => .returned (true, self) []
    | some p =>
      match elemValue (self.index.loglink h) p with
      | none => .panicked
      | some v0 =>
        let v := { v0 with
          DeliverCount := entity.DeliverCount,
          NextDeliverTime := entity.NextDeliverTime,
          SuccGroups := entity.SuccGroups,
          FailGroups := entity.FailGroups }
        let cmd := NewCommand v.Id entity.MessageId [] (jsonMarshal v)
        match self.snapshot.Update cmd openOk with
        | none => .panicked
        | some snap =>
          .returned
            (true,
              { index :=
                  { self.index with
                    loglink := Function.update self.index.loglink h
                      (setValue (self.index.loglink h) p v) },
                snapshot := snap })
            []

/-- The method `KiteFileStore.innerDelete` on the shard `h` that `hash(messageId)` selects;
`none` when `MessageStore.Delete` panics. -/
def KiteFileStore.innerDelete (self : KiteFileStore) (messageId : String)
    (h : Fin CONCURRENT_LEVEL) (openOk : Bool) : Option KiteFileStore :=
  match mapGet (self.index.oplogs h) messageId with
  | none => some self
  | some p =>
    match elemValue (self.index.loglink h) p with
    | none => none
    | some v =>
      let cmd := NewCommand v.Id messageId [] (jsonMarshal v)
      match self.snapshot.Delete cmd openOk with
      | none => none
      | some snap =>
        some
          { index :=
              { self.index with
                oplogs := Function.update self.index.oplogs h
                  (mapDelete (self.index.oplogs h) messageId),
                loglink := Function.update self.index.loglink h
                  (Remove (self.index.loglink h) p) },
            snapshot := snap }

/-- The method `KiteFileStore.Delete`. -/
def KiteFileStore.Delete (self : KiteFileStore) (messageId : String) (openOk : Bool) :
    Outcome (Bool × KiteFileStore) :=
  match hashId messageId with
  | none => .panicked
  | some h =>
    match self.innerDelete messageId h openOk with
    | none => .panicked
    | some fs => .returned (true, fs) []

/-- The method `KiteFileStore.Rollback`. -/
def KiteFileStore.Rollback (self : KiteFileStore) (messageId : String) (openOk : Bool) :
    Outcome (Bool × KiteFileStore) :=
  self.Delete messageId openOk

/-- The method `KiteFileStore.Expired`.  The removed value `v` is never nil, so the guard
`nil != v` holds; the command carries a nil `opbody`. -/
def KiteFileStore.Expired (self : KiteFileStore) (messageId : String) (openOk : Bool) :
    Outcome (Bool × KiteFileStore) :=
  match hashId messageId with
  | none => .panicked
  | some h =>
    match mapGet (self.index.oplogs h) messageId with
    | none => .returned (true, self) []
    | some p =>
      match elemValue (self.index.loglink h) p with
      | none => .panicked
      | some v =>
        let c := NewCommand v.Id messageId [] none
        match self.snapshot.Expired c openOk with
        | none => .panicked
        | some snap =>
          .returned
            (true,
              { index :=
                  { self.index with
                    oplogs := Function.update self.index.oplogs h
                      (mapDelete (self.index.oplogs h) messageId),
                    loglink := Function.update self.index.loglink h
                      (Remove (self.index.loglink h) p) },
                snapshot := snap })
            []

/-- One call on the file store, with the outcomes of the file operations it meets. -/
inductive StoreCall where
  | Start (disk : List Segment) (createOk : Bool)
  | Save (entity : MessageEntity) (createOk slogOk : Bool)
  | Commit (messageId : String) (openOk : Bool)
  | UpdateEntity (entity : MessageEntity) (openOk : Bool)
  | Delete (messageId : String) (openOk : Bool)
  | Expired (messageId : String) (openOk : Bool)
deriving DecidableEq, Repr

/-- Drops the boolean result of a call. -/
def Outcome.store (r : Outcome (Bool × KiteFileStore)) : Outcome KiteFileStore :=
  match r with
  | .returned value held => .returned value.2 held
  | .stuck m => .stuck m
  | .panicked => .panicked

/-- The file store after one call. -/
def KiteFileStore.call (self : KiteFileStore) : StoreCall → Outcome KiteFileStore
  | .Start disk createOk => self.Start disk createOk
  | .Save entity createOk slogOk => (self.Save entity createOk slogOk).store
  | .Commit messageId openOk => (self.Commit messageId openOk).store
  | .UpdateEntity entity openOk => (self.UpdateEntity entity openOk).store
  | .Delete messageId openOk => (self.Delete messageId openOk).store
  | .Expired messageId openOk => (self.Expired messageId openOk).store

/-- The file store after a sequence of calls, one after the other; the sequence ends at the
first call that does not return. -/
def KiteFileStore.calls (self : KiteFileStore) : List StoreCall → Outcome KiteFileStore
  | [] => .returned self []
  | c :: rest =>
    match self.call c with
    | .returned fs _ => fs.calls rest
    | .stuck m => .stuck m
    | .panicked => .panicked

end Segmented

namespace Segmented

/-! ### Sample file stores -/

/-- A segment with `sid` 0 whose data file holds the chunks 0..3 and whose log is
`pagingLog`: the records of "a0", "b0", "c1", "d0" with the chunk ids 0..3. -/
def pagingSegment : Segment :=
  { sampleSegment 0 [0, 1, 2, 3] with slog := pagingLog }

/-- A directory with the one segment `pagingSegment`. -/
def pagingDisk : List Segment :=
  [pagingSegment]

/-- A file store of total capacity 1600 and a roll threshold of 64 MB, started over
`pagingDisk`: the index holds "a0", "b0", "d0" on shard 0 and "c1" on shard 1, and the store
has the one segment of the directory. -/
def recoveredStore : KiteFileStore :=
  ((NewKiteFileStore 1600 67108864).Start pagingDisk true).value?.getD
    (NewKiteFileStore 1600 67108864)

/-- A directory with one segment, `sid` 0, whose data file holds the chunk 0 and whose log
holds one record: the update of the message "m0" with chunk id 0. -/
def singleDisk : List Segment :=
  [ { sampleSegment 0 [0] with
      slog := [newOplog .OP_U "m0" 0 (some (sampleBody 0 "m0" false 100))] } ]

/-- A directory with one segment, `sid` 0, whose data file holds the chunk 0 and whose log
holds one record: the creation of the message "a0". -/
def tinyDisk : List Segment :=
  [ { sampleSegment 0 [0] with
      slog := [newOplog .OP_C "a0" 0 (some (sampleBody 0 "a0" false 100))] } ]

end Segmented

namespace Segmented

/-- The ids that `n` calls of `MessageStore.cid`, one after the other, return. -/
def MessageStore.cidAll (self : MessageStore) : Nat → List Int
  | 0 => []
  | n + 1 => (self.cid).1 :: (self.cid).2.cidAll n

/-- A running store with a roll threshold of 16 bytes whose only segment, `sid` 0, holds
the chunk 0 (20 bytes) while the chunks 1 and 2, which `Append` assigned to segment 0, are
still in the queue; the counter stands at 2, the last id assigned. -/
def unflushedStore : MessageStore :=
  { runningStore [sampleSegment 0 [0]] 2 with
    writeChannel :=
      [ { sampleCommand "b" with id := 1, seg := some 0 },
        { sampleCommand "c" with id := 2, seg := some 0 } ] }

end Segmented

/-! ## Proofs -/

/-! ## Paged query -/

/-- Inside the `int64` range, wrapping changes nothing. -/
theorem wrapInt64_of_range (x : Int) (hlo : -2 ^ 63 ≤ x) (hhi : x < 2 ^ 63) :
    wrapInt64 x = x := by
  unfold wrapInt64
  rw [Int.emod_eq_of_lt (by omega) (by omega)]
  omega

/-- A limit whose successor is an accepted capacity passes the check of `make`. -/
theorem makeSliceOk_succ (n : Nat) (hcap : (n : Int) + 1 ≤ MAX_SLICE_CAP) :
    makeSliceOk (wrapInt64 ((n : Int) + 1)) = true := by
  have h45 : MAX_SLICE_CAP = 2 ^ 45 := rfl
  rw [wrapInt64_of_range _ (by omega) (by omega)]
  simp only [makeSliceOk, decide_eq_true_eq]
  omega

/-- The entries of a list walk that match the cutoff, as entities, in walk order. -/
theorem pageLoop_eq (cutoff : Int) (s n : Nat) (l : List Element)
    (hcap : (n : Int) + 1 ≤ MAX_SLICE_CAP) :
    ∀ (k : Nat) (pe : List MessageEntity), pe.length ≤ n →
      pageLoop cutoff (s : Int) (n : Int) l (k : Int) pe =
        some (pe ++ ((((l.filter (fun e => decide (e.Value.NextDeliverTime ≤ cutoff))).map
          (fun e => entityOf e.Value)).drop (s - k)).take (n + 1 - pe.length))) := by
  have hmk := makeSliceOk_succ n hcap
  induction l with
  | nil => intro k pe _; simp [pageLoop]
  | cons e rest ih =>
    intro k pe hpe
    by_cases hm : e.Value.NextDeliverTime ≤ cutoff
    · by_cases hs : s ≤ k
      · have hsk : s - k = 0 := by omega
        have hsk1 : s - (k + 1) = 0 := by omega
        have hcast : (s : Int) ≤ (k : Int) := by exact_mod_cast hs
        have hno : ¬ (pe.isEmpty ∧ makeSliceOk (wrapInt64 ((n : Int) + 1)) = false) := by
          rw [hmk]; simp
        by_cases hfull : pe.length + 1 > n
        · have hn : n + 1 - pe.length = 1 := by omega
          have hgt : ((pe.length : Int) + 1 > (n : Int)) := by exact_mod_cast hfull
          simp only [pageLoop, hm, hcast, if_true, if_neg hno, List.length_append,
            List.length_singleton, List.filter_cons, decide_True, List.map_cons, hsk,
            List.drop_zero, hn]
          push_cast
          rw [if_pos hgt]
          simp
        · have hgt : ¬ ((pe.length : Int) + 1 > (n : Int)) := by exact_mod_cast hfull
          have hlen : (pe ++ [entityOf e.Value]).length ≤ n := by simp; omega
          have h1 := ih (k + 1) (pe ++ [entityOf e.Value]) hlen
          have hn : n + 1 - pe.length = (n + 1 - (pe.length + 1)) + 1 := by omega
          simp only [List.length_append, List.length_singleton] at h1
          push_cast at h1
          simp only [pageLoop, hm, hcast, if_true, if_neg hno, List.length_append,
            List.length_singleton, List.filter_cons, decide_True, List.map_cons, hsk,
            List.drop_zero]
          push_cast
          rw [if_neg hgt, h1, hsk1, hn, List.take_succ_cons]
          simp
      · have hcast : ¬ ((s : Int) ≤ (k : Int)) := by exact_mod_cast hs
        have hgt : ¬ ((pe.length : Int) > (n : Int)) := by
          have : ¬ (pe.length > n) := by omega
          exact_mod_cast this
        have hsk : s - k = (s - (k + 1)) + 1 := by omega
        have h1 := ih (k + 1) pe hpe
        push_cast at h1
        simp only [pageLoop, hm, hcast, if_true, if_false, List.filter_cons, decide_True,
          List.map_cons]
        rw [if_neg hgt, h1, hsk, List.drop_succ_cons]
    · have h1 := ih k pe hpe
      simp only [pageLoop, hm, if_false, List.filter_cons, decide_False]
      simpa using h1

/-- Closed form of `PageQueryEntity` for a non-negative start index and a non-negative limit
whose successor is a capacity `make` accepts. -/
theorem pageQuery_eq (fs : KiteFileStore) (hashKey kiteServer : String)
    (h : Fin CONCURRENT_LEVEL) (cutoff : Int) (s n : Nat) (hh : hashId hashKey = some h)
    (hcap : (n : Int) + 1 ≤ MAX_SLICE_CAP) :
    fs.PageQueryEntity hashKey kiteServer cutoff (s : Int) (n : Int) =
      some (decide (s + n <
          ((fs.loglink h).reverse.filter
            (fun e => decide (e.Value.NextDeliverTime ≤ cutoff))).length),
        ((((fs.loglink h).reverse.filter
            (fun e => decide (e.Value.NextDeliverTime ≤ cutoff))).drop s).take n).map
          (fun e => entityOf e.Value)) := by
  have hloop := pageLoop_eq cutoff s n (fs.loglink h).reverse hcap 0 [] (Nat.zero_le _)
  simp only [Nat.cast_zero, List.length_nil, Nat.sub_zero, List.nil_append] at hloop
  simp only [KiteFileStore.PageQueryEntity, hh, hloop]
  generalize (fs.loglink h).reverse.filter
    (fun e => decide (e.Value.NextDeliverTime ≤ cutoff)) = M
  have hlen : (List.take (n + 1) (List.drop s (List.map (fun e => entityOf e.Value) M))).length
      = min (n + 1) (M.length - s) := by simp
  by_cases hmore : s + n < M.length
  · have h1 : ((List.take (n + 1)
        (List.drop s (List.map (fun e => entityOf e.Value) M))).length : Int) > (n : Int) := by
      rw [hlen]; have : min (n + 1) (M.length - s) > n := by omega
      exact_mod_cast this
    have h2 : ¬ ((n : Int) < 0) := by omega
    rw [if_pos h1, if_neg h2]
    simp [hmore, List.take_take, List.map_take, List.map_drop]
  · have h1 : ¬ (((List.take (n + 1)
        (List.drop s (List.map (fun e => entityOf e.Value) M))).length : Int) > (n : Int)) := by
      rw [hlen]; have : ¬ (min (n + 1) (M.length - s) > n) := by omega
      exact_mod_cast this
    rw [if_neg h1]
    have hd : (List.drop s M).length ≤ n := by simp; omega
    have hd1 : (List.drop s M).length ≤ n + 1 := by omega
    simp [hmore, List.map_take, List.map_drop, List.take_of_length_le hd,
      List.take_of_length_le hd1]
    omega

/-- C1, as the code behaves: with `limit` the greatest `int`, `limit+1` wraps to a negative
capacity and `make` panics at the first match: on a shard 0 that holds three entries, two of
them with `next_deliver_time ≤ 250`, `PageQueryEntity("0", _, 250, 0, 2^63-1)` returns
nothing, where the claim promises these two entries. -/
theorem C1_pageQuery_max_limit_panics :
    hashId "0" = some 0 ∧ (0 : Int) ≤ 0 ∧ (0 : Int) ≤ 2 ^ 63 - 1 ∧
    (((replayedStore.loglink 0).reverse.filter
        (fun e => decide (e.Value.NextDeliverTime ≤ 250))).map
      (fun e => (entityOf e.Value).MessageId)) = ["a0", "d0"] ∧
    replayedStore.PageQueryEntity "0" "server" 250 0 (2 ^ 63 - 1) = none := by
  decide

/-- C1 amended: for a non-negative start index and a non-negative limit with `limit+1` a
capacity that `make` accepts, `PageQueryEntity` returns the OpBodies of the shard list
walked from back to front, filtered to `next_deliver_time ≤ cutoff`, with the first
`start_index` matches dropped and the next `limit` kept, in that order, each as an entity
carrying the OpBody's message id, commit flag, groups, delivery time and delivery count; so
at most `limit` entries come back and each has `next_deliver_time ≤ cutoff`. -/
theorem C1_pageQuery_entries (fs : KiteFileStore) (hashKey kiteServer : String)
    (h : Fin CONCURRENT_LEVEL) (cutoff startIdx limit : Int)
    (hh : hashId hashKey = some h) (hs : 0 ≤ startIdx) (hl : 0 ≤ limit)
    (hcap : limit + 1 ≤ MAX_SLICE_CAP) :
    ∃ more entries,
      fs.PageQueryEntity hashKey kiteServer cutoff startIdx limit = some (more, entries) ∧
      entries =
        ((((fs.loglink h).reverse.filter
            (fun e => decide (e.Value.NextDeliverTime ≤ cutoff))).drop startIdx.toNat).take
          limit.toNat).map (fun e => entityOf e.Value) ∧
      (entries.length : Int) ≤ limit ∧
      (∀ x ∈ entries, x.NextDeliverTime ≤ cutoff) ∧
      (∀ ob : opBody, (entityOf ob).MessageId = ob.MessageId ∧
        (entityOf ob).Commit = ob.Commit ∧
        (entityOf ob).FailGroups = ob.FailGroups ∧
        (entityOf ob).SuccGroups = ob.SuccGroups ∧
        (entityOf ob).NextDeliverTime = ob.NextDeliverTime ∧
        (entityOf ob).DeliverCount = ob.DeliverCount) := by
  obtain ⟨s, rfl⟩ := Int.eq_ofNat_of_zero_le hs
  obtain ⟨n, rfl⟩ := Int.eq_ofNat_of_zero_le hl
  refine ⟨_, _, pageQuery_eq fs hashKey kiteServer h cutoff s n hh hcap, ?_, ?_, ?_, ?_⟩
  · simp
  · have : (List.take n (List.drop s ((fs.loglink h).reverse.filter
        (fun e => decide (e.Value.NextDeliverTime ≤ cutoff))))).length ≤ n :=
      List.length_take_le _ _
    simp only [List.length_map]
    exact_mod_cast this
  · intro x hx
    obtain ⟨e, he, rfl⟩ := List.mem_map.1 hx
    have h1 := List.mem_of_mem_drop (List.mem_of_mem_take he)
    have h2 := (List.mem_filter.1 h1).2
    simpa [entityOf] using h2
  · intro ob
    simp [entityOf]

/-- C1 amended, at the replayed store: shard 0, cutoff 250, start index 1, limit 5. -/
theorem C1_pageQuery_entries_witness :
    hashId "0" = some 0 ∧ (0 : Int) ≤ 1 ∧ (0 : Int) ≤ 5 ∧ (5 : Int) + 1 ≤ MAX_SLICE_CAP ∧
    ∃ more entries,
      replayedStore.PageQueryEntity "0" "server" 250 1 5 = some (more, entries) ∧
      entries =
        ((((replayedStore.loglink 0).reverse.filter
            (fun e => decide (e.Value.NextDeliverTime ≤ 250))).drop (1 : Int).toNat).take
          (5 : Int).toNat).map (fun e => entityOf e.Value) ∧
      (entries.length : Int) ≤ 5 ∧
      (∀ x ∈ entries, x.NextDeliverTime ≤ 250) ∧
      (∀ ob : opBody, (entityOf ob).MessageId = ob.MessageId ∧
        (entityOf ob).Commit = ob.Commit ∧
        (entityOf ob).FailGroups = ob.FailGroups ∧
        (entityOf ob).SuccGroups = ob.SuccGroups ∧
        (entityOf ob).NextDeliverTime = ob.NextDeliverTime ∧
        (entityOf ob).DeliverCount = ob.DeliverCount) :=
  ⟨by decide, by decide, by decide, by decide,
    C1_pageQuery_entries replayedStore "0" "server" 0 250 1 5 (by decide) (by decide)
      (by decide) (by decide)⟩

/-- C2, as the code behaves: with `limit` the greatest `int`, `make` panics at the first
match at or after the start index: on a shard 0 with three entries of
`next_deliver_time ≤ 1000`, `PageQueryEntity("0", _, 1000, 1, 2^63-1)` returns no `has_more`
at all, where the claim promises `false`. -/
theorem C2_hasMore_max_limit_panics :
    hashId "0" = some 0 ∧ (0 : Int) ≤ 1 ∧ (0 : Int) ≤ 2 ^ 63 - 1 ∧
    (((replayedStore.loglink 0).filter
        (fun e => decide (e.Value.NextDeliverTime ≤ 1000))).length : Int) = 3 ∧
    replayedStore.PageQueryEntity "0" "server" 1000 1 (2 ^ 63 - 1) = none := by
  decide

/-- C2 amended: for a non-negative start index and a non-negative limit with `limit+1` a
capacity that `make` accepts, `PageQueryEntity` returns `has_more = true` exactly when the
number of entries of the shard with `next_deliver_time ≤ cutoff` is strictly greater than
`start + limit`. -/
theorem C2_pageQuery_hasMore (fs : KiteFileStore) (hashKey kiteServer : String)
    (h : Fin CONCURRENT_LEVEL) (cutoff startIdx limit : Int)
    (hh : hashId hashKey = some h) (hs : 0 ≤ startIdx) (hl : 0 ≤ limit)
    (hcap : limit + 1 ≤ MAX_SLICE_CAP) :
    ∃ more entries,
      fs.PageQueryEntity hashKey kiteServer cutoff startIdx limit = some (more, entries) ∧
      (more = true ↔
        startIdx + limit <
          (((fs.loglink h).filter
            (fun e => decide (e.Value.NextDeliverTime ≤ cutoff))).length : Int)) := by
  obtain ⟨s, rfl⟩ := Int.eq_ofNat_of_zero_le hs
  obtain ⟨n, rfl⟩ := Int.eq_ofNat_of_zero_le hl
  refine ⟨_, _, pageQuery_eq fs hashKey kiteServer h cutoff s n hh hcap, ?_⟩
  rw [decide_eq_true_iff, List.filter_reverse, List.length_reverse]
  exact_mod_cast Iff.rfl

/-- C2 amended, at the replayed store: shard 0, cutoff 250, start index 1, limit 0. -/
theorem C2_pageQuery_hasMore_witness :
    hashId "0" = some 0 ∧ (0 : Int) ≤ 1 ∧ (0 : Int) ≤ 0 ∧ (0 : Int) + 1 ≤ MAX_SLICE_CAP ∧
    ∃ more entries,
      replayedStore.PageQueryEntity "0" "server" 250 1 0 = some (more, entries) ∧
      (more = true ↔
        (1 : Int) + 0 <
          (((replayedStore.loglink 0).filter
            (fun e => decide (e.Value.NextDeliverTime ≤ 250))).length : Int)) :=
  ⟨by decide, by decide, by decide, by decide,
    C2_pageQuery_hasMore replayedStore "0" "server" 0 250 1 0 (by decide) (by decide)
      (by decide) (by decide)⟩

/-- A list whose first `n` elements pass a test and whose other elements fail it is
filtered to its first `n` elements. -/
theorem filter_eq_take_of_split {α : Type} (p : α → Bool) (l : List α) (n : Nat)
    (h1 : ∀ x ∈ l.take n, p x = true) (h2 : ∀ x ∈ l.drop n, p x = false) :
    l.filter p = l.take n := by
  conv_lhs => rw [← List.take_append_drop n l]
  rw [List.filter_append, List.filter_eq_self.2 h1, List.filter_eq_nil_iff.2, List.append_nil]
  intro x hx
  simp [h2 x hx]

/-- C3, as the code behaves: on the 25-entry scenario shard, `PageQueryEntity("0", _, 1000, 0, 10)`
returns the ten entries with times 100..1000 and `has_more = false`, not `true`. -/
theorem C3_scenario_hasMore_false :
    ((startedStore.run scenarioSaves).bind
        (fun fs => fs.PageQueryEntity "0" "server" 1000 0 10)).map
      (fun r => (r.1, r.2.map (fun x => x.NextDeliverTime))) =
      some (false, [100, 200, 300, 400, 500, 600, 700, 800, 900, 1000]) := by
  decide

/-- C3 amended: on any shard 0 whose entries, oldest first, have delivery times
100, 200, ..., 2500, `PageQueryEntity("0", _, 1000, 0, 10)` returns the ten oldest entries,
whose times are 100..1000, and `has_more = false`. -/
theorem C3_scenario_amended (fs : KiteFileStore) (kiteServer : String)
    (htimes : (fs.loglink 0).reverse.map (fun e => e.Value.NextDeliverTime) = scenarioTimes) :
    fs.PageQueryEntity "0" kiteServer 1000 0 10 =
      some (false, ((fs.loglink 0).reverse.take 10).map (fun e => entityOf e.Value)) ∧
    ((fs.loglink 0).reverse.take 10).map (fun e => (entityOf e.Value).NextDeliverTime) =
      [100, 200, 300, 400, 500, 600, 700, 800, 900, 1000] := by
  have hh : hashId "0" = some 0 := by decide
  have htake : ((fs.loglink 0).reverse.take 10).map (fun e => e.Value.NextDeliverTime) =
      scenarioTimes.take 10 := by rw [← htimes, List.map_take]
  have hdrop : ((fs.loglink 0).reverse.drop 10).map (fun e => e.Value.NextDeliverTime) =
      scenarioTimes.drop 10 := by rw [← htimes, List.map_drop]
  have hfilter : (fs.loglink 0).reverse.filter
      (fun e => decide (e.Value.NextDeliverTime ≤ 1000)) = (fs.loglink 0).reverse.take 10 := by
    apply filter_eq_take_of_split
    · intro x hx
      have hmem : x.Value.NextDeliverTime ∈ scenarioTimes.take 10 := by
        rw [← htake]; exact List.mem_map_of_mem _ hx
      have hall : ∀ t ∈ scenarioTimes.take 10, t ≤ 1000 := by decide
      simpa using hall _ hmem
    · intro x hx
      have hmem : x.Value.NextDeliverTime ∈ scenarioTimes.drop 10 := by
        rw [← hdrop]; exact List.mem_map_of_mem _ hx
      have hall : ∀ t ∈ scenarioTimes.drop 10, ¬ t ≤ 1000 := by decide
      simpa using hall _ hmem
  have hlen : ((fs.loglink 0).reverse.take 10).length = 10 := by
    have h1 := congrArg List.length htake
    simp only [List.length_map] at h1
    rw [h1]; decide
  have hq := pageQuery_eq fs "0" kiteServer 0 1000 0 10 hh (by decide)
  rw [hfilter] at hq
  simp only [Nat.cast_zero, Nat.cast_ofNat, List.drop_zero, List.take_take, min_self,
    hlen, zero_add, lt_self_iff_false, decide_False] at hq
  refine ⟨hq, ?_⟩
  have h3 : ((fs.loglink 0).reverse.take 10).map (fun e => (entityOf e.Value).NextDeliverTime)
      = ((fs.loglink 0).reverse.take 10).map (fun e => e.Value.NextDeliverTime) := by
    apply List.map_congr_left; intro e _; rfl
  rw [h3, htake]; decide

/-- C3 amended, at the store built by the 25 saves of the scenario. -/
theorem C3_scenario_amended_witness :
    (scenarioStore.loglink 0).reverse.map (fun e => e.Value.NextDeliverTime) = scenarioTimes ∧
    (scenarioStore.PageQueryEntity "0" "server" 1000 0 10 =
      some (false, ((scenarioStore.loglink 0).reverse.take 10).map (fun e => entityOf e.Value)) ∧
    ((scenarioStore.loglink 0).reverse.take 10).map (fun e => (entityOf e.Value).NextDeliverTime) =
      [100, 200, 300, 400, 500, 600, 700, 800, 900, 1000]) :=
  ⟨by decide, C3_scenario_amended scenarioStore "server" (by decide)⟩

/-! ## Map and list primitives -/

theorem mapGet_cons (kv : String × Nat) (rest : OplogMap) (key : String) :
    mapGet (kv :: rest) key = if kv.1 = key then some kv.2 else mapGet rest key := rfl

theorem elemValue_cons (e : Element) (rest : LinkList) (p : Nat) :
    elemValue (e :: rest) p = if e.ptr = p then some e.Value else elemValue rest p := rfl

theorem mapDelete_cons (kv : String × Nat) (rest : OplogMap) (k : String) :
    mapDelete (kv :: rest) k = if kv.1 = k then mapDelete rest k else kv :: mapDelete rest k := by
  by_cases hk : kv.1 = k <;> simp [mapDelete, List.filter_cons, hk]

theorem Remove_cons (e : Element) (rest : LinkList) (p : Nat) :
    Remove (e :: rest) p = if e.ptr = p then Remove rest p else e :: Remove rest p := by
  by_cases hk : e.ptr = p <;> simp [Remove, List.filter_cons, hk]

theorem setValue_cons (e : Element) (rest : LinkList) (p : Nat) (v : opBody) :
    setValue (e :: rest) p v =
      (if e.ptr = p then { e with Value := v } else e) :: setValue rest p v := rfl

theorem mapGet_mapDelete_same (m : OplogMap) (k : String) : mapGet (mapDelete m k) k = none := by
  induction m with
  | nil => rfl
  | cons kv rest ih =>
    rw [mapDelete_cons]
    by_cases hk : kv.1 = k
    · rw [if_pos hk]; exact ih
    · rw [if_neg hk, mapGet_cons, if_neg hk]; exact ih

theorem mapGet_mapDelete_ne (m : OplogMap) (k k1 : String) (hne : k1 ≠ k) :
    mapGet (mapDelete m k) k1 = mapGet m k1 := by
  induction m with
  | nil => rfl
  | cons kv rest ih =>
    rw [mapDelete_cons, mapGet_cons]
    by_cases hk : kv.1 = k
    · have h1 : ¬ kv.1 = k1 := fun h => hne (h.symm.trans hk)
      rw [if_pos hk, if_neg h1]; exact ih
    · rw [if_neg hk, mapGet_cons, ih]

theorem mapGet_mapSet_same (m : OplogMap) (k : String) (p : Nat) :
    mapGet (mapSet m k p) k = some p := by
  simp [mapSet, mapGet_cons]

theorem mapGet_mapSet_ne (m : OplogMap) (k k1 : String) (p : Nat) (hne : k1 ≠ k) :
    mapGet (mapSet m k p) k1 = mapGet m k1 := by
  have h1 : ¬ k = k1 := fun h => hne h.symm
  rw [mapSet, mapGet_cons, if_neg h1, mapGet_mapDelete_ne m k k1 hne]

theorem mapGet_mem (m : OplogMap) (k : String) (p : Nat) (h : mapGet m k = some p) :
    (k, p) ∈ m := by
  induction m with
  | nil => simp [mapGet] at h
  | cons kv rest ih =>
    rw [mapGet_cons] at h
    by_cases hk : kv.1 = k
    · rw [if_pos hk, Option.some.injEq] at h
      have : kv = (k, p) := Prod.ext hk h
      rw [this]; exact List.mem_cons_self _ _
    · rw [if_neg hk] at h
      exact List.mem_cons_of_mem _ (ih h)

/-- In a map with pairwise distinct values, two entries with the same value have the same
key. -/
theorem key_eq_of_nodup_values (m : OplogMap) (hnd : (m.map Prod.snd).Nodup)
    (k k1 : String) (p : Nat) (h : (k, p) ∈ m) (h1 : (k1, p) ∈ m) : k = k1 := by
  induction m with
  | nil => simp at h
  | cons kv rest ih =>
    rw [List.map_cons, List.nodup_cons] at hnd
    rcases List.mem_cons.1 h with h | h <;> rcases List.mem_cons.1 h1 with h1 | h1
    · have := h.trans h1.symm
      exact (Prod.ext_iff.1 this).1
    · exfalso; apply hnd.1
      have h2 : (k1, p).2 ∈ rest.map Prod.snd := List.mem_map_of_mem Prod.snd h1
      rw [← h]; exact h2
    · exfalso; apply hnd.1
      have h2 : (k, p).2 ∈ rest.map Prod.snd := List.mem_map_of_mem Prod.snd h
      rw [← h1]; exact h2
    · exact ih hnd.2 h h1

theorem elemValue_isSome_of_mem (l : LinkList) (p : Nat) (h : p ∈ l.map Element.ptr) :
    ∃ v, elemValue l p = some v := by
  induction l with
  | nil => simp at h
  | cons e rest ih =>
    rw [elemValue_cons]
    by_cases hp : e.ptr = p
    · exact ⟨e.Value, by rw [if_pos hp]⟩
    · rw [List.map_cons, List.mem_cons] at h
      rcases h with h | h
      · exact absurd h.symm hp
      · obtain ⟨v, hv⟩ := ih h
        exact ⟨v, by rw [if_neg hp, hv]⟩

theorem mem_of_elemValue (l : LinkList) (p : Nat) (v : opBody) (h : elemValue l p = some v) :
    ({ ptr := p, Value := v } : Element) ∈ l := by
  induction l with
  | nil => simp [elemValue] at h
  | cons e rest ih =>
    rw [elemValue_cons] at h
    by_cases hp : e.ptr = p
    · rw [if_pos hp, Option.some.injEq] at h
      have : e = { ptr := p, Value := v } := by cases e; simp_all
      rw [this]; exact List.mem_cons_self _ _
    · rw [if_neg hp] at h
      exact List.mem_cons_of_mem _ (ih h)

theorem elemValue_eq_none_of_not_mem (l : LinkList) (p : Nat) (h : p ∉ l.map Element.ptr) :
    elemValue l p = none := by
  cases hv : elemValue l p with
  | none => rfl
  | some v => exact absurd (List.mem_map_of_mem Element.ptr (mem_of_elemValue l p v hv)) h

theorem ptr_setValue (l : LinkList) (p : Nat) (v : opBody) :
    (setValue l p v).map Element.ptr = l.map Element.ptr := by
  induction l with
  | nil => rfl
  | cons e rest ih =>
    rw [setValue_cons, List.map_cons, List.map_cons, ih]
    by_cases hp : e.ptr = p
    · rw [if_pos hp]
    · rw [if_neg hp]

theorem elemValue_setValue_same (l : LinkList) (p : Nat) (v : opBody)
    (h : p ∈ l.map Element.ptr) : elemValue (setValue l p v) p = some v := by
  induction l with
  | nil => simp at h
  | cons e rest ih =>
    rw [setValue_cons, elemValue_cons]
    by_cases hp : e.ptr = p
    · rw [if_pos hp, if_pos hp]
    · rw [if_neg hp, if_neg hp]
      rw [List.map_cons, List.mem_cons] at h
      rcases h with h | h
      · exact absurd h.symm hp
      · exact ih h

theorem elemValue_setValue_ne (l : LinkList) (p q : Nat) (v : opBody) (hne : q ≠ p) :
    elemValue (setValue l p v) q = elemValue l q := by
  induction l with
  | nil => rfl
  | cons e rest ih =>
    rw [setValue_cons, elemValue_cons, elemValue_cons, ih]
    by_cases hp : e.ptr = p
    · have hq : ¬ e.ptr = q := fun h => hne (h.symm.trans hp)
      rw [if_pos hp, if_neg hq, if_neg hq]
    · rw [if_neg hp]

theorem ptr_Remove (l : LinkList) (p : Nat) :
    (Remove l p).map Element.ptr = (l.map Element.ptr).filter (fun q => decide (q ≠ p)) := by
  induction l with
  | nil => rfl
  | cons e rest ih =>
    rw [Remove_cons]
    by_cases hp : e.ptr = p
    · rw [if_pos hp, ih, List.map_cons, List.filter_cons]
      simp [hp]
    · rw [if_neg hp, List.map_cons, ih, List.map_cons, List.filter_cons]
      simp [hp]

theorem elemValue_Remove_same (l : LinkList) (p : Nat) : elemValue (Remove l p) p = none := by
  apply elemValue_eq_none_of_not_mem
  rw [ptr_Remove]
  simp [List.mem_filter]

theorem elemValue_Remove_ne (l : LinkList) (p q : Nat) (hne : q ≠ p) :
    elemValue (Remove l p) q = elemValue l q := by
  induction l with
  | nil => rfl
  | cons e rest ih =>
    rw [Remove_cons, elemValue_cons]
    by_cases hp : e.ptr = p
    · have hq : ¬ e.ptr = q := fun h => hne (h.symm.trans hp)
      rw [if_pos hp, if_neg hq]; exact ih
    · rw [if_neg hp, elemValue_cons, ih]

theorem elemValue_MoveToFront (l : LinkList) (p q : Nat) :
    elemValue (MoveToFront l p) q = elemValue l q := by
  unfold MoveToFront
  cases hv : elemValue l p with
  | none => rfl
  | some v =>
    show elemValue ({ ptr := p, Value := v } :: Remove l p) q = elemValue l q
    rw [elemValue_cons]
    by_cases hq : p = q
    · subst hq; rw [if_pos rfl, hv]
    · have hne : q ≠ p := fun h => hq h.symm
      rw [if_neg hq, elemValue_Remove_ne l p q hne]

/-! ## The representation invariant is preserved -/

theorem ShardWF_mono {n n1 : Nat} {m : OplogMap} {l : LinkList} (h : ShardWF n m l)
    (hn : n ≤ n1) : ShardWF n1 m l :=
  ⟨h.1, fun q hq => lt_of_lt_of_le (h.2.1 q hq) hn, h.2.2.1, h.2.2.2.1, h.2.2.2.2⟩

theorem ShardWF_setValue {n : Nat} {m : OplogMap} {l : LinkList} (h : ShardWF n m l)
    (p : Nat) (v : opBody) : ShardWF n m (setValue l p v) := by
  unfold ShardWF
  rw [ptr_setValue]
  exact h

theorem ptr_MoveToFront_of_some (l : LinkList) (p : Nat) (v : opBody)
    (hv : elemValue l p = some v) :
    (MoveToFront l p).map Element.ptr =
      p :: (l.map Element.ptr).filter (fun q => decide (q ≠ p)) := by
  unfold MoveToFront
  rw [hv]
  show (({ ptr := p, Value := v } : Element) :: Remove l p).map Element.ptr = _
  rw [List.map_cons, ptr_Remove]

theorem ShardWF_MoveToFront {n : Nat} {m : OplogMap} {l : LinkList} (h : ShardWF n m l)
    (p : Nat) : ShardWF n m (MoveToFront l p) := by
  cases hv : elemValue l p with
  | none =>
    have : MoveToFront l p = l := by unfold MoveToFront; rw [hv]
    rw [this]; exact h
  | some v =>
    have hp : p ∈ l.map Element.ptr :=
      List.mem_map_of_mem Element.ptr (mem_of_elemValue l p v hv)
    unfold ShardWF
    rw [ptr_MoveToFront_of_some l p v hv]
    refine ⟨?_, ?_, h.2.2.1, ?_, h.2.2.2.2⟩
    · rw [List.nodup_cons]
      exact ⟨by simp [List.mem_filter], h.1.filter _⟩
    · intro q hq
      rcases List.mem_cons.1 hq with hq | hq
      · rw [hq]; exact h.2.1 p hp
      · exact h.2.1 q (List.mem_of_mem_filter hq)
    · intro kv hkv
      by_cases hq : kv.2 = p
      · rw [hq]; exact List.mem_cons_self _ _
      · apply List.mem_cons_of_mem
        exact List.mem_filter.2 ⟨h.2.2.2.1 kv hkv, by simpa using hq⟩

theorem ShardWF_push {n : Nat} {m : OplogMap} {l : LinkList} (h : ShardWF n m l)
    (k : String) (v : opBody) : ShardWF (n + 1) (mapSet m k n) (PushFront l n v) := by
  have hfresh : n ∉ l.map Element.ptr := fun hn => lt_irrefl n (h.2.1 n hn)
  refine ⟨?_, ?_, ?_, ?_, ?_⟩
  · show (n :: l.map Element.ptr).Nodup
    exact List.nodup_cons.2 ⟨hfresh, h.1⟩
  · intro q hq
    rcases List.mem_cons.1 hq with hq | hq
    · rw [hq]; exact Nat.lt_succ_self n
    · exact Nat.lt_succ_of_lt (h.2.1 q hq)
  · show (n :: (mapDelete m k).map Prod.snd).Nodup
    refine List.nodup_cons.2 ⟨?_, ?_⟩
    · intro hn
      obtain ⟨kv, hkv, hkv2⟩ := List.mem_map.1 hn
      have := h.2.2.2.1 kv (List.mem_of_mem_filter hkv)
      rw [hkv2] at this
      exact hfresh this
    · exact h.2.2.1.sublist ((List.filter_sublist _).map _)
  · intro kv hkv
    rcases List.mem_cons.1 hkv with hkv | hkv
    · rw [hkv]; exact List.mem_cons_self _ _
    · exact List.mem_cons_of_mem _ (h.2.2.2.1 kv (List.mem_of_mem_filter hkv))
  · show (k :: (mapDelete m k).map Prod.fst).Nodup
    refine List.nodup_cons.2 ⟨?_, h.2.2.2.2.sublist ((List.filter_sublist _).map _)⟩
    intro hk
    obtain ⟨kv, hkv, hkv1⟩ := List.mem_map.1 hk
    have : kv.1 ≠ k := by simpa [mapDelete] using (List.mem_filter.1 hkv).2
    exact this hkv1

theorem ShardWF_remove {n : Nat} {m : OplogMap} {l : LinkList} (h : ShardWF n m l)
    (k : String) (p : Nat) (hk : mapGet m k = some p) :
    ShardWF n (mapDelete m k) (Remove l p) := by
  unfold ShardWF
  rw [ptr_Remove]
  refine ⟨h.1.filter _, fun q hq => h.2.1 q (List.mem_of_mem_filter hq),
    h.2.2.1.sublist ((List.filter_sublist _).map _), ?_,
    h.2.2.2.2.sublist ((List.filter_sublist _).map _)⟩
  intro kv hkv
  have hmem : kv ∈ m := List.mem_of_mem_filter hkv
  have hne : kv.1 ≠ k := by simpa [mapDelete] using (List.mem_filter.1 hkv).2
  refine List.mem_filter.2 ⟨h.2.2.2.1 kv hmem, ?_⟩
  have hp : kv.2 ≠ p := by
    intro hp
    apply hne
    have hkv1 : (kv.1, p) ∈ m := by rw [← hp]; exact hmem
    exact key_eq_of_nodup_values m h.2.2.1 kv.1 k p hkv1 (mapGet_mem m k p hk)
  simpa using hp

/-- Two distinct ids of a well-formed shard map point at distinct elements. -/
theorem ptr_ne_of_key_ne {n : Nat} {m : OplogMap} {l : LinkList} (h : ShardWF n m l)
    (k k1 : String) (p q : Nat) (hk : mapGet m k = some p) (hk1 : mapGet m k1 = some q)
    (hne : k1 ≠ k) : q ≠ p := by
  intro hqp
  apply hne
  rw [hqp] at hk1
  exact key_eq_of_nodup_values m h.2.2.1 k1 k p (mapGet_mem m k1 p hk1) (mapGet_mem m k p hk)

/-- An address held by a well-formed shard map is below the next address to allocate. -/
theorem ptr_lt_of_mapGet {n : Nat} {m : OplogMap} {l : LinkList} (h : ShardWF n m l)
    (k : String) (q : Nat) (hk : mapGet m k = some q) : q < n :=
  h.2.1 q (h.2.2.2.1 (k, q) (mapGet_mem m k q hk))

theorem mem_ptr_of_mapGet {n : Nat} {m : OplogMap} {l : LinkList} (h : ShardWF n m l)
    (k : String) (q : Nat) (hk : mapGet m k = some q) : q ∈ l.map Element.ptr :=
  h.2.2.2.1 (k, q) (mapGet_mem m k q hk)

/-- An index that differs from a well-formed one in a single shard, itself well formed for
the new allocation counter, is well formed. -/
theorem WF_of_shard (fs fs1 : KiteFileStore) (h : Fin CONCURRENT_LEVEL) (hwf : fs.WF)
    (hn : fs.nextPtr ≤ fs1.nextPtr)
    (ho : ∀ i, i ≠ h → fs1.oplogs i = fs.oplogs i)
    (hl : ∀ i, i ≠ h → fs1.loglink i = fs.loglink i)
    (hs : ShardWF fs1.nextPtr (fs1.oplogs h) (fs1.loglink h)) : fs1.WF := by
  intro i
  by_cases hi : i = h
  · rw [hi]; exact hs
  · rw [ho i hi, hl i hi]
    exact ShardWF_mono (hwf i) hn

theorem WF_NewKiteFileStore (maxcap : Int) : (NewKiteFileStore maxcap).WF := by
  intro i
  simp [NewKiteFileStore, ShardWF]

theorem queryOpBody_eq (fs : KiteFileStore) (m : String) (g : Fin CONCURRENT_LEVEL)
    (hg : hashId m = some g) :
    fs.queryOpBody m = (mapGet (fs.oplogs g) m).bind (elemValue (fs.loglink g)) := by
  unfold KiteFileStore.queryOpBody
  rw [hg]
  cases hm : mapGet (fs.oplogs g) m <;> simp [hm]

/-! ## One replayed record -/

/-- Frame rule for a change confined to shard `h`: an id whose map entry and whose element
value are untouched reads the same. -/
theorem query_frame (fs fs1 : KiteFileStore) (h : Fin CONCURRENT_LEVEL) (m : String)
    (g : Fin CONCURRENT_LEVEL) (hg : hashId m = some g)
    (ho : ∀ i, i ≠ h → fs1.oplogs i = fs.oplogs i)
    (hl : ∀ i, i ≠ h → fs1.loglink i = fs.loglink i)
    (hmap : mapGet (fs1.oplogs h) m = mapGet (fs.oplogs h) m)
    (hval : ∀ q, mapGet (fs.oplogs h) m = some q →
      elemValue (fs1.loglink h) q = elemValue (fs.loglink h) q) :
    mapGet (fs1.oplogs g) m = mapGet (fs.oplogs g) m ∧
      fs1.queryOpBody m = fs.queryOpBody m := by
  rw [queryOpBody_eq fs1 m g hg, queryOpBody_eq fs m g hg]
  by_cases hgh : g = h
  · subst hgh
    refine ⟨hmap, ?_⟩
    rw [hmap]
    cases hq : mapGet (fs.oplogs g) m with
    | none => rfl
    | some q => exact hval q hq
  · rw [ho g hgh, hl g hgh]
    exact ⟨rfl, rfl⟩

/-- A replayed `C` or `U` record with a parseable body stores that body under its message
id, and leaves every other id as it was. -/
theorem replay_set (fs : KiteFileStore) (r : oplog) (ob : opBody) (h : Fin CONCURRENT_LEVEL)
    (hwf : fs.WF) (hb : r.Body = some ob) (hh : hashId ob.MessageId = some h)
    (hop : r.Op = .OP_U ∨ r.Op = .OP_C) :
    ∃ fs1, fs.replay r = some fs1 ∧ fs1.WF ∧
      (∃ p, mapGet (fs1.oplogs h) ob.MessageId = some p) ∧
      fs1.queryOpBody ob.MessageId = some ob ∧
      (∀ m g, m ≠ ob.MessageId → hashId m = some g →
        mapGet (fs1.oplogs g) m = mapGet (fs.oplogs g) m ∧
          fs1.queryOpBody m = fs.queryOpBody m) := by
  unfold KiteFileStore.replay
  simp only [jsonUnmarshal, hb, hh, hop, if_true]
  cases hg : mapGet (fs.oplogs h) ob.MessageId with
  | some p =>
    have hp : p ∈ (fs.loglink h).map Element.ptr := mem_ptr_of_mapGet (hwf h) _ p hg
    refine ⟨_, rfl, ?_, ⟨p, hg⟩, ?_, ?_⟩
    · refine WF_of_shard fs _ h hwf (le_refl _) (fun i _ => rfl)
        (fun i hi => Function.update_noteq hi _ _) ?_
      simp only [Function.update_same]
      exact ShardWF_MoveToFront (ShardWF_setValue (hwf h) p ob) p
    · rw [queryOpBody_eq _ _ h hh]
      simp only [Function.update_same, hg, Option.some_bind]
      rw [elemValue_MoveToFront, elemValue_setValue_same _ _ _ hp]
    · intro m g hm hgm
      refine query_frame fs _ h m g hgm (fun i _ => rfl)
        (fun i hi => Function.update_noteq hi _ _) rfl ?_
      intro q hq
      have hqp : q ≠ p := ptr_ne_of_key_ne (hwf h) _ _ p q hg hq hm
      simp only [Function.update_same]
      rw [elemValue_MoveToFront, elemValue_setValue_ne _ _ _ _ hqp]
  | none =>
    refine ⟨_, rfl, ?_, ⟨fs.nextPtr, ?_⟩, ?_, ?_⟩
    · refine WF_of_shard fs _ h hwf (Nat.le_succ _)
        (fun i hi => Function.update_noteq hi _ _)
        (fun i hi => Function.update_noteq hi _ _) ?_
      simp only [Function.update_same]
      exact ShardWF_MoveToFront (ShardWF_push (hwf h) _ ob) _
    · simp only [Function.update_same]
      exact mapGet_mapSet_same _ _ _
    · rw [queryOpBody_eq _ _ h hh]
      simp only [Function.update_same, mapGet_mapSet_same, Option.some_bind]
      rw [elemValue_MoveToFront]
      simp [PushFront, elemValue_cons]
    · intro m g hm hgm
      refine query_frame fs _ h m g hgm (fun i hi => Function.update_noteq hi _ _)
        (fun i hi => Function.update_noteq hi _ _) ?_ ?_
      · simp only [Function.update_same]
        exact mapGet_mapSet_ne _ _ _ _ hm
      · intro q hq
        have hqp : q < fs.nextPtr := ptr_lt_of_mapGet (hwf h) _ q hq
        have hne : ¬ fs.nextPtr = q := by omega
        simp only [Function.update_same]
        rw [elemValue_MoveToFront]
        simp [PushFront, elemValue_cons, hne]

/-- A replayed `D` or `E` record with a parseable body removes its message id, and leaves
every other id as it was. -/
theorem replay_del (fs : KiteFileStore) (r : oplog) (ob : opBody) (h : Fin CONCURRENT_LEVEL)
    (hwf : fs.WF) (hb : r.Body = some ob) (hh : hashId ob.MessageId = some h)
    (hop : r.Op = .OP_D ∨ r.Op = .OP_E) :
    ∃ fs1, fs.replay r = some fs1 ∧ fs1.WF ∧
      mapGet (fs1.oplogs h) ob.MessageId = none ∧
      fs1.queryOpBody ob.MessageId = none ∧
      (∀ m g, m ≠ ob.MessageId → hashId m = some g →
        mapGet (fs1.oplogs g) m = mapGet (fs.oplogs g) m ∧
          fs1.queryOpBody m = fs.queryOpBody m) := by
  have hnot : ¬ (r.Op = .OP_U ∨ r.Op = .OP_C) := by
    rcases hop with hop | hop <;> rw [hop] <;> decide
  unfold KiteFileStore.replay
  simp only [jsonUnmarshal, hb, hh, hop, hnot, if_true, if_false]
  cases hg : mapGet (fs.oplogs h) ob.MessageId with
  | some p =>
    refine ⟨_, rfl, ?_, ?_, ?_, ?_⟩
    · refine WF_of_shard fs _ h hwf (le_refl _)
        (fun i hi => Function.update_noteq hi _ _)
        (fun i hi => Function.update_noteq hi _ _) ?_
      simp only [Function.update_same]
      exact ShardWF_remove (hwf h) _ p hg
    · simp only [Function.update_same]
      exact mapGet_mapDelete_same _ _
    · rw [queryOpBody_eq _ _ h hh]
      simp only [Function.update_same, mapGet_mapDelete_same, Option.none_bind]
    · intro m g hm hgm
      refine query_frame fs _ h m g hgm (fun i hi => Function.update_noteq hi _ _)
        (fun i hi => Function.update_noteq hi _ _) ?_ ?_
      · simp only [Function.update_same]
        exact mapGet_mapDelete_ne _ _ _ hm
      · intro q hq
        have hqp : q ≠ p := ptr_ne_of_key_ne (hwf h) _ _ p q hg hq hm
        simp only [Function.update_same]
        exact elemValue_Remove_ne _ _ _ hqp
  | none =>
    refine ⟨_, rfl, hwf, hg, ?_, fun m g _ _ => ⟨rfl, rfl⟩⟩
    rw [queryOpBody_eq _ _ h hh, hg]; rfl

/-! ## Replaying a log -/

theorem hashId_of_ne_empty (m : String) (hm : m ≠ "") : ∃ h, hashId m = some h := by
  unfold hashId
  cases hc : m.data.getLast? with
  | none =>
    exfalso; apply hm
    have : m.data = [] := List.getLast?_eq_none_iff.1 hc
    exact String.ext this
  | some c =>
    dsimp only
    cases hp : parseHexDigit c with
    | none => exact ⟨_, rfl⟩
    | some v => exact ⟨_, rfl⟩

theorem replayAll_append (fs : KiteFileStore) (rs : List oplog) (r : oplog) :
    fs.replayAll (rs ++ [r]) = (fs.replayAll rs).bind (fun fs1 => fs1.replay r) := by
  induction rs generalizing fs with
  | nil =>
    show (match fs.replay r with
      | none => none
      | some fs1 => KiteFileStore.replayAll fs1 []) = (some fs).bind (fun fs1 => fs1.replay r)
    rw [Option.some_bind]
    cases fs.replay r <;> rfl
  | cons r0 rest ih =>
    show (match fs.replay r0 with
      | none => none
      | some fs1 => KiteFileStore.replayAll fs1 (rest ++ [r])) =
        (match fs.replay r0 with
          | none => none
          | some fs1 => KiteFileStore.replayAll fs1 rest).bind (fun fs1 => fs1.replay r)
    cases fs.replay r0 with
    | none => rfl
    | some fs1 => exact ih fs1

theorem opCode_cases (op : OpCode) :
    (op = .OP_U ∨ op = .OP_C) ∨ (op = .OP_D ∨ op = .OP_E) := by
  cases op <;> simp

theorem lastRecordFor_append (m : String) (rs : List oplog) (r : oplog) :
    lastRecordFor m (rs ++ [r]) =
      if (jsonUnmarshal r.Body).map opBody.MessageId = some m then some r
      else lastRecordFor m rs := by
  unfold lastRecordFor
  rw [List.filter_append]
  by_cases hr : (jsonUnmarshal r.Body).map opBody.MessageId = some m
  · have h1 : List.filter
        (fun r => decide ((jsonUnmarshal r.Body).map opBody.MessageId = some m)) [r] = [r] := by
      rw [List.filter_cons, if_pos (by simpa using hr)]; rfl
    rw [if_pos hr, h1, List.getLast?_concat]
  · have h1 : List.filter
        (fun r => decide ((jsonUnmarshal r.Body).map opBody.MessageId = some m)) [r] = [] := by
      rw [List.filter_cons, if_neg (by simpa using hr)]; rfl
    rw [if_neg hr, h1, List.append_nil]

/-- What the index holds for every message id after a log of well-formed records has been
replayed into an index with empty maps. -/
theorem replayAll_spec (fs0 : KiteFileStore) (hwf0 : fs0.WF) (hempty : ∀ i, fs0.oplogs i = [])
    (rs : List oplog) (hrs : ∀ r ∈ rs, r.WellFormed) :
    ∃ fs, fs0.replayAll rs = some fs ∧ fs.WF ∧
      ∀ m g, hashId m = some g →
        match lastRecordFor m rs with
        | none => mapGet (fs.oplogs g) m = none
        | some r =>
          if r.Op = .OP_C ∨ r.Op = .OP_U then
            (∃ p, mapGet (fs.oplogs g) m = some p) ∧ fs.queryOpBody m = r.Body
          else mapGet (fs.oplogs g) m = none := by
  induction rs using List.reverseRecOn with
  | nil =>
    refine ⟨fs0, rfl, hwf0, ?_⟩
    intro m g _
    simp [lastRecordFor, hempty, mapGet]
  | append_singleton rs r ih =>
    obtain ⟨fs, hfs, hwf, hspec⟩ :=
      ih (fun r1 h1 => hrs r1 (List.mem_append_left _ h1))
    have hr : r.WellFormed := hrs r (List.mem_append_right _ (List.mem_singleton_self r))
    unfold oplog.WellFormed at hr
    cases hb : jsonUnmarshal r.Body with
    | none => rw [hb] at hr; exact hr.elim
    | some ob =>
      rw [hb] at hr
      have hb1 : r.Body = some ob := hb
      obtain ⟨h, hh⟩ := hashId_of_ne_empty ob.MessageId hr
      rw [replayAll_append, hfs, Option.some_bind]
      rcases opCode_cases r.Op with hop | hop
      · obtain ⟨fs1, h1, hwf1, hpres, hval, hframe⟩ := replay_set fs r ob h hwf hb1 hh hop
        refine ⟨fs1, h1, hwf1, ?_⟩
        intro m g hg
        rw [lastRecordFor_append, hb]
        by_cases hm : ob.MessageId = m
        · subst hm
          have hgh : g = h := Option.some.inj (hg.symm.trans hh)
          subst hgh
          have hop1 : r.Op = .OP_C ∨ r.Op = .OP_U := hop.symm
          simp only [Option.map_some', if_true, hop1]
          exact ⟨hpres, hval.trans hb1.symm⟩
        · have hm1 : ¬ (Option.map opBody.MessageId (some ob) = some m) := by simpa using hm
          rw [if_neg hm1]
          have hf := hframe m g (fun h => hm h.symm) hg
          rw [hf.1, hf.2]
          exact hspec m g hg
      · obtain ⟨fs1, h1, hwf1, habs, _, hframe⟩ := replay_del fs r ob h hwf hb1 hh hop
        refine ⟨fs1, h1, hwf1, ?_⟩
        intro m g hg
        rw [lastRecordFor_append, hb]
        by_cases hm : ob.MessageId = m
        · subst hm
          have hgh : g = h := Option.some.inj (hg.symm.trans hh)
          subst hgh
          have hop1 : ¬ (r.Op = .OP_C ∨ r.Op = .OP_U) := by
            rcases hop with hop | hop <;> rw [hop] <;> decide
          simp only [Option.map_some', if_true, hop1, if_false]
          exact habs
        · have hm1 : ¬ (Option.map opBody.MessageId (some ob) = some m) := by simpa using hm
          rw [if_neg hm1]
          have hf := hframe m g (fun h => hm h.symm) hg
          rw [hf.1, hf.2]
          exact hspec m g hg

/-- C5: after a log of records with well-formed bodies has been replayed into an empty
index, a message id is in its shard map exactly when the last record for it has op `C` or
`U`, and then the stored OpBody is the body of that last record. -/
theorem C5_replay_last_record_wins (maxcap : Int) (rs : List oplog)
    (hrs : ∀ r ∈ rs, r.WellFormed) (m : String) (g : Fin CONCURRENT_LEVEL)
    (hg : hashId m = some g) :
    ∃ fs, (NewKiteFileStore maxcap).replayAll rs = some fs ∧
      ((∃ p, mapGet (fs.oplogs g) m = some p) ↔
        ∃ r, lastRecordFor m rs = some r ∧ (r.Op = .OP_C ∨ r.Op = .OP_U)) ∧
      (∀ r, lastRecordFor m rs = some r → (r.Op = .OP_C ∨ r.Op = .OP_U) →
        fs.queryOpBody m = r.Body) := by
  obtain ⟨fs, hfs, _, hspec⟩ :=
    replayAll_spec (NewKiteFileStore maxcap) (WF_NewKiteFileStore maxcap) (fun _ => rfl) rs hrs
  refine ⟨fs, hfs, ?_, ?_⟩
  · have h1 := hspec m g hg
    cases hl : lastRecordFor m rs with
    | none =>
      rw [hl] at h1
      simp only at h1
      simp [h1]
    | some r =>
      rw [hl] at h1
      simp only at h1
      by_cases hop : r.Op = .OP_C ∨ r.Op = .OP_U
      · rw [if_pos hop] at h1
        exact ⟨fun _ => ⟨r, rfl, hop⟩, fun _ => h1.1⟩
      · rw [if_neg hop] at h1
        constructor
        · rintro ⟨p, hp⟩; rw [h1] at hp; cases hp
        · rintro ⟨r1, hr1, hop1⟩
          cases hr1; exact absurd hop1 hop
  · intro r hl hop
    have h1 := hspec m g hg
    rw [hl] at h1
    simp only at h1
    rw [if_pos hop] at h1
    exact h1.2

/-- C5 on the sample log, for message id "a1" (shard 1). -/
theorem C5_replay_last_record_wins_witness :
    (∀ r ∈ sampleLog, r.WellFormed) ∧ hashId "a1" = some 1 ∧
    ∃ fs, (NewKiteFileStore 1600).replayAll sampleLog = some fs ∧
      ((∃ p, mapGet (fs.oplogs 1) "a1" = some p) ↔
        ∃ r, lastRecordFor "a1" sampleLog = some r ∧ (r.Op = .OP_C ∨ r.Op = .OP_U)) ∧
      (∀ r, lastRecordFor "a1" sampleLog = some r → (r.Op = .OP_C ∨ r.Op = .OP_U) →
        fs.queryOpBody "a1" = r.Body) :=
  ⟨by decide, by decide,
    C5_replay_last_record_wins 1600 sampleLog (by decide) "a1" 1 (by decide)⟩

/-! ## Single calls on the index -/

/-- A call of `Save` on a shard with room returns `true`; the new element, allocated at `nextPtr`, is
pushed on the front of the shard list and the shard map points at it.  This holds whatever
`MessageStore.Append` returned. -/
theorem Save_of_room (fs : KiteFileStore) (entity : MessageEntity) (slogOk : Bool)
    (h : Fin CONCURRENT_LEVEL) (hh : hashId entity.MessageId = some h)
    (hroom : ((fs.oplogs h).length : Int) < fs.maxcap) :
    ∃ fs1, fs.Save entity slogOk = some (true, fs1) ∧
      fs1.loglink h = PushFront (fs.loglink h) fs.nextPtr
        (savedBody entity (fs.snapshot.Append (saveCommand entity) slogOk).1) ∧
      fs1.oplogs h = mapSet (fs.oplogs h) entity.MessageId fs.nextPtr ∧
      (∀ i, i ≠ h → fs1.loglink i = fs.loglink i ∧ fs1.oplogs i = fs.oplogs i) ∧
      fs1.nextPtr = fs.nextPtr + 1 ∧
      fs1.maxcap = fs.maxcap ∧
      fs1.snapshot = (fs.snapshot.Append (saveCommand entity) slogOk).2 := by
  have hroom1 : ¬ ((fs.oplogs h).length : Int) ≥ fs.maxcap := not_le.2 hroom
  unfold KiteFileStore.Save
  simp only [hh, hroom1, if_false, jsonMarshalEntity]
  refine ⟨_, rfl, ?_, ?_, ?_, rfl, rfl, rfl⟩
  · simp only [Function.update_same]; rfl
  · simp only [Function.update_same]
  · intro i hi
    exact ⟨Function.update_noteq hi _ _, Function.update_noteq hi _ _⟩

/-! ## Behaviour at concrete inputs -/

/-- C4, as the code behaves: replaying the oplog does not rebuild the live index.
(a) After `Save "m0"; Save "m1"` the live entry of "m1" has chunk id 1, the replayed one
chunk id 0: `Save` serialises the `opBody` before `Append` has assigned its id.
(b) After `Save "m0"; Expired "m0"` the live index does not hold "m0", the replayed one
does: `Expired` writes its `E` record with a nil body, which `replay` cannot parse. -/
theorem C4_replay_differs_from_live :
    ((startedStore.run
        [.Save (sampleEntity "m0" 100) true, .Save (sampleEntity "m1" 100) true]).map
      (fun fs => fs.queryOpBody "m1") = some (some (sampleBody 1 "m1" false 100)) ∧
     ((startedStore.run
        [.Save (sampleEntity "m0" 100) true, .Save (sampleEntity "m1" 100) true]).bind
      (fun fs => (NewKiteFileStore 1600).replayAll fs.snapshot.slog)).map
      (fun fs => fs.queryOpBody "m1") = some (some (sampleBody 0 "m1" false 100))) ∧
    ((startedStore.run [.Save (sampleEntity "m0" 100) true, .Expired "m0"]).map
      (fun fs => fs.queryOpBody "m0") = some none ∧
     (startedStore.run [.Save (sampleEntity "m0" 100) true, .Expired "m0"]).map
      (fun fs => fs.snapshot.slog) =
        some [newOplog .OP_C "m0" 0 (some (sampleBody 0 "m0" false 100)),
              newOplog .OP_E "m0" 0 none] ∧
     ((startedStore.run [.Save (sampleEntity "m0" 100) true, .Expired "m0"]).bind
      (fun fs => (NewKiteFileStore 1600).replayAll fs.snapshot.slog)).map
      (fun fs => fs.queryOpBody "m0") = some (some (sampleBody 0 "m0" false 100))) := by
  decide

/-- C6, as the code behaves: when `MessageStore.Append` returns -1, because the oplog write
failed on a running store or because the store is not running, `Save` still returns `true`
and the message is in the index with chunk id -1; `PageQueryEntity` returns it, and no
record is in the oplog. -/
theorem C6_save_true_after_failed_append :
    ((startedStore.snapshot.Append (saveCommand (sampleEntity "m0" 100)) false).1 = -1 ∧
     (startedStore.Save (sampleEntity "m0" 100) false).map
        (fun r => (r.1, r.2.queryOpBody "m0")) =
      some (true, some (sampleBody (-1) "m0" false 100)) ∧
     (startedStore.Save (sampleEntity "m0" 100) false).bind
        (fun r => r.2.PageQueryEntity "0" "server" 100 0 10) =
      some (false, [entityOf (sampleBody (-1) "m0" false 100)]) ∧
     (startedStore.Save (sampleEntity "m0" 100) false).map (fun r => r.2.snapshot.slog) =
      some []) ∧
    (((NewKiteFileStore 1600).snapshot.Append (saveCommand (sampleEntity "m0" 100)) true).1 = -1 ∧
     ((NewKiteFileStore 1600).Save (sampleEntity "m0" 100) true).map
        (fun r => (r.1, r.2.queryOpBody "m0")) =
      some (true, some (sampleBody (-1) "m0" false 100)) ∧
     ((NewKiteFileStore 1600).Save (sampleEntity "m0" 100) true).bind
        (fun r => r.2.PageQueryEntity "0" "server" 100 0 10) =
      some (false, [entityOf (sampleBody (-1) "m0" false 100)]) ∧
     ((NewKiteFileStore 1600).Save (sampleEntity "m0" 100) true).map
        (fun r => r.2.snapshot.slog) =
      some []) := by
  decide

/-! ## Every reachable index is well formed -/

theorem WF_Save (fs : KiteFileStore) (hwf : fs.WF) (entity : MessageEntity) (slogOk : Bool)
    (r : Bool × KiteFileStore) (hs : fs.Save entity slogOk = some r) : r.2.WF := by
  cases hh : hashId entity.MessageId with
  | none => simp [KiteFileStore.Save, hh] at hs
  | some h =>
    by_cases hroom : ((fs.oplogs h).length : Int) < fs.maxcap
    · obtain ⟨fs1, hs1, hl, ho, hrest, hn, _, _⟩ := Save_of_room fs entity slogOk h hh hroom
      rw [hs1] at hs
      cases hs
      refine WF_of_shard fs fs1 h hwf (by rw [hn]; exact Nat.le_succ _)
        (fun i hi => (hrest i hi).2) (fun i hi => (hrest i hi).1) ?_
      rw [hl, ho, hn]
      exact ShardWF_push (hwf h) _ _
    · have hfull : ((fs.oplogs h).length : Int) ≥ fs.maxcap := not_lt.1 hroom
      unfold KiteFileStore.Save at hs
      simp only [hh, hfull, if_true, Option.some.injEq] at hs
      rw [← hs]; exact hwf

theorem WF_Commit (fs : KiteFileStore) (hwf : fs.WF) (m : String)
    (r : Bool × KiteFileStore) (hs : fs.Commit m = some r) : r.2.WF := by
  unfold KiteFileStore.Commit at hs
  cases hh : hashId m with
  | none => simp [hh] at hs
  | some h =>
    cases hp : mapGet (fs.oplogs h) m with
    | none =>
      simp only [hh, hp, Option.some.injEq] at hs
      rw [← hs]; exact hwf
    | some p =>
      cases hv : elemValue (fs.loglink h) p with
      | none => simp [hh, hp, hv] at hs
      | some v =>
        simp only [hh, hp, hv, Option.some.injEq] at hs
        rw [← hs]
        refine WF_of_shard fs _ h hwf (le_refl _) (fun i _ => rfl)
          (fun i hi => Function.update_noteq hi _ _) ?_
        simp only [Function.update_same]
        exact ShardWF_setValue (hwf h) _ _

theorem WF_UpdateEntity (fs : KiteFileStore) (hwf : fs.WF) (entity : MessageEntity)
    (r : Bool × KiteFileStore) (hs : fs.UpdateEntity entity = some r) : r.2.WF := by
  unfold KiteFileStore.UpdateEntity at hs
  cases hh : hashId entity.MessageId with
  | none => simp [hh] at hs
  | some h =>
    cases hp : mapGet (fs.oplogs h) entity.MessageId with
    | none =>
      simp only [hh, hp, Option.some.injEq] at hs
      rw [← hs]; exact hwf
    | some p =>
      cases hv : elemValue (fs.loglink h) p with
      | none => simp [hh, hp, hv] at hs
      | some v =>
        simp only [hh, hp, hv, Option.some.injEq] at hs
        rw [← hs]
        refine WF_of_shard fs _ h hwf (le_refl _) (fun i _ => rfl)
          (fun i hi => Function.update_noteq hi _ _) ?_
        simp only [Function.update_same]
        exact ShardWF_setValue (hwf h) _ _

theorem WF_Delete (fs : KiteFileStore) (hwf : fs.WF) (m : String)
    (r : Bool × KiteFileStore) (hs : fs.Delete m = some r) : r.2.WF := by
  unfold KiteFileStore.Delete KiteFileStore.innerDelete at hs
  cases hh : hashId m with
  | none => simp [hh] at hs
  | some h =>
    cases hp : mapGet (fs.oplogs h) m with
    | none =>
      simp only [hh, hp, Option.some.injEq] at hs
      rw [← hs]; exact hwf
    | some p =>
      cases hv : elemValue (fs.loglink h) p with
      | none => simp [hh, hp, hv] at hs
      | some v =>
        simp only [hh, hp, hv, Option.some.injEq] at hs
        rw [← hs]
        refine WF_of_shard fs _ h hwf (le_refl _)
          (fun i hi => Function.update_noteq hi _ _)
          (fun i hi => Function.update_noteq hi _ _) ?_
        simp only [Function.update_same]
        exact ShardWF_remove (hwf h) _ _ hp

theorem WF_Expired (fs : KiteFileStore) (hwf : fs.WF) (m : String)
    (r : Bool × KiteFileStore) (hs : fs.Expired m = some r) : r.2.WF := by
  unfold KiteFileStore.Expired at hs
  cases hh : hashId m with
  | none => simp [hh] at hs
  | some h =>
    cases hp : mapGet (fs.oplogs h) m with
    | none =>
      simp only [hh, hp, Option.some.injEq] at hs
      rw [← hs]; exact hwf
    | some p =>
      cases hv : elemValue (fs.loglink h) p with
      | none => simp [hh, hp, hv] at hs
      | some v =>
        simp only [hh, hp, hv, Option.some.injEq] at hs
        rw [← hs]
        refine WF_of_shard fs _ h hwf (le_refl _)
          (fun i hi => Function.update_noteq hi _ _)
          (fun i hi => Function.update_noteq hi _ _) ?_
        simp only [Function.update_same]
        exact ShardWF_remove (hwf h) _ _ hp

theorem WF_step (fs : KiteFileStore) (hwf : fs.WF) (op : IndexOp) (fs1 : KiteFileStore)
    (hs : fs.step op = some fs1) : fs1.WF := by
  cases op with
  | Save entity slogOk =>
    obtain ⟨r, hr, rfl⟩ := Option.map_eq_some'.1 hs
    exact WF_Save fs hwf entity slogOk r hr
  | Commit m =>
    obtain ⟨r, hr, rfl⟩ := Option.map_eq_some'.1 hs
    exact WF_Commit fs hwf m r hr
  | UpdateEntity entity =>
    obtain ⟨r, hr, rfl⟩ := Option.map_eq_some'.1 hs
    exact WF_UpdateEntity fs hwf entity r hr
  | Delete m =>
    obtain ⟨r, hr, rfl⟩ := Option.map_eq_some'.1 hs
    exact WF_Delete fs hwf m r hr
  | Expired m =>
    obtain ⟨r, hr, rfl⟩ := Option.map_eq_some'.1 hs
    exact WF_Expired fs hwf m r hr

/-- Every index reached from a well-formed one by `Save`, `Commit`, `UpdateEntity`, `Delete`
and `Expired` calls is well formed. -/
theorem WF_run (ops : List IndexOp) (fs fs1 : KiteFileStore) (hwf : fs.WF)
    (hr : fs.run ops = some fs1) : fs1.WF := by
  induction ops generalizing fs with
  | nil =>
    have : fs = fs1 := Option.some.inj hr
    rw [← this]; exact hwf
  | cons op rest ih =>
    unfold KiteFileStore.run at hr
    cases hs : fs.step op with
    | none => simp [hs] at hr
    | some fs2 =>
      simp only [hs] at hr
      exact ih fs2 (WF_step fs hwf op fs2 hs) hr

/-- Every index reached from a new store, started or not, is well formed. -/
theorem WF_reachable (maxcap : Int) (ops : List IndexOp) (fs1 : KiteFileStore) :
    ((NewKiteFileStore maxcap).run ops = some fs1 → fs1.WF) ∧
    ((NewKiteFileStore maxcap).Start.run ops = some fs1 → fs1.WF) :=
  ⟨WF_run ops _ fs1 (WF_NewKiteFileStore maxcap),
   WF_run ops _ fs1 (fun i => WF_NewKiteFileStore maxcap i)⟩

/-! ## Shard selection and Monitor -/

theorem hashId_sprintfHex : ∀ i : Fin CONCURRENT_LEVEL, hashId (sprintfHex i.val) = some i := by
  decide

/-- C12: for a message id whose last character is a hexadecimal digit, `hash` selects the
shard numbered by the value of that digit, which is at most 15; for a message id whose last
character is not a hexadecimal digit it selects shard 0.  Hence the key `Sprintf("%x", i)`
selects shard `i` for every `i` in 0..15, and `Monitor` reports the sum of the lengths of
the 16 shard lists, each counted once. -/
theorem C12_hash_selects_shard (m : String) (c : Char) (hlast : m.data.getLast? = some c) :
    (('0' ≤ c ∧ c ≤ '9') → ∃ i, hashId m = some i ∧ i.val = c.toNat - '0'.toNat) ∧
    (('a' ≤ c ∧ c ≤ 'f') → ∃ i, hashId m = some i ∧ i.val = c.toNat - 'a'.toNat + 10) ∧
    (('A' ≤ c ∧ c ≤ 'F') → ∃ i, hashId m = some i ∧ i.val = c.toNat - 'A'.toNat + 10) ∧
    (¬ ('0' ≤ c ∧ c ≤ '9') → ¬ ('a' ≤ c ∧ c ≤ 'f') → ¬ ('A' ≤ c ∧ c ≤ 'F') →
      hashId m = some 0) ∧
    (∀ i, hashId m = some i → i.val ≤ 15) ∧
    (∀ i : Fin CONCURRENT_LEVEL, hashId (sprintfHex i.val) = some i) ∧
    (∀ fs : KiteFileStore, fs.Monitor =
      some ("message-length:" ++
        toString (((List.finRange CONCURRENT_LEVEL).map
          (fun i => (fs.loglink i).length)).sum) ++ "\n")) := by
  have hle : ∀ a b : Char, a ≤ b ↔ a.toNat ≤ b.toNat := fun a b => Iff.rfl
  refine ⟨?_, ?_, ?_, ?_, ?_, hashId_sprintfHex, ?_⟩
  · intro hc
    have h1 : '0'.toNat ≤ c.toNat := (hle _ _).1 hc.1
    have h2 : c.toNat ≤ '9'.toNat := (hle _ _).1 hc.2
    have h3 : '0'.toNat = 48 := by decide
    have h4 : '9'.toNat = 57 := by decide
    refine ⟨⟨(c.toNat - '0'.toNat) % CONCURRENT_LEVEL, Nat.mod_lt _ (by decide)⟩,
      by simp only [hashId, hlast, parseHexDigit, hc, and_self, if_true], ?_⟩
    show (c.toNat - '0'.toNat) % 16 = c.toNat - '0'.toNat
    omega
  · intro hc
    have h1 : 'a'.toNat ≤ c.toNat := (hle _ _).1 hc.1
    have h2 : c.toNat ≤ 'f'.toNat := (hle _ _).1 hc.2
    have h3 : 'a'.toNat = 97 := by decide
    have h4 : 'f'.toNat = 102 := by decide
    have h5 : '9'.toNat = 57 := by decide
    have hn : ¬ ('0' ≤ c ∧ c ≤ '9') := by
      intro hd; have := (hle _ _).1 hd.2; omega
    refine ⟨⟨(c.toNat - 'a'.toNat + 10) % CONCURRENT_LEVEL, Nat.mod_lt _ (by decide)⟩,
      by simp only [hashId, hlast, parseHexDigit, hn, hc, and_self, if_true, if_false], ?_⟩
    show (c.toNat - 'a'.toNat + 10) % 16 = c.toNat - 'a'.toNat + 10
    omega
  · intro hc
    have h1 : 'A'.toNat ≤ c.toNat := (hle _ _).1 hc.1
    have h2 : c.toNat ≤ 'F'.toNat := (hle _ _).1 hc.2
    have h3 : 'A'.toNat = 65 := by decide
    have h4 : 'F'.toNat = 70 := by decide
    have h5 : '0'.toNat = 48 := by decide
    have h6 : 'a'.toNat = 97 := by decide
    have hn : ¬ ('0' ≤ c ∧ c ≤ '9') := by
      intro hd; have := (hle _ _).1 hd.1; have := (hle _ _).1 hd.2
      have : '9'.toNat = 57 := by decide
      omega
    have hn2 : ¬ ('a' ≤ c ∧ c ≤ 'f') := by
      intro hd; have := (hle _ _).1 hd.1; omega
    refine ⟨⟨(c.toNat - 'A'.toNat + 10) % CONCURRENT_LEVEL, Nat.mod_lt _ (by decide)⟩,
      by simp only [hashId, hlast, parseHexDigit, hn, hn2, hc, and_self, if_true, if_false],
      ?_⟩
    show (c.toNat - 'A'.toNat + 10) % 16 = c.toNat - 'A'.toNat + 10
    omega
  · intro hn hn2 hn3
    simp only [hashId, hlast, parseHexDigit, hn, hn2, hn3, if_false]
    rfl
  · intro i _
    exact Nat.le_of_lt_succ i.isLt
  · intro fs
    unfold KiteFileStore.Monitor
    have hloop : fs.monitorLoop (List.range CONCURRENT_LEVEL) 0 =
        some (((List.finRange CONCURRENT_LEVEL).map (fun i => (fs.loglink i).length)).sum) := by
      have hr : List.range CONCURRENT_LEVEL =
          [0, 1, 2, 3, 4, 5, 6, 7, 8, 9, 10, 11, 12, 13, 14, 15] := by decide
      have hf : List.finRange CONCURRENT_LEVEL =
          [0, 1, 2, 3, 4, 5, 6, 7, 8, 9, 10, 11, 12, 13, 14, 15] := by decide
      have hs : ∀ (i : Nat) (hi : i < CONCURRENT_LEVEL),
          hashId (sprintfHex i) = some ⟨i, hi⟩ := fun i hi => hashId_sprintfHex ⟨i, hi⟩
      rw [hr, hf]
      simp only [KiteFileStore.monitorLoop, hs 0 (by decide), hs 1 (by decide),
        hs 2 (by decide), hs 3 (by decide), hs 4 (by decide), hs 5 (by decide),
        hs 6 (by decide), hs 7 (by decide), hs 8 (by decide), hs 9 (by decide),
        hs 10 (by decide), hs 11 (by decide), hs 12 (by decide), hs 13 (by decide),
        hs 14 (by decide), hs 15 (by decide), List.map_cons, List.map_nil, List.sum_cons,
        List.sum_nil]
      congr 1
      simp only [Nat.zero_add, Nat.add_zero, Nat.add_assoc]
      rfl
    rw [hloop]
    rfl

/-- C12 for the message id "7c3e", whose last character is the hex digit 'e'. -/
theorem C12_hash_selects_shard_witness :
    "7c3e".data.getLast? = some 'e' ∧
    ((('0' ≤ 'e' ∧ 'e' ≤ '9') → ∃ i, hashId "7c3e" = some i ∧ i.val = 'e'.toNat - '0'.toNat) ∧
    (('a' ≤ 'e' ∧ 'e' ≤ 'f') →
      ∃ i, hashId "7c3e" = some i ∧ i.val = 'e'.toNat - 'a'.toNat + 10) ∧
    (('A' ≤ 'e' ∧ 'e' ≤ 'F') →
      ∃ i, hashId "7c3e" = some i ∧ i.val = 'e'.toNat - 'A'.toNat + 10) ∧
    (¬ ('0' ≤ 'e' ∧ 'e' ≤ '9') → ¬ ('a' ≤ 'e' ∧ 'e' ≤ 'f') → ¬ ('A' ≤ 'e' ∧ 'e' ≤ 'F') →
      hashId "7c3e" = some 0) ∧
    (∀ i, hashId "7c3e" = some i → i.val ≤ 15) ∧
    (∀ i : Fin CONCURRENT_LEVEL, hashId (sprintfHex i.val) = some i) ∧
    (∀ fs : KiteFileStore, fs.Monitor =
      some ("message-length:" ++
        toString (((List.finRange CONCURRENT_LEVEL).map
          (fun i => (fs.loglink i).length)).sum) ++ "\n"))) :=
  ⟨by decide, C12_hash_selects_shard "7c3e" 'e' (by decide)⟩

/-! ## Position in the shard list -/

/-- C20, as the code behaves: `Commit` and `UpdateEntity` change the `opBody` in place and
do not move its element.  After `Save "a0"; Save "b0"`, a `Commit` or an `UpdateEntity` of
"a0" leaves "b0" at the front of the list of shard 0 and "a0" behind it, whereas replaying
the oplog of the same calls, whose last record is the `U` record of "a0", puts "a0" at the
front. -/
theorem C20_commit_update_keep_position :
    (startedStore.run
        [.Save (sampleEntity "a0" 100) true, .Save (sampleEntity "b0" 200) true,
         .Commit "a0"]).map
      (fun fs => (fs.loglink 0).map (fun e => e.Value.MessageId)) = some ["b0", "a0"] ∧
    (startedStore.run
        [.Save (sampleEntity "a0" 100) true, .Save (sampleEntity "b0" 200) true,
         .UpdateEntity updatedEntity]).map
      (fun fs => (fs.loglink 0).map (fun e => e.Value.MessageId)) = some ["b0", "a0"] ∧
    ((startedStore.run
        [.Save (sampleEntity "a0" 100) true, .Save (sampleEntity "b0" 200) true,
         .Commit "a0"]).bind
      (fun fs => (NewKiteFileStore 1600).replayAll fs.snapshot.slog)).map
      (fun fs => (fs.loglink 0).map (fun e => e.Value.MessageId)) = some ["a0", "b0"] := by
  decide

/-! ## The segmented store at concrete inputs -/

/-- C14, as the code behaves: for a chunk id that no segment covers, `indexSegment` computes
the index -1 and `loadSegment` indexes `self.segments[-1]`, which is out of range.  With no
segment at all, and with a first segment of `sid` 0 and the id -1, `Query`, `Update` and
`Delete` all end in that panic instead of an error result or a no-op. -/
theorem C14_uncovered_id_out_of_range :
    ((Segmented.runningStore [] (-1)).searchIndex 0 = -1 ∧
     (Segmented.runningStore [] (-1)).Query 0 true = none ∧
     (Segmented.runningStore [] (-1)).Update
        { Segmented.sampleCommand "m" with id := 0 } true = none ∧
     (Segmented.runningStore [] (-1)).Delete
        { Segmented.sampleCommand "m" with id := 0 } true = none) ∧
    ((Segmented.runningStore [Segmented.sampleSegment 0 [0, 1]] 1).searchIndex (-1) = -1 ∧
     (Segmented.runningStore [Segmented.sampleSegment 0 [0, 1]] 1).Query (-1) true = none ∧
     (Segmented.runningStore [Segmented.sampleSegment 0 [0, 1]] 1).Update
        { Segmented.sampleCommand "m" with id := -1 } true = none ∧
     (Segmented.runningStore [Segmented.sampleSegment 0 [0, 1]] 1).Delete
        { Segmented.sampleCommand "m" with id := -1 } true = none) := by
  decide

/-- C16, as the code behaves: the loop of `remove` compares each segment with itself, so it
always takes out the first segment of the list.  Removing the segment with `sid` 20 from
the segments 0, 10, 20 leaves 10 and 20; `Remove(20)` does the same. -/
theorem C16_remove_drops_first_segment :
    (∀ (self : Segmented.MessageStore) (s : Segmented.Segment),
      (self.remove s).segments = self.segments.tail) ∧
    ((Segmented.runningStore
        [Segmented.newSegment 0, Segmented.newSegment 10, Segmented.newSegment 20] 25).remove
      (Segmented.newSegment 20)).segments =
      [Segmented.newSegment 10, Segmented.newSegment 20] ∧
    ({ Segmented.runningStore
        [Segmented.newSegment 0, Segmented.newSegment 10, Segmented.newSegment 20] 25 with
        segmentCache := [Segmented.newSegment 20] }.Remove 20).segments =
      [Segmented.newSegment 10, Segmented.newSegment 20] := by
  refine ⟨?_, by decide, by decide⟩
  intro self s
  cases hs : self.segments with
  | nil => simp [Segmented.MessageStore.remove, Segmented.removeLoop, hs]
  | cons x rest => simp [Segmented.MessageStore.remove, Segmented.removeLoop, hs]

/-- C17, as the code behaves: `recoverSnapshot` reads the counter from the last segment
only.  With segment 0 holding the chunks 0, 1, 2 and an empty last segment 3, the counter
stays at -1 and the next `Append` returns the id 0, which segment 0 already holds. -/
theorem C17_recover_with_empty_last_segment :
    (Segmented.rolledStore.recoverSnapshot (NewKiteFileStore 1600)).map
      (fun r => r.1.chunkId) = some (-1) ∧
    ((Segmented.rolledStore.recoverSnapshot (NewKiteFileStore 1600)).bind
      (fun r => r.1.Append (Segmented.sampleCommand "m") true true)).map
      Prod.fst = some 0 ∧
    (Segmented.rolledStore.segments.map
      (fun s => s.chunks.map Segmented.Chunk.id)) = [[0, 1, 2], []] := by
  decide

/-- C18, as the code behaves: the shutdown loop of `sync` flushes the batch on a change of
segment but keeps `curr`.  With chunk 0 queued for segment 0 and chunk 5 for segment 5, a
flusher that receives the first command while running and the second during shutdown
appends both chunks to segment 0; when it receives both while running, chunk 5 goes to
segment 5. -/
theorem C18_shutdown_flushes_into_old_segment :
    (Segmented.queuedStore.sync [true]).map
      (fun ms => ms.segments.map (fun s => (s.sid, s.chunks.map Segmented.Chunk.id))) =
      some [(0, [0, 5]), (5, [])] ∧
    (Segmented.queuedStore.sync [true, true]).map
      (fun ms => ms.segments.map (fun s => (s.sid, s.chunks.map Segmented.Chunk.id))) =
      some [(0, [0]), (5, [5])] := by
  decide

/-! ## Binary search for the owning segment -/

theorem searchLoop_succ (f : Nat → Bool) (fuel i j : Nat) :
    Segmented.searchLoop f (fuel + 1) i j =
      if i < j then
        (if f ((i + j) / 2) = true then Segmented.searchLoop f fuel i ((i + j) / 2)
          else Segmented.searchLoop f fuel ((i + j) / 2 + 1) j)
      else i := by
  show (if i < j then
      (if (!f ((i + j) / 2)) = true then Segmented.searchLoop f fuel ((i + j) / 2 + 1) j
        else Segmented.searchLoop f fuel i ((i + j) / 2))
    else i) = _
  cases f ((i + j) / 2) <;> simp

/-- The binary search loop, with enough fuel and a test that is monotone below `n`, stops at
the boundary between the indices that fail the test and those that pass it. -/
theorem searchLoop_spec (f : Nat → Bool) (n : Nat)
    (hmono : ∀ a b, a ≤ b → b < n → f a = true → f b = true) :
    ∀ (fuel i j : Nat), i ≤ j → j ≤ n → j - i ≤ fuel →
      (∀ k, k < i → f k = false) → (∀ k, j ≤ k → k < n → f k = true) →
      i ≤ Segmented.searchLoop f fuel i j ∧ Segmented.searchLoop f fuel i j ≤ j ∧
      (∀ k, k < Segmented.searchLoop f fuel i j → f k = false) ∧
      (∀ k, Segmented.searchLoop f fuel i j ≤ k → k < n → f k = true) := by
  intro fuel
  induction fuel with
  | zero =>
    intro i j hij _ hfuel hlo hhi
    have : i = j := by omega
    subst this
    exact ⟨le_refl _, le_refl _, hlo, hhi⟩
  | succ fuel ih =>
    intro i j hij hjn hfuel hlo hhi
    rw [searchLoop_succ]
    by_cases hlt : i < j
    · rw [if_pos hlt]
      have hh1 : i ≤ (i + j) / 2 := by omega
      have hh2 : (i + j) / 2 < j := by omega
      cases hf : f ((i + j) / 2) with
      | false =>
        rw [if_neg (by simp)]
        have hlo1 : ∀ k, k < (i + j) / 2 + 1 → f k = false := by
          intro k hk
          cases hk1 : f k with
          | false => rfl
          | true =>
            have := hmono k ((i + j) / 2) (by omega) (by omega) hk1
            rw [hf] at this; cases this
        obtain ⟨h1, h2, h3, h4⟩ :=
          ih ((i + j) / 2 + 1) j (by omega) hjn (by omega) hlo1 hhi
        exact ⟨by omega, h2, h3, h4⟩
      | true =>
        rw [if_pos rfl]
        have hhi1 : ∀ k, (i + j) / 2 ≤ k → k < n → f k = true :=
          fun k hk hkn => hmono ((i + j) / 2) k hk hkn hf
        obtain ⟨h1, h2, h3, h4⟩ :=
          ih i ((i + j) / 2) hh1 (by omega) (by omega) hlo hhi1
        exact ⟨h1, by omega, h3, h4⟩
    · rw [if_neg hlt]
      have : i = j := by omega
      subst this
      exact ⟨le_refl _, le_refl _, hlo, hhi⟩

/-- The result of `sort.Search` for a test that is monotone below `n`. -/
theorem Search_spec (f : Nat → Bool) (n : Nat)
    (hmono : ∀ a b, a ≤ b → b < n → f a = true → f b = true) :
    Segmented.Search n f ≤ n ∧ (∀ k, k < Segmented.Search n f → f k = false) ∧
      (∀ k, Segmented.Search n f ≤ k → k < n → f k = true) := by
  obtain ⟨_, h2, h3, h4⟩ := searchLoop_spec f n hmono n 0 n (Nat.zero_le _) (le_refl _)
    (by omega) (fun k hk => absurd hk (Nat.not_lt_zero k)) (fun k hk hkn => by omega)
  exact ⟨h2, h3, h4⟩

/-- In a list of segments with strictly increasing `sid`, a later segment has a greater
`sid`. -/
theorem sid_lt_of_lt (segments : List Segmented.Segment)
    (hsorted : (segments.map Segmented.Segment.sid).Pairwise (fun a b => a < b))
    (a b : Nat) (s t : Segmented.Segment) (ha : segments[a]? = some s)
    (hb : segments[b]? = some t) (hab : a < b) : s.sid < t.sid := by
  obtain ⟨ha1, ha2⟩ := List.getElem?_eq_some.1 ha
  obtain ⟨hb1, hb2⟩ := List.getElem?_eq_some.1 hb
  have h := List.pairwise_iff_getElem.1 hsorted a b (by simpa using ha1) (by simpa using hb1) hab
  simp only [List.getElem_map] at h
  rw [ha2, hb2] at h
  exact h

/-- On a non-empty list of segments with strictly increasing `sid`, and for a chunk id not
below the first `sid`, the index `indexSegment` computes is that of the last segment with
`sid ≤ cid`. -/
theorem searchIndex_spec (self : Segmented.MessageStore) (cid : Int)
    (hsorted : (self.segments.map Segmented.Segment.sid).Pairwise (fun a b => a < b))
    (hfirst : ∃ s, self.segments.head? = some s ∧ s.sid ≤ cid) :
    ∃ (i : Nat) (s : Segmented.Segment), self.searchIndex cid = (i : Int) ∧
      self.segments[i]? = some s ∧ s.sid ≤ cid ∧
      (∀ j t, self.segments[j]? = some t → t.sid ≤ cid → j ≤ i) := by
  have hmono : ∀ a b, a ≤ b → b < self.segments.length →
      (match self.segments[a]? with
        | some s => decide (s.sid ≥ cid)
        | none => false) = true →
      (match self.segments[b]? with
        | some s => decide (s.sid ≥ cid)
        | none => false) = true := by
    intro a b hab hb hfa
    have ha : a < self.segments.length := lt_of_le_of_lt hab hb
    have hsa := List.getElem?_eq_getElem ha
    have hsb := List.getElem?_eq_getElem hb
    rw [hsa] at hfa
    rw [hsb]
    simp only [decide_eq_true_eq] at hfa ⊢
    rcases Nat.eq_or_lt_of_le hab with heq | hlt
    · subst heq; exact hfa
    · have := sid_lt_of_lt self.segments hsorted a b _ _ hsa hsb hlt
      omega
  obtain ⟨hr1, hr2, hr3⟩ := Search_spec _ self.segments.length hmono
  obtain ⟨s0, hs0, hs0le⟩ := hfirst
  rw [List.head?_eq_getElem?] at hs0
  have hn0 : 0 < self.segments.length := (List.getElem?_eq_some.1 hs0).1
  have hidx : ∀ r, Segmented.Search self.segments.length
      (fun i => match self.segments[i]? with
        | some s => decide (s.sid ≥ cid)
        | none => false) = r →
      self.searchIndex cid =
        (match self.segments[r]? with
          | none => (r : Int) - 1
          | some s => if s.sid ≠ cid then (r : Int) - 1 else r) := by
    intro r hr; rw [← hr]; rfl
  generalize hr : Segmented.Search self.segments.length
    (fun i => match self.segments[i]? with
      | some s => decide (s.sid ≥ cid)
      | none => false) = r at hr1 hr2 hr3
  rw [hidx r hr]
  -- the test at an index in range
  have hf_true : ∀ k t, self.segments[k]? = some t → r ≤ k → t.sid ≥ cid := by
    intro k t hk hrk
    have := hr3 k hrk (List.getElem?_eq_some.1 hk).1
    rw [hk] at this
    simpa using this
  have hf_false : ∀ k t, self.segments[k]? = some t → k < r → t.sid < cid := by
    intro k t hk hkr
    have := hr2 k hkr
    rw [hk] at this
    simpa using this
  -- the branch that steps back
  have hback : (∀ t, self.segments[r]? = some t → t.sid ≠ cid) →
      ∃ (i : Nat) (s : Segmented.Segment), (r : Int) - 1 = (i : Int) ∧
        self.segments[i]? = some s ∧ s.sid ≤ cid ∧
        (∀ j t, self.segments[j]? = some t → t.sid ≤ cid → j ≤ i) := by
    intro hne
    have hr0 : 0 < r := by
      rcases Nat.eq_zero_or_pos r with h0 | h0
      · exfalso
        rw [h0] at hne
        have := hf_true 0 s0 hs0 (by omega)
        exact hne s0 hs0 (by omega)
      · exact h0
    have hlt : r - 1 < self.segments.length := by omega
    refine ⟨r - 1, self.segments[r - 1], by omega, List.getElem?_eq_getElem hlt, ?_, ?_⟩
    · have := hf_false (r - 1) _ (List.getElem?_eq_getElem hlt) (by omega)
      omega
    · intro j t hj htle
      by_contra hcon
      have hrj : r ≤ j := by omega
      have hge := hf_true j t hj hrj
      have heq : t.sid = cid := by omega
      have hrn : r < self.segments.length := lt_of_le_of_lt hrj (List.getElem?_eq_some.1 hj).1
      have hsr := List.getElem?_eq_getElem hrn
      rcases Nat.eq_or_lt_of_le hrj with hjr | hjr
      · subst hjr
        exact hne t hj heq
      · have h1 := sid_lt_of_lt self.segments hsorted r j _ _ hsr hj hjr
        have h2 := hf_true r _ hsr (le_refl _)
        omega
  by_cases hnone : self.segments[r]? = none
  · rw [hnone]
    exact hback (fun t ht => by rw [hnone] at ht; cases ht)
  · obtain ⟨sr, hsr⟩ := Option.ne_none_iff_exists'.1 hnone
    rw [hsr]
    dsimp only
    by_cases heq : sr.sid = cid
    · rw [if_neg (by simpa using heq)]
      refine ⟨r, sr, rfl, hsr, by omega, ?_⟩
      intro j t hj htle
      by_contra hcon
      have hrj : r < j := by omega
      have h1 := sid_lt_of_lt self.segments hsorted r j _ _ hsr hj hrj
      omega
    · rw [if_pos heq]
      exact hback (fun t ht => by rw [hsr] at ht; cases ht; exact heq)

/-- C15: on a non-empty list of segments with strictly increasing `sid`, for a chunk id not
below the first `sid`, when the cache scan misses, `indexSegment` returns the segment at the
greatest index `i` with `segments[i].sid ≤ cid`. -/
theorem C15_indexSegment_selects_greatest (self : Segmented.MessageStore) (cid : Int)
    (openOk : Bool)
    (hsorted : (self.segments.map Segmented.Segment.sid).Pairwise (fun a b => a < b))
    (hfirst : ∃ s, self.segments.head? = some s ∧ s.sid ≤ cid)
    (hmiss : Segmented.cacheScan self.segmentCache cid = none) :
    ∃ (i : Nat) (s : Segmented.Segment) (self1 : Segmented.MessageStore),
      self.indexSegment cid openOk = some (s, self1) ∧
      self.segments[i]? = some s ∧ s.sid ≤ cid ∧
      (∀ j t, self.segments[j]? = some t → t.sid ≤ cid → j ≤ i) ∧
      self1.segments = self.segments := by
  obtain ⟨i, s, hidx, hs, hle, hmax⟩ := searchIndex_spec self cid hsorted hfirst
  have hat : Segmented.segmentAt self.segments (i : Int) = some s := by
    unfold Segmented.segmentAt
    rw [if_neg (by omega), Int.toNat_ofNat, hs]
  have hload : ∃ self1, self.loadSegment (i : Int) openOk = some self1 ∧
      self1.segments = self.segments := by
    unfold Segmented.MessageStore.loadSegment
    rw [hat]
    dsimp only
    by_cases ho : openOk = true
    · rw [if_neg (by simp [ho])]
      split
      · exact ⟨_, rfl, rfl⟩
      · exact ⟨_, rfl, rfl⟩
    · rw [if_pos (by simpa using ho)]
      exact ⟨_, rfl, rfl⟩
  obtain ⟨self1, hl1, hl2⟩ := hload
  refine ⟨i, s, self1, ?_, hs, hle, hmax, hl2⟩
  unfold Segmented.MessageStore.indexSegment
  rw [hmiss]
  dsimp only
  rw [hidx, hl1]
  dsimp only
  rw [hl2, hat]

/-- C15 on the segments 0, 10, 20 with nothing cached, for the chunk id 15. -/
theorem C15_indexSegment_selects_greatest_witness :
    (((Segmented.runningStore
        [Segmented.sampleSegment 0 [0, 1], Segmented.sampleSegment 10 [10, 11],
         Segmented.sampleSegment 20 [20]] 20).segments.map
      Segmented.Segment.sid).Pairwise (fun a b => a < b)) ∧
    (∃ s, (Segmented.runningStore
        [Segmented.sampleSegment 0 [0, 1], Segmented.sampleSegment 10 [10, 11],
         Segmented.sampleSegment 20 [20]] 20).segments.head? = some s ∧ s.sid ≤ 15) ∧
    Segmented.cacheScan (Segmented.runningStore
        [Segmented.sampleSegment 0 [0, 1], Segmented.sampleSegment 10 [10, 11],
         Segmented.sampleSegment 20 [20]] 20).segmentCache 15 = none ∧
    ∃ (i : Nat) (s : Segmented.Segment) (self1 : Segmented.MessageStore),
      (Segmented.runningStore
        [Segmented.sampleSegment 0 [0, 1], Segmented.sampleSegment 10 [10, 11],
         Segmented.sampleSegment 20 [20]] 20).indexSegment 15 true = some (s, self1) ∧
      (Segmented.runningStore
        [Segmented.sampleSegment 0 [0, 1], Segmented.sampleSegment 10 [10, 11],
         Segmented.sampleSegment 20 [20]] 20).segments[i]? = some s ∧ s.sid ≤ 15 ∧
      (∀ j t, (Segmented.runningStore
        [Segmented.sampleSegment 0 [0, 1], Segmented.sampleSegment 10 [10, 11],
         Segmented.sampleSegment 20 [20]] 20).segments[j]? = some t → t.sid ≤ 15 → j ≤ i) ∧
      self1.segments = (Segmented.runningStore
        [Segmented.sampleSegment 0 [0, 1], Segmented.sampleSegment 10 [10, 11],
         Segmented.sampleSegment 20 [20]] 20).segments :=
  ⟨by decide, ⟨_, rfl, by decide⟩, by decide,
    C15_indexSegment_selects_greatest _ 15 true (by decide) ⟨_, rfl, by decide⟩ (by decide)⟩

/-! ## Locks during Append -/

/-- Called with no lock held, as `load` does, `checkRoll` takes and gives back the store
mutex and ends as its lock-free embedding does. -/
theorem checkRollLocked_free (self : Segmented.MessageStore) (createOk : Bool) :
    self.checkRollLocked createOk [] =
      match self.checkRoll createOk with
      | some r => .returned r []
      | none => .panicked := by
  unfold Segmented.MessageStore.checkRollLocked Segmented.MessageStore.checkRoll
  by_cases hlen : self.segments.length ≤ 0
  · rw [if_pos hlen, if_pos hlen]
    cases createOk <;> simp [Segmented.lock, Segmented.unlock]
  · rw [if_neg hlen, if_neg hlen]
    simp only [Segmented.lock, List.not_mem_nil, if_false, Segmented.unlock]
    cases self.segments.getLast? with
    | none => rfl
    | some s =>
      dsimp only
      by_cases hb : s.byteSize > self.MAX_SEGMENT_SIZE
      · rw [if_pos hb, if_pos hb]
        cases s.chunks.getLast? with
        | none => rfl
        | some c => cases createOk <;> simp
      · rw [if_neg hb, if_neg hb]
        simp

/-- While the store mutex is held, `checkRoll` either panics before its `self.Lock()` (no
segment and `createSegment(0)` failed) or is stuck on the store mutex. -/
theorem checkRollLocked_held (self : Segmented.MessageStore) (createOk : Bool)
    (held : List Segmented.Mutex) (hheld : Segmented.Mutex.store ∈ held) :
    self.checkRollLocked createOk held =
      if self.segments.length ≤ 0 ∧ createOk = false then .panicked
      else .stuck .store := by
  unfold Segmented.MessageStore.checkRollLocked
  by_cases hlen : self.segments.length ≤ 0
  · rw [if_pos hlen]
    cases createOk
    · simp [hlen]
    · simp [Segmented.lock, hheld]
  · rw [if_neg hlen, if_neg (fun h => hlen h.1)]
    simp [Segmented.lock, hheld]

/-- A call of `Append` on a running store, started with no lock held, never returns: it holds
the store mutex when it calls `checkRoll`, which requests the same mutex. -/
theorem AppendLocked_running (self : Segmented.MessageStore) (cmd : Segmented.command)
    (createOk slogOk : Bool) (hrun : self.running = true) :
    self.AppendLocked cmd createOk slogOk [] =
      if self.segments.length ≤ 0 ∧ createOk = false then .panicked
      else .stuck .store := by
  unfold Segmented.MessageStore.AppendLocked
  rw [if_pos hrun]
  simp only [Segmented.lock, List.not_mem_nil, if_false, Segmented.MessageStore.cid]
  rw [checkRollLocked_held _ createOk [Segmented.Mutex.store] (List.mem_singleton_self _)]
  by_cases h : self.segments.length ≤ 0 ∧ createOk = false
  · rw [if_pos h]
  · rw [if_neg h]

/-- C21, as the code behaves: `Append` takes the store mutex and then calls `checkRoll`, which
requests the same mutex in both of its branches.  On a running store with no segment and on a
running store with one segment, a call of `Append` that starts with no lock held is stuck on
the store mutex and returns no chunk id; `checkRoll` called with no lock held, as `load`
calls it, returns on both stores. -/
theorem C21_append_stuck_on_store_mutex :
    (Segmented.runningStore [] (-1)).AppendLocked
        (Segmented.sampleCommand "m") true true [] = .stuck .store ∧
    (Segmented.runningStore [Segmented.newSegment 0] (-1)).AppendLocked
        (Segmented.sampleCommand "m") true true [] = .stuck .store ∧
    (Segmented.runningStore [] (-1)).loadCheckRoll true =
      .returned (0, Segmented.runningStore [Segmented.newSegment 0] (-1)) [] ∧
    (Segmented.runningStore [Segmented.newSegment 0] (-1)).loadCheckRoll true =
      .returned (0, Segmented.runningStore [Segmented.newSegment 0] (-1)) [] := by
  decide

/-! ## Calls on the file store over the segmented store -/

/-- A lookup by `loadSegment` changes the segment cache only. -/
theorem loadSegment_frame (self self1 : Segmented.MessageStore) (idx : Int) (openOk : Bool)
    (h : self.loadSegment idx openOk = some self1) :
    self1.segments = self.segments ∧ self1.chunkId = self.chunkId ∧
      self1.writeChannel = self.writeChannel ∧ self1.running = self.running := by
  unfold Segmented.MessageStore.loadSegment at h
  cases hs : Segmented.segmentAt self.segments idx with
  | none => simp [hs] at h
  | some s =>
    simp only [hs] at h
    split at h
    · cases h; exact ⟨rfl, rfl, rfl, rfl⟩
    · split at h <;> (cases h; exact ⟨rfl, rfl, rfl, rfl⟩)

/-- A lookup by `indexSegment` changes the segment cache only. -/
theorem indexSegment_frame (self self1 : Segmented.MessageStore) (cid : Int) (openOk : Bool)
    (s : Segmented.Segment) (h : self.indexSegment cid openOk = some (s, self1)) :
    self1.segments = self.segments ∧ self1.chunkId = self.chunkId ∧
      self1.writeChannel = self.writeChannel ∧ self1.running = self.running := by
  unfold Segmented.MessageStore.indexSegment at h
  cases hc : Segmented.cacheScan self.segmentCache cid with
  | some s0 =>
    simp only [hc, Option.some.injEq, Prod.mk.injEq] at h
    rw [← h.2]; exact ⟨rfl, rfl, rfl, rfl⟩
  | none =>
    simp only [hc] at h
    cases hl : self.loadSegment (self.searchIndex cid) openOk with
    | none => simp [hl] at h
    | some self2 =>
      simp only [hl] at h
      cases ha : Segmented.segmentAt self2.segments (self.searchIndex cid) with
      | none => simp [ha] at h
      | some curr =>
        simp only [ha, Option.some.injEq, Prod.mk.injEq] at h
        rw [← h.2]
        exact loadSegment_frame self self2 _ openOk hl

/-- One replayed record keeps the index well formed. -/
theorem WF_replay (fs fs1 : KiteFileStore) (hwf : fs.WF) (r : oplog)
    (h : fs.replay r = some fs1) : fs1.WF := by
  cases hb : r.Body with
  | none =>
    simp only [KiteFileStore.replay, jsonUnmarshal, hb, Option.some.injEq] at h
    rw [← h]; exact hwf
  | some ob =>
    cases hh : hashId ob.MessageId with
    | none => simp [KiteFileStore.replay, jsonUnmarshal, hb, hh] at h
    | some g =>
      rcases opCode_cases r.Op with hop | hop
      · obtain ⟨fs2, h2, hwf2, _⟩ := replay_set fs r ob g hwf hb hh hop
        rw [h2] at h; cases h; exact hwf2
      · obtain ⟨fs2, h2, hwf2, _⟩ := replay_del fs r ob g hwf hb hh hop
        rw [h2] at h; cases h; exact hwf2

/-- A replayed log keeps the index well formed. -/
theorem WF_replayAll (rs : List oplog) (fs fs1 : KiteFileStore) (hwf : fs.WF)
    (h : fs.replayAll rs = some fs1) : fs1.WF := by
  induction rs generalizing fs with
  | nil =>
    have : fs = fs1 := Option.some.inj h
    rw [← this]; exact hwf
  | cons r rest ih =>
    unfold KiteFileStore.replayAll at h
    cases hr : fs.replay r with
    | none => simp [hr] at h
    | some fs2 =>
      simp only [hr] at h
      exact ih fs2 (WF_replay fs fs2 hwf r hr) h

/-- The loop of `recoverSnapshot` keeps the index well formed. -/
theorem WF_recoverLoop (segs : List Segmented.Segment) (chunkId : Int) (fs : KiteFileStore)
    (hwf : fs.WF) (r : Int × KiteFileStore)
    (h : Segmented.recoverLoop segs chunkId fs = some r) : r.2.WF := by
  induction segs generalizing chunkId fs with
  | nil =>
    simp only [Segmented.recoverLoop, Option.some.injEq] at h
    rw [← h]; exact hwf
  | cons s rest ih =>
    unfold Segmented.recoverLoop at h
    cases hr : fs.replayAll s.slog with
    | none => simp [hr] at h
    | some fs1 =>
      simp only [hr] at h
      exact ih _ fs1 (WF_replayAll _ fs fs1 hwf hr) h

/-- A call of `Start` that returns leaves a well-formed index. -/
theorem WF_Start (fs fs1 : Segmented.KiteFileStore) (hwf : fs.index.WF)
    (disk : List Segmented.Segment) (createOk : Bool) (held : List Segmented.Mutex)
    (h : fs.Start disk createOk = .returned fs1 held) : fs1.index.WF := by
  unfold Segmented.KiteFileStore.Start Segmented.MessageStore.load at h
  dsimp only at h
  generalize hrec : Segmented.MessageStore.recoverSnapshot _ fs.index = rec at h
  cases rec with
  | none => simp at h
  | some r =>
    have hwf1 : r.2.WF := by
      unfold Segmented.MessageStore.recoverSnapshot at hrec
      split at hrec
      · generalize hloop : Segmented.recoverLoop _ _ fs.index = lp at hrec
        cases lp with
        | none => simp at hrec
        | some q =>
          simp only [Option.some.injEq] at hrec
          rw [← hrec]
          exact WF_recoverLoop _ _ fs.index hwf q hloop
      · simp only [Option.some.injEq] at hrec
        rw [← hrec]; exact hwf
    obtain ⟨r1, r2⟩ := r
    dsimp only at h
    cases hroll : r1.loadCheckRoll createOk with
    | stuck m => simp [hroll] at h
    | panicked => simp [hroll] at h
    | returned v held1 =>
      simp only [hroll, Segmented.Outcome.returned.injEq] at h
      rw [← h.1]; exact hwf1

/-- A call of `Save` that returns leaves a well-formed index. -/
theorem WF_SaveLocked (fs : Segmented.KiteFileStore) (hwf : fs.index.WF)
    (entity : MessageEntity) (createOk slogOk : Bool) (r : Bool × Segmented.KiteFileStore)
    (held : List Segmented.Mutex)
    (h : fs.Save entity createOk slogOk = .returned r held) : r.2.index.WF := by
  unfold Segmented.KiteFileStore.Save at h
  cases hh : hashId entity.MessageId with
  | none => simp [hh] at h
  | some g =>
    simp only [hh] at h
    split at h
    · simp only [Segmented.Outcome.returned.injEq] at h
      rw [← h.1]; exact hwf
    · simp only [jsonMarshalEntity, Segmented.lock, List.not_mem_nil, if_false] at h
      generalize Segmented.MessageStore.AppendLocked _ _ _ _ _ = app at h
      cases app with
      | stuck m => simp at h
      | panicked => simp at h
      | returned v held1 =>
        obtain ⟨id, snap⟩ := v
        simp only [Segmented.Outcome.returned.injEq] at h
        rw [← h.1]
        refine WF_of_shard fs.index _ g hwf (Nat.le_succ _)
          (fun i hi => Function.update_noteq hi _ _)
          (fun i hi => Function.update_noteq hi _ _) ?_
        simp only [Function.update_same]
        exact ShardWF_push (hwf g) _ _

/-- A call of `Commit` that returns leaves a well-formed index. -/
theorem WF_CommitLocked (fs : Segmented.KiteFileStore) (hwf : fs.index.WF) (m : String)
    (openOk : Bool) (r : Bool × Segmented.KiteFileStore) (held : List Segmented.Mutex)
    (h : fs.Commit m openOk = .returned r held) : r.2.index.WF := by
  unfold Segmented.KiteFileStore.Commit at h
  cases hh : hashId m with
  | none => simp [hh] at h
  | some g =>
    cases hp : mapGet (fs.index.oplogs g) m with
    | none =>
      simp only [hh, hp, Segmented.Outcome.returned.injEq] at h
      rw [← h.1]; exact hwf
    | some p =>
      cases hv : elemValue (fs.index.loglink g) p with
      | none => simp [hh, hp, hv] at h
      | some v =>
        simp only [hh, hp, hv] at h
        generalize Segmented.MessageStore.Update _ _ _ = upd at h
        cases upd with
        | none => simp at h
        | some snap =>
          simp only [Segmented.Outcome.returned.injEq] at h
          rw [← h.1]
          refine WF_of_shard fs.index _ g hwf (le_refl _) (fun i _ => rfl)
            (fun i hi => Function.update_noteq hi _ _) ?_
          simp only [Function.update_same]
          exact ShardWF_setValue (hwf g) _ _

/-- A call of `UpdateEntity` that returns leaves a well-formed index. -/
theorem WF_UpdateEntityLocked (fs : Segmented.KiteFileStore) (hwf : fs.index.WF)
    (entity : MessageEntity) (openOk : Bool) (r : Bool × Segmented.KiteFileStore)
    (held : List Segmented.Mutex)
    (h : fs.UpdateEntity entity openOk = .returned r held) : r.2.index.WF := by
  unfold Segmented.KiteFileStore.UpdateEntity at h
  cases hh : hashId entity.MessageId with
  | none => simp [hh] at h
  | some g =>
    cases hp : mapGet (fs.index.oplogs g) entity.MessageId with
    | none =>
      simp only [hh, hp, Segmented.Outcome.returned.injEq] at h
      rw [← h.1]; exact hwf
    | some p =>
      cases hv : elemValue (fs.index.loglink g) p with
      | none => simp [hh, hp, hv] at h
      | some v =>
        simp only [hh, hp, hv] at h
        generalize Segmented.MessageStore.Update _ _ _ = upd at h
        cases upd with
        | none => simp at h
        | some snap =>
          simp only [Segmented.Outcome.returned.injEq] at h
          rw [← h.1]
          refine WF_of_shard fs.index _ g hwf (le_refl _) (fun i _ => rfl)
            (fun i hi => Function.update_noteq hi _ _) ?_
          simp only [Function.update_same]
          exact ShardWF_setValue (hwf g) _ _

/-- A call of `Delete` that returns leaves a well-formed index. -/
theorem WF_DeleteLocked (fs : Segmented.KiteFileStore) (hwf : fs.index.WF) (m : String)
    (openOk : Bool) (r : Bool × Segmented.KiteFileStore) (held : List Segmented.Mutex)
    (h : fs.Delete m openOk = .returned r held) : r.2.index.WF := by
  unfold Segmented.KiteFileStore.Delete Segmented.KiteFileStore.innerDelete at h
  cases hh : hashId m with
  | none => simp [hh] at h
  | some g =>
    cases hp : mapGet (fs.index.oplogs g) m with
    | none =>
      simp only [hh, hp, Segmented.Outcome.returned.injEq] at h
      rw [← h.1]; exact hwf
    | some p =>
      cases hv : elemValue (fs.index.loglink g) p with
      | none => simp [hh, hp, hv] at h
      | some v =>
        simp only [hh, hp, hv] at h
        generalize Segmented.MessageStore.Delete _ _ _ = del at h
        cases del with
        | none => simp at h
        | some snap =>
          simp only [Segmented.Outcome.returned.injEq] at h
          rw [← h.1]
          refine WF_of_shard fs.index _ g hwf (le_refl _)
            (fun i hi => Function.update_noteq hi _ _)
            (fun i hi => Function.update_noteq hi _ _) ?_
          simp only [Function.update_same]
          exact ShardWF_remove (hwf g) _ _ hp

/-- A call of `Expired` that returns leaves a well-formed index. -/
theorem WF_ExpiredLocked (fs : Segmented.KiteFileStore) (hwf : fs.index.WF) (m : String)
    (openOk : Bool) (r : Bool × Segmented.KiteFileStore) (held : List Segmented.Mutex)
    (h : fs.Expired m openOk = .returned r held) : r.2.index.WF := by
  unfold Segmented.KiteFileStore.Expired at h
  cases hh : hashId m with
  | none => simp [hh] at h
  | some g =>
    cases hp : mapGet (fs.index.oplogs g) m with
    | none =>
      simp only [hh, hp, Segmented.Outcome.returned.injEq] at h
      rw [← h.1]; exact hwf
    | some p =>
      cases hv : elemValue (fs.index.loglink g) p with
      | none => simp [hh, hp, hv] at h
      | some v =>
        simp only [hh, hp, hv] at h
        generalize Segmented.MessageStore.Expired _ _ _ = del at h
        cases del with
        | none => simp at h
        | some snap =>
          simp only [Segmented.Outcome.returned.injEq] at h
          rw [← h.1]
          refine WF_of_shard fs.index _ g hwf (le_refl _)
            (fun i hi => Function.update_noteq hi _ _)
            (fun i hi => Function.update_noteq hi _ _) ?_
          simp only [Function.update_same]
          exact ShardWF_remove (hwf g) _ _ hp

/-- Dropping the boolean result keeps the store that a call returned. -/
theorem store_returned (o : Segmented.Outcome (Bool × Segmented.KiteFileStore))
    (fs1 : Segmented.KiteFileStore) (held : List Segmented.Mutex)
    (h : o.store = .returned fs1 held) : ∃ b, o = .returned (b, fs1) held := by
  cases o with
  | returned v held1 =>
    obtain ⟨b, f⟩ := v
    simp only [Segmented.Outcome.store, Segmented.Outcome.returned.injEq] at h
    exact ⟨b, by rw [h.1, h.2]⟩
  | stuck m => simp [Segmented.Outcome.store] at h
  | panicked => simp [Segmented.Outcome.store] at h

/-- Every call that returns leaves a well-formed index. -/
theorem WF_call (fs fs1 : Segmented.KiteFileStore) (hwf : fs.index.WF)
    (c : Segmented.StoreCall) (held : List Segmented.Mutex)
    (h : fs.call c = .returned fs1 held) : fs1.index.WF := by
  cases c with
  | Start disk createOk => exact WF_Start fs fs1 hwf disk createOk held h
  | Save entity createOk slogOk =>
    obtain ⟨b, hb⟩ := store_returned _ fs1 held h
    exact WF_SaveLocked fs hwf entity createOk slogOk _ held hb
  | Commit m openOk =>
    obtain ⟨b, hb⟩ := store_returned _ fs1 held h
    exact WF_CommitLocked fs hwf m openOk _ held hb
  | UpdateEntity entity openOk =>
    obtain ⟨b, hb⟩ := store_returned _ fs1 held h
    exact WF_UpdateEntityLocked fs hwf entity openOk _ held hb
  | Delete m openOk =>
    obtain ⟨b, hb⟩ := store_returned _ fs1 held h
    exact WF_DeleteLocked fs hwf m openOk _ held hb
  | Expired m openOk =>
    obtain ⟨b, hb⟩ := store_returned _ fs1 held h
    exact WF_ExpiredLocked fs hwf m openOk _ held hb

/-- Every file store reached from a new one by `Start`, `Save`, `Commit`, `UpdateEntity`,
`Delete` and `Expired` calls that return has a well-formed index. -/
theorem WF_calls (cs : List Segmented.StoreCall) (fs fs1 : Segmented.KiteFileStore)
    (hwf : fs.index.WF) (held : List Segmented.Mutex)
    (h : fs.calls cs = .returned fs1 held) : fs1.index.WF := by
  induction cs generalizing fs with
  | nil =>
    simp only [Segmented.KiteFileStore.calls, Segmented.Outcome.returned.injEq] at h
    rw [← h.1]; exact hwf
  | cons c rest ih =>
    unfold Segmented.KiteFileStore.calls at h
    cases hc : fs.call c with
    | stuck m => simp [hc] at h
    | panicked => simp [hc] at h
    | returned fs2 held2 =>
      simp only [hc] at h
      exact ih fs2 (WF_call fs fs2 hwf c held2 hc) h

/-- Every file store reached from a new one by calls that return has a well-formed index. -/
theorem WF_reachable_calls (maxcap maxSegmentSize : Int) (cs : List Segmented.StoreCall)
    (fs1 : Segmented.KiteFileStore) (held : List Segmented.Mutex)
    (h : (Segmented.NewKiteFileStore maxcap maxSegmentSize).calls cs = .returned fs1 held) :
    fs1.index.WF :=
  WF_calls cs _ fs1 (WF_NewKiteFileStore maxcap) held h

/-- On a full shard `Save` returns `false` before it takes a lock, and changes nothing. -/
theorem Save_full (fs : Segmented.KiteFileStore) (entity : MessageEntity)
    (createOk slogOk : Bool) (h : Fin CONCURRENT_LEVEL)
    (hh : hashId entity.MessageId = some h)
    (hfull : fs.index.maxcap ≤ ((fs.index.oplogs h).length : Int)) :
    fs.Save entity createOk slogOk = .returned (false, fs) [] := by
  unfold Segmented.KiteFileStore.Save
  simp only [hh, ge_iff_le, hfull, if_true]

/-- On a running store, `Save` of an entity whose shard has room never returns: its call of
`Append` is stuck on the store mutex, or panics when there is no segment and none can be
created. -/
theorem Save_running (fs : Segmented.KiteFileStore) (entity : MessageEntity)
    (createOk slogOk : Bool) (h : Fin CONCURRENT_LEVEL)
    (hh : hashId entity.MessageId = some h)
    (hroom : ((fs.index.oplogs h).length : Int) < fs.index.maxcap)
    (hrun : fs.snapshot.running = true) :
    fs.Save entity createOk slogOk =
      if fs.snapshot.segments.length ≤ 0 ∧ createOk = false then .panicked
      else .stuck .store := by
  have hroom1 : ¬ ((fs.index.oplogs h).length : Int) ≥ fs.index.maxcap := not_le.2 hroom
  unfold Segmented.KiteFileStore.Save
  simp only [hh, hroom1, if_false, jsonMarshalEntity, Segmented.lock, List.not_mem_nil]
  unfold Segmented.MessageStore.AppendLocked
  rw [if_pos hrun]
  have hne : (Segmented.Mutex.store ∈ [Segmented.Mutex.shard h]) = False := by simp
  simp only [Segmented.lock, hne, if_false, Segmented.MessageStore.cid]
  rw [checkRollLocked_held _ createOk _ (List.mem_cons_self _ _)]
  by_cases hc : fs.snapshot.segments.length ≤ 0 ∧ createOk = false
  · rw [if_pos hc, if_pos hc]
  · rw [if_neg hc, if_neg hc]

/-- On a store that is not running, `Save` of an entity whose shard has room returns `true`
and stores the entity with the chunk id -1 that `Append` returns; the message store is
unchanged. -/
theorem Save_not_running (fs : Segmented.KiteFileStore) (entity : MessageEntity)
    (createOk slogOk : Bool) (h : Fin CONCURRENT_LEVEL)
    (hh : hashId entity.MessageId = some h)
    (hroom : ((fs.index.oplogs h).length : Int) < fs.index.maxcap)
    (hrun : fs.snapshot.running = false) :
    fs.Save entity createOk slogOk =
      .returned
        (true,
          { index :=
              { fs.index with
                loglink := Function.update fs.index.loglink h
                  (PushFront (fs.index.loglink h) fs.index.nextPtr (savedBody entity (-1))),
                oplogs := Function.update fs.index.oplogs h
                  (mapSet (fs.index.oplogs h) entity.MessageId fs.index.nextPtr),
                nextPtr := fs.index.nextPtr + 1 },
            snapshot := fs.snapshot })
        [] := by
  have hroom1 : ¬ ((fs.index.oplogs h).length : Int) ≥ fs.index.maxcap := not_le.2 hroom
  unfold Segmented.KiteFileStore.Save
  simp only [hh, hroom1, if_false, jsonMarshalEntity, Segmented.lock, List.not_mem_nil]
  unfold Segmented.MessageStore.AppendLocked
  simp [hrun, Segmented.unlock, savedBody]

/-! ## The calls of the file store at concrete inputs -/

/-- C7, as the code behaves: on a file store of total capacity 16 (one entry per shard),
started over a directory whose log holds the message "a0", the store is running, shard 0 is
full and shard 1 is empty.  `Save` of "b0", which hashes to the full shard 0, returns `false`.
`Save` of "c1", which hashes to shard 1, does not return `true`: it does not return at all,
the call is stuck on the store mutex that `Append` holds when `checkRoll` requests it. -/
theorem C7_save_below_capacity_is_stuck :
    ((Segmented.NewKiteFileStore 16 67108864).Start Segmented.tinyDisk true).value?.map
      (fun fs => (fs.snapshot.running, fs.index.maxcap, (fs.index.oplogs 0).length,
        (fs.index.oplogs 1).length)) = some (true, 1, 1, 0) ∧
    hashId (sampleEntity "b0" 200).MessageId = some 0 ∧
    hashId (sampleEntity "c1" 300).MessageId = some 1 ∧
    ((Segmented.NewKiteFileStore 16 67108864).Start Segmented.tinyDisk true).value?.map
      (fun fs => (fs.Save (sampleEntity "b0" 200) true true).value?.map Prod.fst) =
      some (some false) ∧
    ((Segmented.NewKiteFileStore 16 67108864).Start Segmented.tinyDisk true).value?.map
      (fun fs => ((fs.Save (sampleEntity "c1" 300) true true).stuckOn,
          (fs.Save (sampleEntity "c1" 300) true true).value?.map Prod.fst)) =
      some (some .store, none) := by
  decide

/-- C8, as the code behaves: `Save` inserts without looking for an entry of the same id.
The message "m0" is saved twice on a store that is not started yet (both calls return
`true`, with chunk id -1), the store is started over a directory whose log holds an update
of "m0" with chunk id 0, which `replay` writes into the element the map points at, and
`Delete("m0")` (or `Rollback("m0")`) is called: it returns `true`, removes the map entry and
that element and writes its `D` record, and the element of the first save stays in the shard
list, so `PageQueryEntity` still returns "m0". -/
theorem C8_delete_leaves_first_save :
    (((Segmented.NewKiteFileStore 1600 67108864).calls
        [.Save (sampleEntity "m0" 100) true true, .Save (sampleEntity "m0" 100) true true,
         .Start Segmented.singleDisk true]).value?.map
      (fun fs => (mapGet (fs.index.oplogs 0) "m0",
          (fs.index.loglink 0).map (fun e => (e.ptr, e.Value)))) =
      some (some 1, [(1, sampleBody 0 "m0" false 100), (0, sampleBody (-1) "m0" false 100)])) ∧
    (((Segmented.NewKiteFileStore 1600 67108864).calls
        [.Save (sampleEntity "m0" 100) true true, .Save (sampleEntity "m0" 100) true true,
         .Start Segmented.singleDisk true]).value?.bind
      (fun fs => (fs.Delete "m0" true).value?.map
        (fun r => (r.1, mapGet (r.2.index.oplogs 0) "m0",
          (r.2.index.loglink 0).map (fun e => e.Value)))) =
      some (true, none, [sampleBody (-1) "m0" false 100])) ∧
    (((Segmented.NewKiteFileStore 1600 67108864).calls
        [.Save (sampleEntity "m0" 100) true true, .Save (sampleEntity "m0" 100) true true,
         .Start Segmented.singleDisk true]).value?.bind
      (fun fs => (fs.Rollback "m0" true).value?.map
        (fun r => (r.1, mapGet (r.2.index.oplogs 0) "m0",
          (r.2.index.loglink 0).map (fun e => e.Value)))) =
      some (true, none, [sampleBody (-1) "m0" false 100])) ∧
    (((Segmented.NewKiteFileStore 1600 67108864).calls
        [.Save (sampleEntity "m0" 100) true true, .Save (sampleEntity "m0" 100) true true,
         .Start Segmented.singleDisk true, .Delete "m0" true]).value?.map
      (fun fs => (fs.index.PageQueryEntity "0" "server" 100 0 10,
          fs.snapshot.segments.map (fun s => s.slog))) =
      some (some (false, [entityOf (sampleBody (-1) "m0" false 100)]),
        [[newOplog .OP_U "m0" 0 (some (sampleBody 0 "m0" false 100)),
          newOplog .OP_D "m0" 0 (some (sampleBody 0 "m0" false 100))]])) := by
  decide

/-- C9, as the code behaves: on the empty message id, which no index holds, `Delete`,
`Expired` and `UpdateEntity` do not return `true`: `hash` indexes the last byte of the id
and panics. -/
theorem C9_empty_id_panics :
    (∀ i, mapGet (Segmented.recoveredStore.index.oplogs i) "" = none) ∧
    (Segmented.recoveredStore.Delete "" true).isPanicked = true ∧
    (Segmented.recoveredStore.Expired "" true).isPanicked = true ∧
    (Segmented.recoveredStore.UpdateEntity (sampleEntity "" 100) true).isPanicked = true := by
  decide

/-- C9 amended: for a non-empty message id that the index does not hold, `Delete`,
`Rollback`, `Expired` and `UpdateEntity` each return `true` and leave the file store as it
is: every shard map and list, and the message store with the logs of its segments, to which
no record is appended.  Applying any of them twice is therefore the same as applying it
once. -/
theorem C9_missing_id_noop (fs : Segmented.KiteFileStore) (entity : MessageEntity)
    (openOk : Bool) (hne : entity.MessageId ≠ "")
    (hm : ∀ h, hashId entity.MessageId = some h →
      mapGet (fs.index.oplogs h) entity.MessageId = none) :
    fs.Delete entity.MessageId openOk = .returned (true, fs) [] ∧
    fs.Rollback entity.MessageId openOk = .returned (true, fs) [] ∧
    fs.Expired entity.MessageId openOk = .returned (true, fs) [] ∧
    fs.UpdateEntity entity openOk = .returned (true, fs) [] ∧
    (fs.Delete entity.MessageId openOk).value?.bind
        (fun r => (r.2.Delete entity.MessageId openOk).value?) =
      (fs.Delete entity.MessageId openOk).value? ∧
    (fs.Expired entity.MessageId openOk).value?.bind
        (fun r => (r.2.Expired entity.MessageId openOk).value?) =
      (fs.Expired entity.MessageId openOk).value? ∧
    (fs.UpdateEntity entity openOk).value?.bind
        (fun r => (r.2.UpdateEntity entity openOk).value?) =
      (fs.UpdateEntity entity openOk).value? := by
  obtain ⟨h, hh⟩ := hashId_of_ne_empty entity.MessageId hne
  have hm1 := hm h hh
  have hd : fs.Delete entity.MessageId openOk = .returned (true, fs) [] := by
    unfold Segmented.KiteFileStore.Delete Segmented.KiteFileStore.innerDelete
    simp only [hh, hm1]
  have he : fs.Expired entity.MessageId openOk = .returned (true, fs) [] := by
    unfold Segmented.KiteFileStore.Expired
    simp only [hh, hm1]
  have hu : fs.UpdateEntity entity openOk = .returned (true, fs) [] := by
    unfold Segmented.KiteFileStore.UpdateEntity
    simp only [hh, hm1]
  refine ⟨hd, hd, he, hu, ?_, ?_, ?_⟩
  · rw [hd]; simp only [Segmented.Outcome.value?, Option.some_bind]; rw [hd]
  · rw [he]; simp only [Segmented.Outcome.value?, Option.some_bind]; rw [he]
  · rw [hu]; simp only [Segmented.Outcome.value?, Option.some_bind]; rw [hu]

/-- C9 amended, on the file store started over `pagingDisk`, for the message id "zz" that it
does not hold. -/
theorem C9_missing_id_noop_witness :
    (sampleEntity "zz" 100).MessageId ≠ "" ∧
    (∀ h, hashId (sampleEntity "zz" 100).MessageId = some h →
      mapGet (Segmented.recoveredStore.index.oplogs h) (sampleEntity "zz" 100).MessageId =
        none) ∧
    (Segmented.recoveredStore.Delete (sampleEntity "zz" 100).MessageId true =
      .returned (true, Segmented.recoveredStore) [] ∧
    Segmented.recoveredStore.Rollback (sampleEntity "zz" 100).MessageId true =
      .returned (true, Segmented.recoveredStore) [] ∧
    Segmented.recoveredStore.Expired (sampleEntity "zz" 100).MessageId true =
      .returned (true, Segmented.recoveredStore) [] ∧
    Segmented.recoveredStore.UpdateEntity (sampleEntity "zz" 100) true =
      .returned (true, Segmented.recoveredStore) [] ∧
    (Segmented.recoveredStore.Delete (sampleEntity "zz" 100).MessageId true).value?.bind
        (fun r => (r.2.Delete (sampleEntity "zz" 100).MessageId true).value?) =
      (Segmented.recoveredStore.Delete (sampleEntity "zz" 100).MessageId true).value? ∧
    (Segmented.recoveredStore.Expired (sampleEntity "zz" 100).MessageId true).value?.bind
        (fun r => (r.2.Expired (sampleEntity "zz" 100).MessageId true).value?) =
      (Segmented.recoveredStore.Expired (sampleEntity "zz" 100).MessageId true).value? ∧
    (Segmented.recoveredStore.UpdateEntity (sampleEntity "zz" 100) true).value?.bind
        (fun r => (r.2.UpdateEntity (sampleEntity "zz" 100) true).value?) =
      (Segmented.recoveredStore.UpdateEntity (sampleEntity "zz" 100) true).value?) :=
  ⟨by decide, by decide,
    C9_missing_id_noop Segmented.recoveredStore (sampleEntity "zz" 100) true (by decide)
      (by decide)⟩

/-! ## Commit and UpdateEntity -/

/-- C10, as the code behaves.  On a store that was never started, `Save` of "m0" returns
(with chunk id -1) and the index holds "m0"; `Commit("m0")` then does not return `true`: it
panics in `indexSegment`, which finds no segment for the id -1.  On a started store the
`Save` itself does not return.  And on the empty message id, which no index holds, `Commit`
does not return `false`: `hash` panics. -/
theorem C10_commit_panics :
    ((Segmented.NewKiteFileStore 1600 67108864).calls
        [.Save (sampleEntity "m0" 100) true true]).value?.map
      (fun fs => (fs.index.queryOpBody "m0", (fs.Commit "m0" true).isPanicked,
        (fs.Commit "m0" true).value?.map Prod.fst)) =
      some (some (sampleBody (-1) "m0" false 100), true, none) ∧
    ((Segmented.NewKiteFileStore 1600 67108864).calls
        [.Start [] true, .Save (sampleEntity "m0" 100) true true]).stuckOn = some .store ∧
    (∀ i, mapGet (Segmented.recoveredStore.index.oplogs i) "" = none) ∧
    (Segmented.recoveredStore.Commit "" true).isPanicked = true := by
  decide

/-- C10 amended: on a well-formed index, for a non-empty message id `m` that its shard map
holds, with stored `opBody` `ob`, and whose chunk id `indexSegment` resolves to a segment
`s`, `Commit(m)` returns `true`; the stored `opBody` keeps its id, groups, delivery time and
delivery count and has its commit flag set; every other message id reads as before, every
map and the order of every list are unchanged, no list element other than the committed one
changes; one `U` record, whose body is the updated `opBody`, is appended to the log of `s`,
and nothing else changes in the message store apart from the segment cache that
`indexSegment` maintains.  `Commit` of a non-empty id that the shard map does not hold
returns `false` and changes nothing. -/
theorem C10_commit_amended (fs : Segmented.KiteFileStore) (hwf : fs.index.WF)
    (m m2 : String) (h h2 : Fin CONCURRENT_LEVEL) (p : Nat) (ob : opBody)
    (s : Segmented.Segment) (snap : Segmented.MessageStore) (openOk : Bool)
    (hh : hashId m = some h) (hp : mapGet (fs.index.oplogs h) m = some p)
    (hob : elemValue (fs.index.loglink h) p = some ob)
    (hidx : fs.snapshot.indexSegment ob.Id openOk = some (s, snap))
    (hh2 : hashId m2 = some h2) (hm2 : mapGet (fs.index.oplogs h2) m2 = none) :
    (∃ fs1, fs.Commit m openOk = .returned (true, fs1) [] ∧
      fs.index.queryOpBody m = some ob ∧
      fs1.index.queryOpBody m = some { ob with Commit := true } ∧
      (∀ m1, m1 ≠ m → fs1.index.queryOpBody m1 = fs.index.queryOpBody m1) ∧
      fs1.index.oplogs = fs.index.oplogs ∧
      (∀ i, (fs1.index.loglink i).map Element.ptr = (fs.index.loglink i).map Element.ptr) ∧
      (∀ i q, i ≠ h ∨ q ≠ p →
        elemValue (fs1.index.loglink i) q = elemValue (fs.index.loglink i) q) ∧
      fs1.index.maxcap = fs.index.maxcap ∧
      fs1.snapshot = snap.writeSegment s.sid
        (fun x => x.logAppend (newOplog .OP_U m ob.Id (some { ob with Commit := true }))) ∧
      fs1.snapshot.segments = Segmented.updateSegment s.sid
        (fun x => x.logAppend (newOplog .OP_U m ob.Id (some { ob with Commit := true })))
        fs.snapshot.segments ∧
      fs1.snapshot.chunkId = fs.snapshot.chunkId ∧
      fs1.snapshot.running = fs.snapshot.running ∧
      fs1.snapshot.writeChannel = fs.snapshot.writeChannel) ∧
    fs.Commit m2 openOk = .returned (false, fs) [] := by
  have hmem : p ∈ (fs.index.loglink h).map Element.ptr := mem_ptr_of_mapGet (hwf h) m p hp
  have hq : fs.index.queryOpBody m = some ob := by
    rw [queryOpBody_eq fs.index m h hh, hp, Option.some_bind, hob]
  obtain ⟨hf1, hf2, hf3, hf4⟩ := indexSegment_frame _ _ _ _ _ hidx
  have hc : fs.Commit m openOk = .returned (true,
      { index :=
          { fs.index with
            loglink := Function.update fs.index.loglink h
              (setValue (fs.index.loglink h) p { ob with Commit := true }) },
        snapshot := snap.writeSegment s.sid
          (fun x => x.logAppend
            (newOplog .OP_U m ob.Id (some { ob with Commit := true }))) }) [] := by
    unfold Segmented.KiteFileStore.Commit
    simp only [hh, hp, hob, Segmented.MessageStore.Update, Segmented.NewCommand, hidx,
      jsonMarshal]
  refine ⟨⟨_, hc, hq, ?_, ?_, rfl, ?_, ?_, rfl, rfl, ?_, hf2, hf4, hf3⟩, ?_⟩
  · rw [queryOpBody_eq _ m h hh]
    simp only [Function.update_same, hp, Option.some_bind]
    exact elemValue_setValue_same _ _ _ hmem
  · intro m1 hm1
    cases hg : hashId m1 with
    | none => simp [KiteFileStore.queryOpBody, hg]
    | some g =>
      refine And.right (query_frame fs.index _ h m1 g hg ?_ ?_ ?_ ?_)
      · intro i _; rfl
      · intro i hi; exact Function.update_noteq hi _ _
      · rfl
      intro q hq1
      have hqp : q ≠ p := ptr_ne_of_key_ne (hwf h) _ _ p q hp hq1 hm1
      simp only [Function.update_same]
      exact elemValue_setValue_ne _ _ _ _ hqp
  · intro i
    by_cases hi : i = h
    · subst hi
      simp only [Function.update_same]
      exact ptr_setValue _ _ _
    · simp only [Function.update_noteq hi]
  · intro i q hiq
    by_cases hi : i = h
    · subst hi
      have hqp : q ≠ p := by
        rcases hiq with hiq | hiq
        · exact absurd rfl hiq
        · exact hiq
      simp only [Function.update_same]
      exact elemValue_setValue_ne _ _ _ _ hqp
    · simp only [Function.update_noteq hi]
  · simp only [Segmented.MessageStore.writeSegment, hf1]
  · unfold Segmented.KiteFileStore.Commit
    simp only [hh2, hm2]

/-- C10 amended, on the file store started over `pagingDisk`: "a0" is held with chunk id 0,
which segment 0 covers, and "zz" is not held. -/
theorem C10_commit_amended_witness :
    Segmented.recoveredStore.index.WF ∧ hashId "a0" = some 0 ∧
    mapGet (Segmented.recoveredStore.index.oplogs 0) "a0" = some 0 ∧
    elemValue (Segmented.recoveredStore.index.loglink 0) 0 =
      some (sampleBody 0 "a0" false 100) ∧
    Segmented.recoveredStore.snapshot.indexSegment (sampleBody 0 "a0" false 100).Id true =
      some (Segmented.pagingSegment,
        { Segmented.recoveredStore.snapshot with
          segmentCache := [Segmented.pagingSegment] }) ∧
    hashId "zz" = some 0 ∧ mapGet (Segmented.recoveredStore.index.oplogs 0) "zz" = none ∧
    ((∃ fs1, Segmented.recoveredStore.Commit "a0" true = .returned (true, fs1) [] ∧
      Segmented.recoveredStore.index.queryOpBody "a0" =
        some (sampleBody 0 "a0" false 100) ∧
      fs1.index.queryOpBody "a0" = some { sampleBody 0 "a0" false 100 with Commit := true } ∧
      (∀ m1, m1 ≠ "a0" →
        fs1.index.queryOpBody m1 = Segmented.recoveredStore.index.queryOpBody m1) ∧
      fs1.index.oplogs = Segmented.recoveredStore.index.oplogs ∧
      (∀ i, (fs1.index.loglink i).map Element.ptr =
        (Segmented.recoveredStore.index.loglink i).map Element.ptr) ∧
      (∀ i q, i ≠ 0 ∨ q ≠ 0 →
        elemValue (fs1.index.loglink i) q =
          elemValue (Segmented.recoveredStore.index.loglink i) q) ∧
      fs1.index.maxcap = Segmented.recoveredStore.index.maxcap ∧
      fs1.snapshot =
        ({ Segmented.recoveredStore.snapshot with
            segmentCache := [Segmented.pagingSegment] } :
          Segmented.MessageStore).writeSegment Segmented.pagingSegment.sid
        (fun x => x.logAppend (newOplog .OP_U "a0" (sampleBody 0 "a0" false 100).Id
          (some { sampleBody 0 "a0" false 100 with Commit := true }))) ∧
      fs1.snapshot.segments = Segmented.updateSegment Segmented.pagingSegment.sid
        (fun x => x.logAppend (newOplog .OP_U "a0" (sampleBody 0 "a0" false 100).Id
          (some { sampleBody 0 "a0" false 100 with Commit := true })))
        Segmented.recoveredStore.snapshot.segments ∧
      fs1.snapshot.chunkId = Segmented.recoveredStore.snapshot.chunkId ∧
      fs1.snapshot.running = Segmented.recoveredStore.snapshot.running ∧
      fs1.snapshot.writeChannel = Segmented.recoveredStore.snapshot.writeChannel) ∧
    Segmented.recoveredStore.Commit "zz" true =
      .returned (false, Segmented.recoveredStore) []) :=
  ⟨by decide, by decide, by decide, by decide, by decide, by decide, by decide,
    C10_commit_amended Segmented.recoveredStore (by decide) "a0" "zz" 0 0 0
      (sampleBody 0 "a0" false 100) Segmented.pagingSegment
      { Segmented.recoveredStore.snapshot with segmentCache := [Segmented.pagingSegment] }
      true (by decide) (by decide) (by decide) (by decide) (by decide) (by decide)⟩

/-- C11, as the code behaves: `UpdateEntity` does not copy the commit flag.  On the file
store started over `pagingDisk`, whose entry "a0" is uncommitted, an update with a committed
entity returns `true` and leaves the stored commit flag `false`; the groups, delivery time
and delivery count are those of the entity.  And on a store that was never started, after
`Save` of "m0" has stored it with chunk id -1, `UpdateEntity` of "m0" does not return: it
panics in `indexSegment`. -/
theorem C11_update_keeps_commit_flag :
    updatedEntity.Commit = true ∧
    Segmented.recoveredStore.index.queryOpBody "a0" = some (sampleBody 0 "a0" false 100) ∧
    (Segmented.recoveredStore.UpdateEntity updatedEntity true).value?.map
        (fun r => (r.1, r.2.index.queryOpBody "a0")) =
      some (true, some { sampleBody 0 "a0" false 700 with
        FailGroups := ["g1"], SuccGroups := ["g2"], DeliverCount := 3 }) ∧
    ((Segmented.NewKiteFileStore 1600 67108864).calls
        [.Save (sampleEntity "m0" 100) true true]).value?.map
      (fun fs => (fs.index.queryOpBody "m0",
        (fs.UpdateEntity (sampleEntity "m0" 900) true).isPanicked)) =
      some (some (sampleBody (-1) "m0" false 100), true) := by
  decide

/-- C11 amended: for an entity whose message id the shard map holds, with stored `opBody`
`ob`, and whose chunk id `indexSegment` resolves to a segment `s`, `UpdateEntity` returns
`true`; the stored `opBody` takes the fail groups, succ groups, next delivery time and
delivery count of the entity and keeps its commit flag, chunk id and message id; one `U`
record with the new body is appended to the log of `s`. -/
theorem C11_update_amended (fs : Segmented.KiteFileStore) (entity : MessageEntity)
    (h : Fin CONCURRENT_LEVEL) (p : Nat) (ob : opBody)
    (s : Segmented.Segment) (snap : Segmented.MessageStore) (openOk : Bool)
    (hh : hashId entity.MessageId = some h)
    (hp : mapGet (fs.index.oplogs h) entity.MessageId = some p)
    (hob : elemValue (fs.index.loglink h) p = some ob)
    (hidx : fs.snapshot.indexSegment ob.Id openOk = some (s, snap)) :
    ∃ ob1 fs1, fs.UpdateEntity entity openOk = .returned (true, fs1) [] ∧
      fs.index.queryOpBody entity.MessageId = some ob ∧
      fs1.index.queryOpBody entity.MessageId = some ob1 ∧
      ob1.FailGroups = entity.FailGroups ∧ ob1.SuccGroups = entity.SuccGroups ∧
      ob1.NextDeliverTime = entity.NextDeliverTime ∧
      ob1.DeliverCount = entity.DeliverCount ∧
      ob1.Commit = ob.Commit ∧ ob1.Id = ob.Id ∧ ob1.MessageId = ob.MessageId ∧
      fs1.snapshot = snap.writeSegment s.sid
        (fun x => x.logAppend (newOplog .OP_U entity.MessageId ob.Id (some ob1))) ∧
      fs1.snapshot.segments = Segmented.updateSegment s.sid
        (fun x => x.logAppend (newOplog .OP_U entity.MessageId ob.Id (some ob1)))
        fs.snapshot.segments := by
  have hmem : p ∈ (fs.index.loglink h).map Element.ptr :=
    List.mem_map_of_mem Element.ptr (mem_of_elemValue _ p ob hob)
  have hq : fs.index.queryOpBody entity.MessageId = some ob := by
    rw [queryOpBody_eq fs.index _ h hh, hp, Option.some_bind, hob]
  obtain ⟨hf1, _, _, _⟩ := indexSegment_frame _ _ _ _ _ hidx
  have hu : fs.UpdateEntity entity openOk = .returned (true,
      { index :=
          { fs.index with
            loglink := Function.update fs.index.loglink h
              (setValue (fs.index.loglink h) p
                { ob with
                  DeliverCount := entity.DeliverCount,
                  NextDeliverTime := entity.NextDeliverTime,
                  SuccGroups := entity.SuccGroups,
                  FailGroups := entity.FailGroups }) },
        snapshot := snap.writeSegment s.sid
          (fun x => x.logAppend
            (newOplog .OP_U entity.MessageId ob.Id
              (some
                { ob with
                  DeliverCount := entity.DeliverCount,
                  NextDeliverTime := entity.NextDeliverTime,
                  SuccGroups := entity.SuccGroups,
                  FailGroups := entity.FailGroups }))) }) [] := by
    unfold Segmented.KiteFileStore.UpdateEntity
    simp only [hh, hp, hob, Segmented.MessageStore.Update, Segmented.NewCommand, hidx,
      jsonMarshal]
  refine ⟨{ ob with
      DeliverCount := entity.DeliverCount,
      NextDeliverTime := entity.NextDeliverTime,
      SuccGroups := entity.SuccGroups,
      FailGroups := entity.FailGroups },
    _, hu, hq, ?_, rfl, rfl, rfl, rfl, rfl, rfl, rfl, rfl, ?_⟩
  · rw [queryOpBody_eq _ _ h hh]
    simp only [Function.update_same, hp, Option.some_bind]
    exact elemValue_setValue_same _ _ _ hmem
  · simp only [Segmented.MessageStore.writeSegment, hf1]

/-- C11 amended, on the file store started over `pagingDisk`, with the committed variant of
"a0", whose chunk id 0 segment 0 covers. -/
theorem C11_update_amended_witness :
    hashId updatedEntity.MessageId = some 0 ∧
    mapGet (Segmented.recoveredStore.index.oplogs 0) updatedEntity.MessageId = some 0 ∧
    elemValue (Segmented.recoveredStore.index.loglink 0) 0 =
      some (sampleBody 0 "a0" false 100) ∧
    Segmented.recoveredStore.snapshot.indexSegment (sampleBody 0 "a0" false 100).Id true =
      some (Segmented.pagingSegment,
        { Segmented.recoveredStore.snapshot with
          segmentCache := [Segmented.pagingSegment] }) ∧
    ∃ ob1 fs1, Segmented.recoveredStore.UpdateEntity updatedEntity true =
        .returned (true, fs1) [] ∧
      Segmented.recoveredStore.index.queryOpBody updatedEntity.MessageId =
        some (sampleBody 0 "a0" false 100) ∧
      fs1.index.queryOpBody updatedEntity.MessageId = some ob1 ∧
      ob1.FailGroups = updatedEntity.FailGroups ∧ ob1.SuccGroups = updatedEntity.SuccGroups ∧
      ob1.NextDeliverTime = updatedEntity.NextDeliverTime ∧
      ob1.DeliverCount = updatedEntity.DeliverCount ∧
      ob1.Commit = (sampleBody 0 "a0" false 100).Commit ∧
      ob1.Id = (sampleBody 0 "a0" false 100).Id ∧
      ob1.MessageId = (sampleBody 0 "a0" false 100).MessageId ∧
      fs1.snapshot =
        ({ Segmented.recoveredStore.snapshot with
            segmentCache := [Segmented.pagingSegment] } :
          Segmented.MessageStore).writeSegment Segmented.pagingSegment.sid
        (fun x => x.logAppend
          (newOplog .OP_U updatedEntity.MessageId (sampleBody 0 "a0" false 100).Id
            (some ob1))) ∧
      fs1.snapshot.segments = Segmented.updateSegment Segmented.pagingSegment.sid
        (fun x => x.logAppend
          (newOplog .OP_U updatedEntity.MessageId (sampleBody 0 "a0" false 100).Id
            (some ob1)))
        Segmented.recoveredStore.snapshot.segments :=
  ⟨by decide, by decide, by decide, by decide,
    C11_update_amended Segmented.recoveredStore updatedEntity 0 0
      (sampleBody 0 "a0" false 100) Segmented.pagingSegment
      { Segmented.recoveredStore.snapshot with segmentCache := [Segmented.pagingSegment] }
      true (by decide) (by decide) (by decide) (by decide)⟩

/-! ## Chunk ids -/

/-- The ids of `n` successive calls of `cid`, as long as the counter does not wrap. -/
theorem cidAll_eq (n : Nat) : ∀ (self : Segmented.MessageStore),
    -1 ≤ self.chunkId → self.chunkId + n < 2 ^ 63 →
    self.cidAll n = (List.range n).map (fun (k : Nat) => self.chunkId + (k : Int) + 1) := by
  induction n with
  | zero => intro self _ _; rfl
  | succ n ih =>
    intro self hlo hhi
    have hw : wrapInt64 (self.chunkId + 1) = self.chunkId + 1 :=
      wrapInt64_of_range _ (by omega) (by push_cast at hhi; omega)
    have h1 := ih (self.cid).2
      (by simp only [Segmented.MessageStore.cid, hw]; omega)
      (by simp only [Segmented.MessageStore.cid, hw]; push_cast at hhi; omega)
    simp only [Segmented.MessageStore.cidAll]
    rw [h1, List.range_succ_eq_map, List.map_cons, List.map_map]
    simp only [Segmented.MessageStore.cid, hw, Nat.cast_zero, add_zero, List.cons.injEq,
      true_and]
    apply List.map_congr_left
    intro k _
    simp only [Function.comp, Nat.cast_succ]
    omega

/-- C13, as the code behaves.  On a store that was just started on an empty directory (the
counter at -1, one segment), a call of `Append` assigns the id 0 by `cid` but is then stuck
on the store mutex: it returns no id.  And the counter is an `int64`: from 2^63 - 2, two
calls of `cid` assign 2^63 - 1 and then -2^63, which is not an increase. -/
theorem C13_no_id_returned_and_wrap :
    ((Segmented.NewKiteFileStore 1600 67108864).Start [] true).value?.map
      (fun fs => (fs.snapshot.running, fs.snapshot.chunkId, (fs.snapshot.cid).1)) =
      some (true, -1, 0) ∧
    ((Segmented.NewKiteFileStore 1600 67108864).Start [] true).value?.map
      (fun fs => ((fs.snapshot.AppendLocked (Segmented.sampleCommand "m") true true []).stuckOn,
        (fs.snapshot.AppendLocked (Segmented.sampleCommand "m") true true []).value?.map
          Prod.fst)) = some (some .store, none) ∧
    (Segmented.runningStore [Segmented.newSegment 0] (2 ^ 63 - 2)).cidAll 2 =
      [2 ^ 63 - 1, -2 ^ 63] ∧
    ¬ ((Segmented.runningStore [Segmented.newSegment 0] (2 ^ 63 - 2)).cidAll 2).Pairwise
      (fun a b => a < b) := by
  decide

/-- C13 amended: for every sequence of calls of `MessageStore.cid`, the assignment of the
chunk id with which every call of `Append` on a running store begins, on a store whose
counter is at least -1 and stays below 2^63 - 1 before each call, the assigned ids are the
successors of the counter, one by one, so they are strictly increasing in call order and all
above the initial counter; on a fresh store, whose counter is -1, the first assigned id
is 0. -/
theorem C13_chunk_ids_amended (self : Segmented.MessageStore) (n : Nat)
    (hlo : -1 ≤ self.chunkId) (hhi : self.chunkId + n < 2 ^ 63) :
    self.cidAll n = (List.range n).map (fun (k : Nat) => self.chunkId + (k : Int) + 1) ∧
    (self.cidAll n).Pairwise (fun a b => a < b) ∧
    (∀ id ∈ self.cidAll n, self.chunkId < id) ∧
    (∀ (batchSize : Nat) (segcacheSize maxSegmentSize : Int),
      ((Segmented.NewMessageStore batchSize segcacheSize maxSegmentSize).cid).1 = 0) := by
  have heq := cidAll_eq n self hlo hhi
  refine ⟨heq, ?_, ?_, ?_⟩
  · rw [heq, List.pairwise_map]
    refine (List.pairwise_lt_range n).imp ?_
    intro a b hab
    have : (a : Int) < (b : Int) := by exact_mod_cast hab
    omega
  · intro id hid
    rw [heq] at hid
    obtain ⟨k, _, rfl⟩ := List.mem_map.1 hid
    omega
  · intro b c m
    rfl

/-- C13 amended, on a running store whose counter stands at 4, for three calls. -/
theorem C13_chunk_ids_amended_witness :
    (-1 : Int) ≤ (Segmented.runningStore [Segmented.newSegment 0] 4).chunkId ∧
    (Segmented.runningStore [Segmented.newSegment 0] 4).chunkId + (3 : Nat) < 2 ^ 63 ∧
    ((Segmented.runningStore [Segmented.newSegment 0] 4).cidAll 3 =
      (List.range 3).map
        (fun (k : Nat) =>
          (Segmented.runningStore [Segmented.newSegment 0] 4).chunkId + (k : Int) + 1) ∧
    ((Segmented.runningStore [Segmented.newSegment 0] 4).cidAll 3).Pairwise
      (fun a b => a < b) ∧
    (∀ id ∈ (Segmented.runningStore [Segmented.newSegment 0] 4).cidAll 3,
      (Segmented.runningStore [Segmented.newSegment 0] 4).chunkId < id) ∧
    (∀ (batchSize : Nat) (segcacheSize maxSegmentSize : Int),
      ((Segmented.NewMessageStore batchSize segcacheSize maxSegmentSize).cid).1 = 0)) :=
  ⟨by decide, by decide,
    C13_chunk_ids_amended (Segmented.runningStore [Segmented.newSegment 0] 4) 3 (by decide)
      (by decide)⟩

/-! ## The roll of a segment -/

/-- C19, as the code behaves: `checkRoll` takes the `sid` of the new segment from the last
chunk that is already flushed into the old one, whatever the counter and the queue hold.
For every store whose last segment exceeds the roll threshold and has `c` as its last
flushed chunk, a call of `checkRoll` that starts with no lock held, as in `load`, creates a
segment with `sid` `c.id + 1`; inside `Append`, where the store mutex is held, the call does
not create a segment at all, it is stuck. -/
theorem C19_roll_ignores_queued_chunks (self : Segmented.MessageStore)
    (s : Segmented.Segment) (c : Segmented.Chunk) (held : List Segmented.Mutex)
    (hlast : self.segments.getLast? = some s)
    (hbig : s.byteSize > self.MAX_SEGMENT_SIZE)
    (hc : s.chunks.getLast? = some c)
    (hlo : -2 ^ 63 ≤ c.id + 1) (hhi : c.id + 1 < 2 ^ 63)
    (hheld : Segmented.Mutex.store ∈ held) :
    self.loadCheckRoll true =
      .returned (c.id + 1,
        { self with segments := self.segments ++ [Segmented.newSegment (c.id + 1)] }) [] ∧
    self.checkRollLocked true held = .stuck .store := by
  have hne : ¬ self.segments.length ≤ 0 := by
    cases hs : self.segments with
    | nil => rw [hs] at hlast; simp at hlast
    | cons x rest => simp
  constructor
  · unfold Segmented.MessageStore.loadCheckRoll Segmented.MessageStore.checkRollLocked
    rw [if_neg hne]
    simp only [Segmented.lock, List.not_mem_nil, if_false, hlast, hbig, if_true, hc,
      wrapInt64_of_range _ hlo hhi, Segmented.unlock]
    rfl
  · rw [checkRollLocked_held self true held hheld, if_neg (fun h => hne h.1)]

/-- C19 at the store whose segment 0 holds the flushed chunk 0 while the chunks 1 and 2 of
that segment are still queued and the counter stands at 2: the new segment gets the `sid` 1,
not 3. -/
theorem C19_roll_ignores_queued_chunks_witness :
    Segmented.unflushedStore.segments.getLast? = some (Segmented.sampleSegment 0 [0]) ∧
    (Segmented.sampleSegment 0 [0]).byteSize > Segmented.unflushedStore.MAX_SEGMENT_SIZE ∧
    (Segmented.sampleSegment 0 [0]).chunks.getLast? = some (Segmented.sampleChunk 0) ∧
    -2 ^ 63 ≤ (Segmented.sampleChunk 0).id + 1 ∧ (Segmented.sampleChunk 0).id + 1 < 2 ^ 63 ∧
    Segmented.Mutex.store ∈ [Segmented.Mutex.store] ∧
    Segmented.unflushedStore.chunkId = 2 ∧
    Segmented.unflushedStore.writeChannel.map (fun cmd => (cmd.id, cmd.seg)) =
      [(1, some 0), (2, some 0)] ∧
    (Segmented.sampleChunk 0).id + 1 = 1 ∧
    (Segmented.unflushedStore.loadCheckRoll true =
      .returned ((Segmented.sampleChunk 0).id + 1,
        { Segmented.unflushedStore with
          segments := Segmented.unflushedStore.segments ++
            [Segmented.newSegment ((Segmented.sampleChunk 0).id + 1)] }) [] ∧
    Segmented.unflushedStore.checkRollLocked true [Segmented.Mutex.store] = .stuck .store) :=
  ⟨by decide, by decide, by decide, by decide, by decide, by decide, by decide, by decide,
    by decide,
    C19_roll_ignores_queued_chunks Segmented.unflushedStore (Segmented.sampleSegment 0 [0])
      (Segmented.sampleChunk 0) [Segmented.Mutex.store] (by decide) (by decide) (by decide)
      (by decide) (by decide) (by decide)⟩

/-- After the roll of C19 the flusher appends the queued chunks 1 and 2 to segment 0, so
segment 0 holds ids at and above the `sid` 1 of the new segment; `Query(1)` then selects the
new segment and reports that it has no such chunk. -/
theorem roll_then_flush_hides_chunk :
    (Segmented.unflushedStore.loadCheckRoll true).value?.bind
        (fun r => (r.2.sync [true, true]).map
          (fun ms => ms.segments.map (fun s => (s.sid, s.chunks.map Segmented.Chunk.id)))) =
      some [(0, [0, 1, 2]), (1, [])] ∧
    (Segmented.unflushedStore.loadCheckRoll true).value?.bind
        (fun r => (r.2.sync [true, true]).bind
          (fun ms => (ms.Query 1 true).map Prod.fst)) =
      some (.noChunk 1 1) := by
  decide

/-! ## Live calls and replay on the file store with its segments -/

/-- On the file store started over `pagingDisk`, `Expired("a0")` returns `true` and the index
no longer holds "a0"; the record it appends to the log of segment 0 has a nil body, and
replaying the log of that segment into a new index leaves "a0" in it. -/
theorem expired_record_is_skipped_by_replay :
    (Segmented.recoveredStore.Expired "a0" true).value?.map
        (fun r => (r.1, r.2.index.queryOpBody "a0",
          r.2.snapshot.segments.map (fun s => s.slog.getLast?))) =
      some (true, none, [some (newOplog .OP_E "a0" 0 none)]) ∧
    ((Segmented.recoveredStore.Expired "a0" true).value?.bind
        (fun r => r.2.snapshot.segments.head?.bind
          (fun s => (NewKiteFileStore 1600).replayAll s.slog))).map
      (fun fs => fs.queryOpBody "a0") = some (some (sampleBody 0 "a0" false 100)) := by
  decide

/-- On the file store started over `pagingDisk`, whose shard 0 lists "d0", "b0", "a0" from the
front, `Commit("a0")` and `UpdateEntity` of "a0" return `true` and leave that order, whereas
replaying the log of segment 0, which now ends with the `U` record of "a0", puts "a0" at the
front. -/
theorem update_paths_keep_position :
    (Segmented.recoveredStore.index.loglink 0).map (fun e => e.Value.MessageId) =
      ["d0", "b0", "a0"] ∧
    (Segmented.recoveredStore.Commit "a0" true).value?.map
        (fun r => (r.1, (r.2.index.loglink 0).map (fun e => e.Value.MessageId))) =
      some (true, ["d0", "b0", "a0"]) ∧
    (Segmented.recoveredStore.UpdateEntity updatedEntity true).value?.map
        (fun r => (r.1, (r.2.index.loglink 0).map (fun e => e.Value.MessageId))) =
      some (true, ["d0", "b0", "a0"]) ∧
    ((Segmented.recoveredStore.Commit "a0" true).value?.bind
        (fun r => r.2.snapshot.segments.head?.bind
          (fun s => (NewKiteFileStore 1600).replayAll s.slog))).map
      (fun fs => (fs.loglink 0).map (fun e => e.Value.MessageId)) =
      some ["a0", "d0", "b0"] := by
  decide

end KiteQ
